import Mathlib

/-!
# Premium-Video-PDF-Access: chunked encrypted object store and range server

A shallow embedding of the upload route (`server/src/app/api/upload/route.js`),
the stream route (`server/src/app/api/stream/route.js`) and the `File` schema
(`server/src/models/File.js`).

Modelling conventions.

* Strings are lists of characters, buffers are lists of bytes.
* A JavaScript number is an exact integer or `NaN`.  The integers that occur are
  chunk indices, byte offsets and lengths; they are exact in a double below `2^53`.
* The AES-256-GCM primitive of the `crypto` module is a parameter (`AesGcm`).
* Random draws, the clock and I/O failures are inputs of the request (`PostEnv`,
  `GetEnv`); the process-wide constants are in `Host`.
* The persisted state (`Store`) is the `File` collection and the chunk directory.
-/

namespace PremiumAccess

/-! ## Bytes, strings and numbers -/

abbrev Byte := Fin 256
abbrev Bytes := List Byte
abbrev Str := List Char

/-- A JavaScript number: `NaN` or an integer. -/
inductive JSNum where
  | nan : JSNum
  | int (i : Int) : JSNum
  deriving DecidableEq, Repr

namespace JSNum

/-- Decimal rendering, as in a template literal or `Number.prototype.toString`. -/
def toStr : JSNum → Str
  | nan => "NaN".toList
  | int i => if i < 0 then '-' :: Nat.toDigits 10 i.natAbs else Nat.toDigits 10 i.natAbs

/-- The operator `a + b` on numbers. -/
def add : JSNum → JSNum → JSNum
  | int a, int b => int (a + b)
  | _, _ => nan

/-- The operator `a - b` on numbers. -/
def sub : JSNum → JSNum → JSNum
  | int a, int b => int (a - b)
  | _, _ => nan

/-- The operator `a * b` on numbers. -/
def mul : JSNum → JSNum → JSNum
  | int a, int b => int (a * b)
  | _, _ => nan

/-- The function `Math.min(a, b)`: `NaN` when either argument is `NaN`. -/
def min : JSNum → JSNum → JSNum
  | int a, int b => int (Min.min a b)
  | _, _ => nan

/-- The test `Number.isNaN`. -/
def isNaN : JSNum → Bool
  | nan => true
  | int _ => false

end JSNum

/-- Truthiness of a value that is `null` or a string: only a non-empty string is truthy. -/
def truthy : Option Str → Bool
  | some (_ :: _) => true
  | _ => false

/-- The abstract operation `ToString` on a value that is `null` or a string. -/
def jsToString : Option Str → Str
  | none => "null".toList
  | some s => s

/-- The operator `a || b` for a nullable string `a` and a string `b`. -/
def orElseStr (a : Option Str) (b : Str) : Str :=
  match a with
  | some (c :: cs) => c :: cs
  | _ => b

/-- White space and line terminators skipped by `parseInt` (StrWhiteSpaceChar). -/
def isStrWhiteSpace (c : Char) : Bool :=
  let n := c.toNat
  n = 0x9 || n = 0xA || n = 0xB || n = 0xC || n = 0xD || n = 0x20 || n = 0xA0 ||
  n = 0x1680 || (0x2000 ≤ n && n ≤ 0x200A) || n = 0x2028 || n = 0x2029 ||
  n = 0x202F || n = 0x205F || n = 0x3000 || n = 0xFEFF

/-- Value of an alphanumeric character as a digit in base 36. -/
def digitValue (c : Char) : Option Nat :=
  let n := c.toNat
  if 48 ≤ n ∧ n ≤ 57 then some (n - 48)
  else if 97 ≤ n ∧ n ≤ 122 then some (n - 87)
  else if 65 ≤ n ∧ n ≤ 90 then some (n - 55)
  else none

/-- Value of `c` as a digit of radix `R`, when it is one. -/
def radixDigit (R : Nat) (c : Char) : Option Nat :=
  match digitValue c with
  | some d => if d < R then some d else none
  | none => none

/-- Numeric value of a run of radix-`R` digits. -/
def digitsValue (R : Nat) (z : Str) : Nat :=
  z.foldl (fun acc c => acc * R + (radixDigit R c).getD 0) 0

/-- Step 4 of `parseInt`: a leading sign character is removed. -/
def stripSign : Str → Str
  | '-' :: r => r
  | '+' :: r => r
  | s => s

/-- Whether the string starts with `0x` or `0X`. -/
def hasHexPrefix (s : Str) : Bool :=
  ['0', 'x'].isPrefixOf s || ['0', 'X'].isPrefixOf s

/-- The closing steps of `parseInt`: the longest run of radix-`R` digits is the value,
and an empty run gives `NaN`. -/
def parseDigits (sign : Int) (R : Nat) (s : Str) : JSNum :=
  let z := s.takeWhile (fun c => (radixDigit R c).isSome)
  if z = [] then JSNum.nan else JSNum.int (sign * (digitsValue R z : Int))

/-- The global function `parseInt(string, radix)`; `radix = none` is an omitted radix. -/
def parseInt (input : Str) (radix : Option Nat) : JSNum :=
  let s := input.dropWhile isStrWhiteSpace
  let sign : Int := if s.head? = some '-' then -1 else 1
  let s := stripSign s
  let R : Nat := match radix with
    | none => 10
    | some 0 => 10
    | some r => r
  let stripPrefix : Bool := match radix with
    | none => true
    | some 0 => true
    | some r => r = 16
  if R < 2 ∨ 36 < R then JSNum.nan
  else if stripPrefix && hasHexPrefix s then parseDigits sign 16 (s.drop 2)
  else parseDigits sign R s

/-- The method `String.prototype.replace(pattern, "")` for a literal pattern without the
global flag: the leftmost occurrence of `pat` is removed. -/
def removeFirst (pat : Str) : Str → Str
  | [] => []
  | c :: cs => if pat.isPrefixOf (c :: cs) then (c :: cs).drop pat.length
               else c :: removeFirst pat cs

/-- The method `String.prototype.split(sep)` for a one-character separator. -/
def splitOnChar (sep : Char) : Str → List Str
  | [] => [[]]
  | c :: cs =>
    if c = sep then [] :: splitOnChar sep cs
    else match splitOnChar sep cs with
      | [] => [[c]]
      | p :: ps => (c :: p) :: ps

/-- Segments joined with a separator character between them. -/
def joinWith (sep : Char) : List Str → Str
  | [] => []
  | [s] => s
  | s :: t :: rest => s ++ sep :: joinWith sep (t :: rest)

/-! ## Buffers -/

/-- Offset adjustment of `Buffer.prototype.slice` (Node `adjustOffset`). -/
def adjustOffset (offset : JSNum) (length : Nat) : Nat :=
  match offset with
  | JSNum.nan => 0
  | JSNum.int o =>
    if o = 0 then 0
    else if o < 0 then (if 0 < o + length then (o + length).toNat else 0)
    else if o < length then o.toNat
    else length

/-- The method `buf.slice(start, end)`. -/
def bufferSlice (buf : Bytes) (start end_ : JSNum) : Bytes :=
  let s := adjustOffset start buf.length
  let e := adjustOffset end_ buf.length
  let newLength := if s < e then e - s else 0
  (buf.drop s).take newLength

/-- The method `buf.toString('hex')`. -/
def bufferToHex : Bytes → Str
  | [] => []
  | b :: bs => Nat.digitChar (b.val / 16) :: Nat.digitChar (b.val % 16) :: bufferToHex bs

/-- The call `Buffer.from(str, 'hex')`: decoding stops at the first pair that is not hex. -/
def bufferFromHex : Str → Bytes
  | a :: b :: rest =>
    match radixDigit 16 a, radixDigit 16 b with
    | some x, some y => Fin.ofNat (16 * x + y) :: bufferFromHex rest
    | _, _ => []
  | _ => []

/-! ## Paths (POSIX `path` module) -/

/-- One step of `normalizeString`: `stack` holds the kept segments, last one first. -/
def normalizeStep (allowAboveRoot : Bool) (stack : List Str) (seg : Str) : List Str :=
  if seg = [] ∨ seg = ['.'] then stack
  else if seg = ['.', '.'] then
    match stack with
    | top :: below =>
      if top = ['.', '.'] then (if allowAboveRoot then seg :: stack else stack)
      else below
    | [] => if allowAboveRoot then [seg] else []
  else seg :: stack

/-- The function `normalizeString` on the segments of a path. -/
def normalizeString (allowAboveRoot : Bool) (path : Str) : Str :=
  joinWith '/' ((splitOnChar '/' path).foldl (normalizeStep allowAboveRoot) []).reverse

/-- The function `path.normalize`. -/
def pathNormalize (path : Str) : Str :=
  if path = [] then ['.']
  else
    let isAbsolute : Bool := path.head? = some '/'
    let trailingSeparator : Bool := path.getLast? = some '/'
    let res := normalizeString (!isAbsolute) path
    if res = [] then
      (if isAbsolute then ['/'] else if trailingSeparator then ['.', '/'] else ['.'])
    else
      let res := if trailingSeparator then res ++ ['/'] else res
      if isAbsolute then '/' :: res else res

/-- The function `path.join`. -/
def pathJoin (args : List Str) : Str :=
  match args.filter (fun a => a ≠ []) with
  | [] => ['.']
  | a :: rest => pathNormalize (joinWith '/' (a :: rest))

/-! ## The `crypto` module -/

/-- The AES-256-GCM primitive of the `crypto` module.  `encrypt key iv plaintext` is the
ciphertext and the authentication tag; `decrypt key iv ciphertext authTag` is the plaintext.
`none` stands for a thrown exception (an invalid key length, a tag that does not verify). -/
structure AesGcm where
  encrypt : Bytes → Bytes → Bytes → Option (Bytes × Bytes)
  decrypt : Bytes → Bytes → Bytes → Bytes → Option Bytes

/-- A draw of `Math.random()`: the fraction `num / den`, which lies in `[0, 1)`. -/
structure MathRandom where
  num : Nat
  den : Nat
  lt_one : num < den

/-- The expression `Math.floor(Math.random() * k)`. -/
def MathRandom.floorMul (r : MathRandom) (k : Nat) : Nat := r.num * k / r.den

/-! ## Data model (`models/File.js`) and persisted state -/

/-- An element of the `chunks` array of the schema. -/
structure ChunkDescriptor where
  index : Int
  filePath : Str
  size : Nat
  authTag : Str
  deriving DecidableEq, Repr

/-- A persisted document of the `File` model (`fileSchema`). -/
structure FileDoc where
  fileId : Str
  fileName : Str
  fileType : Str
  fileSize : Int
  encryptionIV : Str
  encryptionKey : Str
  uploadedAt : Nat
  chunks : List ChunkDescriptor
  deriving DecidableEq, Repr

/-- The persisted state: the `File` collection in insertion order and the files on disk
(the most recent write first). -/
structure Store where
  files : List FileDoc
  disk : List (Str × Bytes)
  deriving DecidableEq, Repr

/-- Process-wide constants: `process.cwd()`, `process.env.ENCRYPTION_KEY`, the cipher. -/
structure Host where
  cwd : Str
  ENCRYPTION_KEY : Option Str
  crypto : AesGcm

/-- The query `File.findOne({ fileId })`; `fileId` is `null` or a string. -/
def findOne (files : List FileDoc) (fileId : Option Str) : Option FileDoc :=
  files.find? (fun d => some d.fileId = fileId)

/-- The call `readFile(path)`: `none` when no such file exists. -/
def readFile (disk : List (Str × Bytes)) (path : Str) : Option Bytes :=
  (disk.find? (fun e => e.1 = path)).map Prod.snd

/-- The call `writeFile(path, data)`: creates the file or replaces its content. -/
def writeFile (disk : List (Str × Bytes)) (path : Str) (data : Bytes) : List (Str × Bytes) :=
  (path, data) :: disk

/-- The update issued by `fileDoc.save()` for a document that `findOne` returned. -/
def replaceDoc (doc : FileDoc) : List FileDoc → List FileDoc
  | [] => []
  | d :: ds => if d.fileId = doc.fileId then doc :: ds else d :: replaceDoc doc ds

/-! ## Responses -/

/-- The exceptions caught by the `catch` blocks of the routes. -/
inductive Thrown where
  | typeError
  | cipherError
  | ioError
  | validationError
  | dbError
  deriving DecidableEq, Repr

/-- Equality of results is decidable. -/
instance decEqExcept {ε α : Type} [DecidableEq ε] [DecidableEq α] : DecidableEq (Except ε α)
  | Except.ok a, Except.ok b =>
    if h : a = b then isTrue (by rw [h]) else isFalse (fun h2 => h (by injection h2))
  | Except.error a, Except.error b =>
    if h : a = b then isTrue (by rw [h]) else isFalse (fun h2 => h (by injection h2))
  | Except.ok _, Except.error _ => isFalse (fun h => by injection h)
  | Except.error _, Except.ok _ => isFalse (fun h => by injection h)

/-- A response body. -/
inductive Body where
  | bytes (content : Bytes)
  | error (message : Str)
  | thrown (e : Thrown)
  | uploaded (chunkIndex totalChunks : JSNum) (fileId : Option Str) (message : Str)
  deriving DecidableEq, Repr

/-- A `NextResponse`. -/
structure Response where
  status : Nat
  headers : List (Str × Str)
  body : Body
  deriving DecidableEq, Repr

/-- Value of a response header. -/
def Response.header (r : Response) (name : Str) : Option Str :=
  (r.headers.find? (fun h => h.1 = name)).map Prod.snd

/-- The bytes carried by a response: none for a JSON body. -/
def Response.content (r : Response) : Bytes :=
  match r.body with
  | Body.bytes b => b
  | _ => []

/-! ## Upload route (`api/upload/route.js`) -/

/-- The constant `CHUNK_DIR`. -/
def CHUNK_DIR (host : Host) : Str :=
  pathJoin [host.cwd, "uploads".toList, "chunks".toList]

/-- The function `encryptChunk(buffer, key, iv)`. -/
def encryptChunk (crypto : AesGcm) (buffer : Bytes) (key : Str) (iv : Bytes) :
    Option (Bytes × Bytes) :=
  crypto.encrypt (bufferFromHex key) iv buffer

/-- The fields of the multipart form; `none` is a field that `formData.get` does not find.
`chunk` is `none` also when the part is not a file. -/
structure PostRequest where
  chunk : Option Bytes
  chunkIndex : Option Str
  totalChunks : Option Str
  fileId : Option Str
  fileName : Option Str
  fileType : Option Str
  fileSize : Option Str

/-- What the environment decides during one upload: the two random draws, whether
`writeFile` and the database write succeed, and the clock. -/
structure PostEnv where
  randomBytes16 : Bytes
  randomBytes32 : Bytes
  length16 : randomBytes16.length = 16
  length32 : randomBytes32.length = 32
  writeFileOk : Bool
  saveOk : Bool
  now : Nat

/-- The headers of the success response of `POST`. -/
def postHeaders : List (Str × Str) :=
  [("Access-Control-Allow-Origin".toList, "*".toList),
   ("Access-Control-Allow-Methods".toList, "GET, POST, PUT, DELETE, OPTIONS".toList),
   ("Access-Control-Allow-Headers".toList,
     "Content-Type, Authorization, X-Requested-With, Accept, Origin".toList)]

/-- The response of the `catch` block of both routes. -/
def caught (e : Thrown) : Response :=
  { status := 500
    headers := [("Access-Control-Allow-Origin".toList, "*".toList)]
    body := Body.thrown e }

/-- Lines 52-71 of `POST`: the IV and the key handed to `encryptChunk`. -/
def cipherParams (host : Host) (found : Option FileDoc) (env : PostEnv) : Bytes × Str :=
  match found with
  | none =>
    (env.randomBytes16, orElseStr host.ENCRYPTION_KEY (bufferToHex env.randomBytes32))
  | some fileDoc => (bufferFromHex fileDoc.encryptionIV, fileDoc.encryptionKey)

/-- The path `chunkPath` of `POST`. -/
def chunkPath (host : Host) (fileId : Option Str) (chunkIndex : JSNum) : Str :=
  pathJoin [CHUNK_DIR host,
    jsToString fileId ++ "_chunk_".toList ++ chunkIndex.toStr ++ ".enc".toList]

/-- The document that `fileDoc.save()` persists, after the push of the new descriptor:
`none` when schema validation rejects it (a required string that is missing or empty, a
number that is `NaN`). -/
def docToSave (found : Option FileDoc) (fileId fileName : Option Str) (fileType : Str)
    (fileSize chunkIndex : JSNum) (iv : Bytes) (encryptionKey : Str) (now : Nat)
    (path : Str) (size : Nat) (authTag : Bytes) : Option FileDoc :=
  match chunkIndex with
  | JSNum.nan => none
  | JSNum.int index =>
    let descriptor : ChunkDescriptor :=
      { index := index, filePath := path, size := size, authTag := bufferToHex authTag }
    match found with
    | some fileDoc => some { fileDoc with chunks := fileDoc.chunks ++ [descriptor] }
    | none =>
      match fileId, fileName, fileSize with
      | some (c :: cs), some (n :: ns), JSNum.int sz =>
        if fileType = [] ∨ encryptionKey = [] ∨ bufferToHex iv = [] then none
        else some
          { fileId := c :: cs
            fileName := n :: ns
            fileType := fileType
            fileSize := sz
            encryptionIV := bufferToHex iv
            encryptionKey := encryptionKey
            uploadedAt := now
            chunks := [descriptor] }
      | _, _, _ => none

/-- The route handler `POST`: the response and the state it leaves.  The calls `ensureDir()`
and `dbConnect()` are taken to succeed; every other exception reaches the `catch` block. -/
def POST (host : Host) (st : Store) (req : PostRequest) (env : PostEnv) : Response × Store :=
  let chunkIndex := parseInt (jsToString req.chunkIndex) none
  let totalChunks := parseInt (jsToString req.totalChunks) none
  let fileId := req.fileId
  let fileName := req.fileName
  let fileType := orElseStr req.fileType "application/octet-stream".toList
  let fileSize := parseInt (orElseStr req.fileSize "0".toList) none
  match req.chunk with
  | none => (caught Thrown.typeError, st)
  | some buffer =>
    let found := findOne st.files fileId
    let iv := (cipherParams host found env).1
    let encryptionKey := (cipherParams host found env).2
    match encryptChunk host.crypto buffer encryptionKey iv with
    | none => (caught Thrown.cipherError, st)
    | some (encrypted, authTag) =>
      let path := chunkPath host fileId chunkIndex
      if env.writeFileOk = false then (caught Thrown.ioError, st)
      else
        let disk := writeFile st.disk path encrypted
        match docToSave found fileId fileName fileType fileSize chunkIndex iv encryptionKey
            env.now path encrypted.length authTag with
        | none => (caught Thrown.validationError, { st with disk := disk })
        | some fileDoc =>
          if env.saveOk = false then (caught Thrown.dbError, { st with disk := disk })
          else
            let files := match found with
              | some _ => replaceDoc fileDoc st.files
              | none => st.files ++ [fileDoc]
            let message := "Chunk ".toList ++ (chunkIndex.add (JSNum.int 1)).toStr ++
              "/".toList ++ totalChunks.toStr ++ " uploaded".toList
            ({ status := 200
               headers := postHeaders
               body := Body.uploaded chunkIndex totalChunks fileId message },
             { files := files, disk := disk })

/-! ## Stream route (`api/stream/route.js`) -/

/-- The function `decryptChunk(encrypted, key, iv, authTag)`. -/
def decryptChunk (crypto : AesGcm) (encrypted : Bytes) (key : Str) (iv authTag : Bytes) :
    Option Bytes :=
  crypto.decrypt (bufferFromHex key) iv encrypted authTag

/-- What reaches `GET` of a request: the `fileId` query parameter and three headers. -/
structure GetRequest where
  fileId : Option Str
  referer : Option Str
  origin : Option Str
  range : Option Str

/-- What the environment decides during one `GET`: the draw of `Math.random()`. -/
structure GetEnv where
  random : MathRandom

/-- The constant `allowedOrigins`. -/
def allowedOrigins : List Str :=
  ["http://localhost:5173".toList, "http://localhost:3000".toList,
   "http://localhost:3001".toList, "http://localhost:3002".toList]

/-- The test `origin && allowedOrigins.includes(origin)`. -/
def isValidOrigin (origin : Option Str) : Bool :=
  match origin with
  | some (c :: cs) => allowedOrigins.contains (c :: cs)
  | _ => false

/-- The test `referer && allowedOrigins.some(allowed => referer.startsWith(allowed))`. -/
def isValidReferer (referer : Option Str) : Bool :=
  match referer with
  | some (c :: cs) => allowedOrigins.any (fun allowed => allowed.isPrefixOf (c :: cs))
  | _ => false

/-- The array sort `chunks.sort((a, b) => a.index - b.index)`; the sort is stable. -/
def sortChunks (chunks : List ChunkDescriptor) : List ChunkDescriptor :=
  chunks.insertionSort (fun a b => a.index ≤ b.index)

/-- The loop of `GET` that reads and decrypts the chunks in order; the first failure
is thrown. -/
def decryptChunks (crypto : AesGcm) (disk : List (Str × Bytes)) (key : Str) (iv : Bytes) :
    List ChunkDescriptor → Except Thrown (List Bytes)
  | [] => Except.ok []
  | chunk :: rest =>
    match readFile disk chunk.filePath with
    | none => Except.error Thrown.ioError
    | some encryptedBuffer =>
      match decryptChunk crypto encryptedBuffer key iv (bufferFromHex chunk.authTag) with
      | none => Except.error Thrown.cipherError
      | some decrypted =>
        match decryptChunks crypto disk key iv rest with
        | Except.error e => Except.error e
        | Except.ok more => Except.ok (decrypted :: more)

/-- Lines 63-77 of `GET`: the buffer `fullFile` of a document. -/
def fullFile (host : Host) (st : Store) (fileDoc : FileDoc) : Except Thrown Bytes :=
  let iv := bufferFromHex fileDoc.encryptionIV
  let sortedChunks := sortChunks fileDoc.chunks
  match decryptChunks host.crypto st.disk fileDoc.encryptionKey iv sortedChunks with
  | Except.error e => Except.error e
  | Except.ok decryptedChunks => Except.ok decryptedChunks.flatten

/-- The headers that close the header list of the 200 and 206 responses of `GET`. -/
def streamHeaders : List (Str × Str) :=
  [("Cache-Control".toList, "no-store, no-cache, must-revalidate, private".toList),
   ("X-Content-Type-Options".toList, "nosniff".toList),
   ("Content-Security-Policy".toList, "default-src \x27self\x27".toList),
   ("Access-Control-Allow-Origin".toList, "*".toList),
   ("Access-Control-Allow-Methods".toList, "GET, POST, PUT, DELETE, OPTIONS".toList),
   ("Access-Control-Allow-Headers".toList, "Content-Type, Authorization, Range".toList),
   ("Access-Control-Expose-Headers".toList,
     "Content-Range, Accept-Ranges, Content-Length".toList)]

/-- The number `estimatedBytesPerSecond`. -/
def estimatedBytesPerSecond : Nat := 1024 * 1024

/-- The expression `Math.floor(Math.random() * 4) + 7`. -/
def segmentSeconds (env : GetEnv) : Nat := env.random.floorMul 4 + 7

/-- Lines 86-123 of `GET`: the response to a request with a `Range` header. -/
def rangeResponse (env : GetEnv) (fileDoc : FileDoc) (fullFile : Bytes) (range : Str) :
    Response :=
  let fileSize : Nat := fullFile.length
  let isVideo : Bool := "video/".toList.isPrefixOf fileDoc.fileType
  let parts := splitOnChar '-' (removeFirst "bytes=".toList range)
  let start := parseInt (parts.headD []) (some 10)
  let endGiven : Bool := truthy parts[1]?
  let end_ : JSNum :=
    if endGiven then parseInt (parts[1]?.getD []) (some 10)
    else JSNum.int ((fileSize : Int) - 1)
  let end_ : JSNum :=
    if isVideo && !endGiven then
      let secondsOfData := segmentSeconds env
      let maxChunkSize := secondsOfData * estimatedBytesPerSecond
      JSNum.min ((start.add (JSNum.int maxChunkSize)).sub (JSNum.int 1))
        (JSNum.int ((fileSize : Int) - 1))
    else end_
  let chunksize := (end_.sub start).add (JSNum.int 1)
  let fileChunk := bufferSlice fullFile start (end_.add (JSNum.int 1))
  { status := 206
    headers :=
      [("Content-Range".toList,
         "bytes ".toList ++ start.toStr ++ "-".toList ++ end_.toStr ++ "/".toList ++
           (JSNum.int fileSize).toStr),
       ("Accept-Ranges".toList, "bytes".toList),
       ("Content-Length".toList, chunksize.toStr),
       ("Content-Type".toList, fileDoc.fileType)] ++ streamHeaders
    body := Body.bytes fileChunk }

/-- Lines 124-168 of `GET`: the response to a request without a `Range` header. -/
def fullResponse (env : GetEnv) (fileDoc : FileDoc) (fullFile : Bytes) : Response :=
  let fileSize : Nat := fullFile.length
  let isVideo : Bool := "video/".toList.isPrefixOf fileDoc.fileType
  if isVideo then
    let initialSeconds := segmentSeconds env
    let initialChunkSize : Nat := Min.min (initialSeconds * estimatedBytesPerSecond) fileSize
    let initialChunk := bufferSlice fullFile (JSNum.int 0) (JSNum.int initialChunkSize)
    { status := 206
      headers :=
        [("Content-Range".toList,
           "bytes 0-".toList ++ (JSNum.int ((initialChunkSize : Int) - 1)).toStr ++
             "/".toList ++ (JSNum.int fileSize).toStr),
         ("Accept-Ranges".toList, "bytes".toList),
         ("Content-Length".toList, (JSNum.int initialChunkSize).toStr),
         ("Content-Type".toList, fileDoc.fileType)] ++ streamHeaders
      body := Body.bytes initialChunk }
  else
    { status := 200
      headers :=
        [("Content-Length".toList, (JSNum.int fileSize).toStr),
         ("Content-Type".toList, fileDoc.fileType),
         ("Accept-Ranges".toList, "bytes".toList)] ++ streamHeaders
      body := Body.bytes fullFile }

/-- The route handler `GET`; `dbConnect()` is taken to succeed.  The handler leaves the
persisted state as it is: the sorted array is not saved. -/
def GET (host : Host) (st : Store) (req : GetRequest) (env : GetEnv) : Response :=
  match req.fileId with
  | none | some [] =>
    { status := 400, headers := [], body := Body.error "File ID required".toList }
  | some (c :: cs) =>
    let fileId : Str := c :: cs
    if !isValidOrigin req.origin && !isValidReferer req.referer then
      { status := 403
        headers := [("Access-Control-Allow-Origin".toList, "*".toList)]
        body := Body.error ("Access denied - Direct links are not allowed. " ++
          "Please access files through the application.").toList }
    else
      match findOne st.files (some fileId) with
      | none => { status := 404, headers := [], body := Body.error "File not found".toList }
      | some fileDoc =>
        match fullFile host st fileDoc with
        | Except.error e => caught e
        | Except.ok fullFile =>
          match req.range with
          | some (r :: rs) => rangeResponse env fileDoc fullFile (r :: rs)
          | _ => fullResponse env fileDoc fullFile

/-! ## Sequences of uploads -/

/-- Sequential execution of upload requests: the responses in order and the final state. -/
def runPosts (host : Host) : Store → List (PostRequest × PostEnv) → List Response × Store
  | st, [] => ([], st)
  | st, (req, env) :: rest =>
    let first := POST host st req env
    let others := runPosts host first.2 rest
    (first.1 :: others.1, others.2)

/-- The form with which a client submits chunk `i` of a file cut into `chunks`
(`uploadFile` in `App.jsx`): the numbers are appended in decimal. -/
def chunkUpload (fileId : Str) (fileName fileType fileSize : Option Str)
    (chunks : List Bytes) (i : Nat) : PostRequest :=
  { chunk := some (chunks.getD i [])
    chunkIndex := some (Nat.toDigits 10 i)
    totalChunks := some (Nat.toDigits 10 chunks.length)
    fileId := some fileId
    fileName := fileName
    fileType := fileType
    fileSize := fileSize }

/-- The object `fileId` (a non-empty id) is recorded with type `fileType`, key `key` and
base IV `iv`, its
descriptors carry the indices `done` in this order, and each descriptor of index `i` points
to a blob on disk that is chunk `i` of `chunks` encrypted under `key` and `iv`, with the
tag of that encryption. -/
def Holds (host : Host) (st : Store) (fileId fileType key : Str) (iv : Bytes)
    (chunks : List Bytes) (done : List Nat) : Prop :=
  ∃ doc, findOne st.files (some fileId) = some doc ∧ fileId ≠ [] ∧
    doc.encryptionKey = key ∧
    bufferFromHex doc.encryptionIV = iv ∧ doc.fileType = fileType ∧
    doc.chunks.map (fun d => d.index) = done.map Int.ofNat ∧
    ∀ d ∈ doc.chunks, ∃ i : Nat, d.index = (i : Int) ∧
      d.filePath = chunkPath host (some fileId) (JSNum.int i) ∧
      ∃ ct tag, readFile st.disk d.filePath = some ct ∧
        encryptChunk host.crypto (chunks.getD i []) key iv = some (ct, tag) ∧
        bufferFromHex d.authTag = tag

/-- For each upload of a sequence, in order: the IV and the key handed to `encryptChunk`
by that upload, and the state the upload leaves. -/
def uploadTrace (host : Host) :
    Store → List (PostRequest × PostEnv) → List ((Bytes × Str) × Store)
  | _, [] => []
  | st, (req, env) :: rest =>
    (cipherParams host (findOne st.files req.fileId) env, (POST host st req env).2) ::
      uploadTrace host (POST host st req env).2 rest

/-! ## A concrete cipher for worked examples -/

/-- The mask of the example cipher: the sum of the key and IV bytes. -/
def exampleMask (key iv : Bytes) : Byte := (key ++ iv).sum

/-- An example cipher with the interface of AES-256-GCM: it demands a 32-byte key, shifts
every byte by the mask and authenticates with the byte sum of the ciphertext and the mask. -/
def exampleCipher : AesGcm where
  encrypt key iv plaintext :=
    if key.length = 32 then
      let ciphertext := plaintext.map (fun b => b + exampleMask key iv)
      some (ciphertext, [ciphertext.sum + exampleMask key iv])
    else none
  decrypt key iv ciphertext authTag :=
    if key.length = 32 ∧ authTag = [ciphertext.sum + exampleMask key iv] then
      some (ciphertext.map (fun b => b - exampleMask key iv))
    else none

/-- An example host. -/
def exampleHost : Host :=
  { cwd := "/srv/app".toList, ENCRYPTION_KEY := none, crypto := exampleCipher }

/-- An example upload environment in which every write succeeds. -/
def exampleEnv (seed : Byte) (now : Nat) : PostEnv :=
  { randomBytes16 := List.replicate 16 seed
    randomBytes32 := List.replicate 32 (seed + 1)
    length16 := List.length_replicate 16 seed
    length32 := List.length_replicate 32 (seed + 1)
    writeFileOk := true
    saveOk := true
    now := now }

/-- Three chunks of eight bytes each: the bytes 0 to 23. -/
def exampleChunks : List Bytes :=
  [[0, 1, 2, 3, 4, 5, 6, 7], [8, 9, 10, 11, 12, 13, 14, 15], [16, 17, 18, 19, 20, 21, 22, 23]]

/-- The file of the example: the bytes 0 to 23. -/
def exampleContent : Bytes :=
  [0, 1, 2, 3, 4, 5, 6, 7, 8, 9, 10, 11, 12, 13, 14, 15, 16, 17, 18, 19, 20, 21, 22, 23]

/-- The client form for chunk `i` of the example object `demo` of type `fileType`. -/
def exampleUpload (fileType : Str) (i : Nat) : PostRequest :=
  chunkUpload "demo".toList (some "demo.bin".toList) (some fileType) (some "24".toList)
    exampleChunks i

/-- The uploads of the three chunks of the example object, in order. -/
def exampleUploads : List (PostRequest × PostEnv) :=
  [(exampleUpload "text/plain".toList 0, exampleEnv 7 100),
   (exampleUpload "text/plain".toList 1, exampleEnv 50 101),
   (exampleUpload "text/plain".toList 2, exampleEnv 90 102)]

/-- The state after the uploads of the example object to an empty store. -/
def exampleStore : Store := (runPosts exampleHost ⟨[], []⟩ exampleUploads).2

/-- The document recorded for the example object in `exampleStore`. -/
def exampleDoc : FileDoc :=
  { fileId := "demo".toList
    fileName := "demo.bin".toList
    fileType := "text/plain".toList
    fileSize := 24
    encryptionIV := "07070707070707070707070707070707".toList
    encryptionKey := "0808080808080808080808080808080808080808080808080808080808080808".toList
    uploadedAt := 100
    chunks :=
      [{ index := 0, filePath := "/srv/app/uploads/chunks/demo_chunk_0.enc".toList,
         size := 8, authTag := "0c".toList },
       { index := 1, filePath := "/srv/app/uploads/chunks/demo_chunk_1.enc".toList,
         size := 8, authTag := "4c".toList },
       { index := 2, filePath := "/srv/app/uploads/chunks/demo_chunk_2.enc".toList,
         size := 8, authTag := "8c".toList }] }

/-- A further upload for chunk 1 of the example object that announces seven chunks, the
type `video/mp4` and the size 999. -/
def exampleMismatch : PostRequest :=
  { chunk := some [8, 9, 10, 11, 12, 13, 14, 15]
    chunkIndex := some "1".toList
    totalChunks := some "7".toList
    fileId := some "demo".toList
    fileName := some "demo.bin".toList
    fileType := some "video/mp4".toList
    fileSize := some "999".toList }

/-- An example stream request from the front end. -/
def exampleGet (range : Option Str) : GetRequest :=
  { fileId := some "demo".toList
    referer := none
    origin := some "http://localhost:5173".toList
    range := range }

/-- An example draw of `Math.random()`: the value one half. -/
def exampleGetEnv : GetEnv := { random := ⟨1, 2, by decide⟩ }


/-- The example object recorded as a video: the same uploads with the type `video/mp4`. -/
def exampleVideoStore : Store :=
  (runPosts exampleHost ⟨[], []⟩
    [(exampleUpload "video/mp4".toList 0, exampleEnv 7 100),
     (exampleUpload "video/mp4".toList 1, exampleEnv 50 101),
     (exampleUpload "video/mp4".toList 2, exampleEnv 90 102)]).2

/-- The document recorded for the example object in `exampleVideoStore`. -/
def exampleVideoDoc : FileDoc := { exampleDoc with fileType := "video/mp4".toList }

/-- The example store after one byte of the stored blob of chunk 1 was changed. -/
def exampleTampered : Store :=
  { exampleStore with
    disk := writeFile exampleStore.disk "/srv/app/uploads/chunks/demo_chunk_1.enc".toList
      [121, 121, 122, 123, 124, 125, 126, 127] }

/-- A draw of `Math.random()` in the last quarter of the interval: the value 3/4. -/
def exampleLateDraw : GetEnv := { random := ⟨3, 4, by decide⟩ }

/-- An upload environment in which `writeFile` fails. -/
def exampleFailingEnv : PostEnv := { exampleEnv 7 103 with writeFileOk := false }

/-- An upload for chunk 1 of the example object with other bytes than the stored chunk. -/
def exampleRewrite : PostRequest :=
  { chunk := some [1, 2, 3]
    chunkIndex := some "1".toList
    totalChunks := some "3".toList
    fileId := some "demo".toList
    fileName := some "demo.bin".toList
    fileType := some "text/plain".toList
    fileSize := some "24".toList }

/-- The length of the large example video: one byte more than ten times 1048576. -/
def bigLength : Nat := 10 * 1048576 + 1

/-- The record of a video of `n` zero bytes held in one chunk, under the key and IV of the
other examples.  The tag is the one the example cipher computes when `n % 256 = 1`. -/
def zerosVideoDoc (n : Nat) : FileDoc :=
  { fileId := "film".toList
    fileName := "film.mp4".toList
    fileType := "video/mp4".toList
    fileSize := n
    encryptionIV := "07070707070707070707070707070707".toList
    encryptionKey := "0808080808080808080808080808080808080808080808080808080808080808".toList
    uploadedAt := 100
    chunks :=
      [{ index := 0, filePath := "/srv/app/uploads/chunks/film_chunk_0.enc".toList,
         size := n, authTag := "e0".toList }] }

/-- A store that holds the video of `n` zero bytes: its blob is the encryption of the
zero bytes by the example cipher. -/
def zerosVideoStore (n : Nat) : Store :=
  { files := [zerosVideoDoc n]
    disk := [("/srv/app/uploads/chunks/film_chunk_0.enc".toList, List.replicate n 112)] }

/-- A stream request from the front end for the video of zero bytes. -/
def zerosVideoGet (range : Option Str) : GetRequest :=
  { fileId := some "film".toList
    referer := none
    origin := some "http://localhost:5173".toList
    range := range }

/-- An upload for the example object without a `chunk` part. -/
def exampleNoChunk : PostRequest :=
  { chunk := none
    chunkIndex := some "1".toList
    totalChunks := some "3".toList
    fileId := some "demo".toList
    fileName := some "demo.bin".toList
    fileType := some "text/plain".toList
    fileSize := some "24".toList }

/-- An upload for a new object whose `totalChunks` field is not a number. -/
def exampleBadTotal : PostRequest :=
  { chunk := some [1, 2, 3]
    chunkIndex := some "0".toList
    totalChunks := some "many".toList
    fileId := some "other".toList
    fileName := some "other.bin".toList
    fileType := some "text/plain".toList
    fileSize := some "3".toList }

/-- A stream request without `Origin` whose `Referer` is a page of another host, the name
of which starts with an allowed origin. -/
def exampleForeignReferer : GetRequest :=
  { fileId := some "demo".toList
    referer := some "http://localhost:3000.evil.example/watch".toList
    origin := none
    range := none }

/-! ## Listing route (`api/files/route.js`) -/

/-- The fields named by `.select('fileId fileName fileType fileSize uploadedAt')`; the
identifier `_id` that Mongoose adds to every projection is left out. -/
structure FileSummary where
  fileId : Str
  fileName : Str
  fileType : Str
  fileSize : Int
  uploadedAt : Nat
  deriving DecidableEq, Repr

/-- The projection of one document by `.select(...)`. -/
def FileDoc.select (doc : FileDoc) : FileSummary :=
  { fileId := doc.fileId
    fileName := doc.fileName
    fileType := doc.fileType
    fileSize := doc.fileSize
    uploadedAt := doc.uploadedAt }

/-- The query `File.find({}).select(...).sort({ uploadedAt: -1 }).limit(50)`; documents
with the same `uploadedAt` are kept in insertion order. -/
def findRecent (files : List FileDoc) : List FileSummary :=
  ((files.insertionSort (fun a b => b.uploadedAt ≤ a.uploadedAt)).take 50).map FileDoc.select

/-- The JSON body of a response of the listing route. -/
inductive FilesBody where
  | files (files : List FileSummary)
  | thrown (e : Thrown)
  deriving DecidableEq, Repr

/-- A response of the listing route. -/
structure FilesResponse where
  status : Nat
  headers : List (Str × Str)
  body : FilesBody
  deriving DecidableEq, Repr

namespace Files

/-- The handler `GET` of `api/files/route.js`; `findOk = false` stands for a connection or
query that throws, which the `catch` block answers. -/
def GET (st : Store) (findOk : Bool) : FilesResponse :=
  if findOk = false then
    { status := 500
      headers := [("Access-Control-Allow-Origin".toList, "*".toList)]
      body := FilesBody.thrown Thrown.dbError }
  else
    { status := 200
      headers :=
        [("Access-Control-Allow-Origin".toList, "*".toList),
         ("Access-Control-Allow-Methods".toList, "GET, POST, PUT, DELETE, OPTIONS".toList),
         ("Access-Control-Allow-Headers".toList, "Content-Type, Authorization".toList)]
      body := FilesBody.files (findRecent st.files) }

end Files

/-! ## PDF viewer (`components/PDFViewer.jsx`) -/

/-- The constant `isPremium`, from the value of `user?.subscription?.status`. -/
def isPremium (status : Option Str) : Bool :=
  status == some "active".toList || status == some "trialing".toList

/-- The constant `PAGE_LIMIT`; `none` stands for `Infinity`. -/
def PAGE_LIMIT (status : Option Str) : Option Nat :=
  if isPremium status then none else some 5

/-- The test `currentPage >= PAGE_LIMIT`. -/
def atPageLimit (currentPage : Nat) : Option Nat → Bool
  | none => false
  | some limit => decide (limit ≤ currentPage)

/-- The state variables `currentPage` and `totalPages` of the component. -/
structure PDFViewer where
  currentPage : Nat
  totalPages : Nat
  deriving DecidableEq, Repr

/-- The state after the document of `totalPages` pages was loaded: `useState(1)` and
`setTotalPages(pdf.numPages)`. -/
def openViewer (totalPages : Nat) : PDFViewer :=
  { currentPage := 1, totalPages := totalPages }

/-- The handler `nextPage`. -/
def nextPage (status : Option Str) (v : PDFViewer) : PDFViewer :=
  if atPageLimit v.currentPage (PAGE_LIMIT status) && !isPremium status then v
  else if v.currentPage < v.totalPages then { v with currentPage := v.currentPage + 1 }
  else v

/-- The handler `prevPage`. -/
def prevPage (v : PDFViewer) : PDFViewer :=
  if 1 < v.currentPage then { v with currentPage := v.currentPage - 1 } else v

/-- The two page buttons. -/
inductive PageButton where
  | next
  | prev
  deriving DecidableEq, Repr

/-- One click on a page button. -/
def click (status : Option Str) (v : PDFViewer) : PageButton → PDFViewer
  | PageButton.next => nextPage status v
  | PageButton.prev => prevPage v

/-- A sequence of clicks, each handled after the state change of the one before. -/
def clicks (status : Option Str) (v : PDFViewer) (buttons : List PageButton) : PDFViewer :=
  buttons.foldl (click status) v

/-! ## Client upload (`uploadFile` of `App.jsx`) -/

/-- The constant `CHUNK_SIZE`. -/
def CHUNK_SIZE : Nat := 1024 * 1024

/-- The value `Math.ceil(a / b)` for natural numbers `a` and `b`, `b` positive. -/
def ceilDiv (a b : Nat) : Nat := (a + b - 1) / b

/-- The call `file.slice(start, end)` of a `Blob` for offsets that are natural numbers. -/
def blobSlice (file : Bytes) (start end_ : Nat) : Bytes :=
  (file.drop start).take (end_ - start)

/-- The `File` object handed to `uploadFile`; `file.size` is the length of `content`. -/
structure ClientFile where
  name : Str
  type : Str
  content : Bytes
  deriving DecidableEq, Repr

/-- The form of one pass of the loop of `uploadFile`. -/
def uploadForm (fileId : Str) (file : ClientFile) (totalChunks chunkIndex : Nat) :
    PostRequest :=
  let start := chunkIndex * CHUNK_SIZE
  let end_ := min (start + CHUNK_SIZE) file.content.length
  let chunk := blobSlice file.content start end_
  { chunk := some chunk
    chunkIndex := some (Nat.toDigits 10 chunkIndex)
    totalChunks := some (Nat.toDigits 10 totalChunks)
    fileId := some fileId
    fileName := some file.name
    fileType := some file.type
    fileSize := some (Nat.toDigits 10 file.content.length) }

/-- The requests that `uploadFile` sends, in the order of sending, when each one is
answered with an `ok` response; `fileId` is the identifier it has drawn.  The loop of
`FileUploader.js` is the same, with the fields `fileType` and `fileSize` left out. -/
def uploadFile (fileId : Str) (file : ClientFile) : List PostRequest :=
  let totalChunks := ceilDiv file.content.length CHUNK_SIZE
  (List.range totalChunks).map (uploadForm fileId file totalChunks)

/-- An upload whose `fileId` walks through a directory and back: its chunk path is the one
of chunk 0 of the example object. -/
def exampleAlias : PostRequest :=
  { chunk := some [9, 9, 9]
    chunkIndex := some "0".toList
    totalChunks := some "1".toList
    fileId := some "x/../demo".toList
    fileName := some "alias.bin".toList
    fileType := some "text/plain".toList
    fileSize := some "3".toList }

/-- An upload whose `fileId` starts with a step to the parent directory. -/
def exampleEscape : PostRequest :=
  { chunk := some [9, 9, 9]
    chunkIndex := some "0".toList
    totalChunks := some "1".toList
    fileId := some "../escape".toList
    fileName := some "escape.bin".toList
    fileType := some "text/plain".toList
    fileSize := some "3".toList }

/-! ## Two calls of `POST` in flight

Between two `await`s a call runs alone.  Three of the `await`s of `POST` touch the state:
`File.findOne` (line 52), `writeFile` (line 78) and `fileDoc.save()` (line 88). -/

/-- Where a call of `POST` stands: before `File.findOne`; after it, holding the document
found; after `writeFile`, holding also the ciphertext and the tag; after its response. -/
inductive PostPhase where
  | start
  | found (fileDoc : Option FileDoc)
  | written (fileDoc : Option FileDoc) (encrypted authTag : Bytes)
  | done (response : Response)
  deriving DecidableEq, Repr

/-- The code of `POST` from one of the three `await`s to the next.  The `save()` of a new
document is an insert, which the unique index on `fileId` (`fileSchema`, line 4) rejects
when the collection holds a document with this `fileId`; the `save()` of a document that
`findOne` returned puts the document of the call in its place. -/
def postStep (host : Host) (req : PostRequest) (env : PostEnv) (phase : PostPhase)
    (st : Store) : PostPhase × Store :=
  let chunkIndex := parseInt (jsToString req.chunkIndex) none
  let totalChunks := parseInt (jsToString req.totalChunks) none
  let fileType := orElseStr req.fileType "application/octet-stream".toList
  let fileSize := parseInt (orElseStr req.fileSize "0".toList) none
  match phase with
  | PostPhase.start =>
    match req.chunk with
    | none => (PostPhase.done (caught Thrown.typeError), st)
    | some _ => (PostPhase.found (findOne st.files req.fileId), st)
  | PostPhase.found found =>
    match req.chunk with
    | none => (PostPhase.done (caught Thrown.typeError), st)
    | some buffer =>
      match encryptChunk host.crypto buffer (cipherParams host found env).2
          (cipherParams host found env).1 with
      | none => (PostPhase.done (caught Thrown.cipherError), st)
      | some (encrypted, authTag) =>
        if env.writeFileOk = false then (PostPhase.done (caught Thrown.ioError), st)
        else
          (PostPhase.written found encrypted authTag,
           { st with disk := writeFile st.disk (chunkPath host req.fileId chunkIndex) encrypted })
  | PostPhase.written found encrypted authTag =>
    match docToSave found req.fileId req.fileName fileType fileSize chunkIndex
        (cipherParams host found env).1 (cipherParams host found env).2 env.now
        (chunkPath host req.fileId chunkIndex) encrypted.length authTag with
    | none => (PostPhase.done (caught Thrown.validationError), st)
    | some fileDoc =>
      if env.saveOk = false then (PostPhase.done (caught Thrown.dbError), st)
      else
        let message := "Chunk ".toList ++ (chunkIndex.add (JSNum.int 1)).toStr ++
          "/".toList ++ totalChunks.toStr ++ " uploaded".toList
        let response : Response :=
          { status := 200, headers := postHeaders,
            body := Body.uploaded chunkIndex totalChunks req.fileId message }
        match found with
        | some _ =>
          (PostPhase.done response, { st with files := replaceDoc fileDoc st.files })
        | none =>
          if (findOne st.files req.fileId).isSome then
            (PostPhase.done (caught Thrown.dbError), st)
          else (PostPhase.done response, { st with files := st.files ++ [fileDoc] })
  | PostPhase.done response => (PostPhase.done response, st)

/-- Two calls of `POST` in flight and the state they share. -/
structure Race where
  first : PostPhase
  second : PostPhase
  st : Store

/-- One turn of the scheduler: `true` lets the first call run to its next `await`, `false`
the second. -/
def raceStep (host : Host) (reqA : PostRequest) (envA : PostEnv) (reqB : PostRequest)
    (envB : PostEnv) (r : Race) (turn : Bool) : Race :=
  if turn then
    { first := (postStep host reqA envA r.first r.st).1
      second := r.second
      st := (postStep host reqA envA r.first r.st).2 }
  else
    { first := r.first
      second := (postStep host reqB envB r.second r.st).1
      st := (postStep host reqB envB r.second r.st).2 }

/-- The two calls run from their start under a schedule. -/
def race (host : Host) (st : Store) (reqA : PostRequest) (envA : PostEnv)
    (reqB : PostRequest) (envB : PostEnv) (schedule : List Bool) : Race :=
  schedule.foldl (raceStep host reqA envA reqB envB)
    { first := PostPhase.start, second := PostPhase.start, st := st }

/-- The call has answered. -/
def PostPhase.isDone : PostPhase → Bool
  | PostPhase.done _ => true
  | _ => false

/-- The number of the three `await`s that a call has passed. -/
def PostPhase.rank : PostPhase → Nat
  | PostPhase.start => 0
  | PostPhase.found _ => 1
  | PostPhase.written _ _ _ => 2
  | PostPhase.done _ => 3

/-- What holds for a call in flight, `other` being the phase of the other call: a document
that it found is still the recorded one and the other call has answered; after `writeFile`
the blob at its chunk path is the ciphertext it holds, which is its chunk encrypted under
its key and IV; and the object of a call answered 200 is recorded. -/
def PhaseOk (host : Host) (req : PostRequest) (env : PostEnv) (phase other : PostPhase)
    (st : Store) : Prop :=
  match phase with
  | PostPhase.start => True
  | PostPhase.found found =>
    ∀ doc, found = some doc → other.isDone = true ∧ findOne st.files req.fileId = some doc
  | PostPhase.written found encrypted authTag =>
    (∀ doc, found = some doc →
      other.isDone = true ∧ findOne st.files req.fileId = some doc) ∧
    ∃ buffer, req.chunk = some buffer ∧
      encryptChunk host.crypto buffer (cipherParams host found env).2
        (cipherParams host found env).1 = some (encrypted, authTag) ∧
      readFile st.disk (chunkPath host req.fileId (parseInt (jsToString req.chunkIndex) none)) =
        some encrypted
  | PostPhase.done response =>
    response.status = 200 → (findOne st.files req.fileId).isSome = true

/-- The descriptor `d` of the document `doc` was recorded by the call of `req`, which has
answered: `d` points to the chunk path of the call, and the blob there is the chunk of the
call encrypted under the key and IV of `doc`, with the tag that `d` carries. -/
def Owned (host : Host) (req : PostRequest) (phase : PostPhase) (disk : List (Str × Bytes))
    (doc : FileDoc) (d : ChunkDescriptor) : Prop :=
  phase.isDone = true ∧
  d.filePath = chunkPath host req.fileId (parseInt (jsToString req.chunkIndex) none) ∧
  ∃ buffer encrypted authTag, req.chunk = some buffer ∧
    encryptChunk host.crypto buffer doc.encryptionKey (bufferFromHex doc.encryptionIV) =
      some (encrypted, authTag) ∧
    readFile disk d.filePath = some encrypted ∧ d.authTag = bufferToHex authTag

/-- The invariant of two calls in flight for an object that the collection `files0` did not
hold, seen from the call of `reqX`: at most one document was added; both calls are in order;
and a recorded document of the object carries the key and IV that one of the two calls has
drawn, some call has answered, and each of its descriptors is owned by one of the calls. -/
def RaceInv (host : Host) (files0 : List FileDoc) (reqX : PostRequest) (envX : PostEnv)
    (reqY : PostRequest) (envY : PostEnv) (phaseX phaseY : PostPhase) (st : Store) : Prop :=
  (st.files = files0 ∨ ∃ doc, st.files = files0 ++ [doc] ∧ some doc.fileId = reqX.fileId) ∧
  PhaseOk host reqX envX phaseX phaseY st ∧
  PhaseOk host reqY envY phaseY phaseX st ∧
  ∀ doc, findOne st.files reqX.fileId = some doc →
    (phaseX.isDone = true ∨ phaseY.isDone = true) ∧
    ((bufferFromHex doc.encryptionIV, doc.encryptionKey) = cipherParams host none envX ∨
     (bufferFromHex doc.encryptionIV, doc.encryptionKey) = cipherParams host none envY) ∧
    ∀ d ∈ doc.chunks,
      Owned host reqX phaseX st.disk doc d ∨ Owned host reqY phaseY st.disk doc d

/-! # Lemmas -/


/-! ### Decimal rendering and `parseInt` -/

theorem radixDigit_digitChar (R x : Nat) (hx : x < R) (hR : R ≤ 16) :
    radixDigit R (Nat.digitChar x) = some x := by
  have h16 : x < 16 := lt_of_lt_of_le hx hR
  interval_cases x <;> simp [radixDigit, digitValue, Nat.digitChar, hx]

theorem toDigitsCore_eq_digits (fuel : Nat) : ∀ (n : Nat) (ds : List Char), 0 < n → n < fuel →
    Nat.toDigitsCore 10 fuel n ds = ((Nat.digits 10 n).map Nat.digitChar).reverse ++ ds := by
  induction fuel with
  | zero => intro n ds _ h; omega
  | succ f ih =>
    intro n ds hpos hlt
    have hd : Nat.digits 10 n = (n % 10) :: Nat.digits 10 (n / 10) :=
      Nat.digits_def' (by decide) hpos
    simp only [Nat.toDigitsCore]
    by_cases h0 : n / 10 = 0
    · simp [h0, hd]
    · have hlt2 : n / 10 < f := by omega
      simp only [h0, if_false]
      rw [ih (n / 10) _ (Nat.pos_of_ne_zero h0) hlt2, hd]
      simp

theorem toDigits_zero : Nat.toDigits 10 0 = ['0'] := by decide

theorem toDigits_pos (n : Nat) (h : 0 < n) :
    Nat.toDigits 10 n = ((Nat.digits 10 n).map Nat.digitChar).reverse := by
  unfold Nat.toDigits
  rw [toDigitsCore_eq_digits (n + 1) n [] h (Nat.lt_succ_self n)]
  simp

/-- Every character of a decimal rendering is a decimal digit. -/
theorem toDigits_isDigit (n : Nat) :
    ∀ c ∈ Nat.toDigits 10 n, (radixDigit 10 c).isSome = true := by
  intro c hc
  rcases Nat.eq_zero_or_pos n with h | h
  · subst h
    rw [toDigits_zero] at hc
    simp at hc
    subst hc
    decide
  · rw [toDigits_pos n h] at hc
    simp only [List.mem_reverse, List.mem_map] at hc
    obtain ⟨x, hx, rfl⟩ := hc
    have : x < 10 := Nat.digits_lt_base (by decide) hx
    rw [radixDigit_digitChar 10 x this (by decide)]
    rfl

theorem toDigits_ne_nil (n : Nat) : Nat.toDigits 10 n ≠ [] := by
  rcases Nat.eq_zero_or_pos n with h | h
  · subst h; rw [toDigits_zero]; simp
  · rw [toDigits_pos n h]
    have : Nat.digits 10 n ≠ [] := Nat.digits_ne_nil_iff_ne_zero.mpr (Nat.pos_iff_ne_zero.mp h)
    simpa using this

theorem digitsValue_append_singleton (R : Nat) (z : Str) (c : Char) :
    digitsValue R (z ++ [c]) = digitsValue R z * R + (radixDigit R c).getD 0 := by
  simp [digitsValue, List.foldl_append]

theorem digitsValue_digits (L : List Nat) (hL : ∀ x ∈ L, x < 10) :
    digitsValue 10 ((L.map Nat.digitChar).reverse) = Nat.ofDigits 10 L := by
  induction L with
  | nil => simp [digitsValue]
  | cons x xs ih =>
    have hx : x < 10 := hL x (List.mem_cons_self _ _)
    have hxs : ∀ y ∈ xs, y < 10 := fun y hy => hL y (List.mem_cons_of_mem _ hy)
    simp only [List.map_cons, List.reverse_cons]
    rw [digitsValue_append_singleton, ih hxs, radixDigit_digitChar 10 x hx (by decide),
      Nat.ofDigits_cons]
    simp
    ring

theorem digitsValue_toDigits (n : Nat) : digitsValue 10 (Nat.toDigits 10 n) = n := by
  rcases Nat.eq_zero_or_pos n with h | h
  · subst h; decide
  · rw [toDigits_pos n h, digitsValue_digits _ (fun x hx => Nat.digits_lt_base (by decide) hx),
      Nat.ofDigits_digits]


theorem radixDigit_ten_isSome (c : Char) :
    (radixDigit 10 c).isSome = true ↔ 48 ≤ c.toNat ∧ c.toNat ≤ 57 := by
  unfold radixDigit digitValue
  simp only []
  split_ifs with h1 h2 h3
  · have : c.toNat - 48 < 10 := by omega
    simp [this, h1]
  · have : ¬ (c.toNat - 87 < 10) := by omega
    simp [this]; omega
  · have : ¬ (c.toNat - 55 < 10) := by omega
    simp [this]; omega
  · simp; omega

theorem takeWhile_append_of_all {α : Type} (p : α → Bool) (s t : List α)
    (hs : ∀ c ∈ s, p c = true) (ht : ∀ c, t.head? = some c → p c = false) :
    (s ++ t).takeWhile p = s := by
  induction s with
  | nil =>
    cases t with
    | nil => rfl
    | cons c cs => simp [List.takeWhile, ht c rfl]
  | cons a s ih =>
    simp [List.takeWhile, hs a (List.mem_cons_self _ _)]
    exact ih (fun c hc => hs c (List.mem_cons_of_mem _ hc))

/-- `parseInt` reads a run of decimal digits that ends the string or is followed by
a character that is not a digit (and, without a radix, not the `x` of a hex prefix). -/
theorem parseInt_digits (s t : Str) (radix : Option Nat) (hr : radix = none ∨ radix = some 10)
    (hne : s ≠ []) (hs : ∀ c ∈ s, (radixDigit 10 c).isSome = true)
    (ht : ∀ c, t.head? = some c → (radixDigit 10 c).isSome = false)
    (hx : radix = none → t.head? ≠ some 'x' ∧ t.head? ≠ some 'X') :
    parseInt (s ++ t) radix = JSNum.int (digitsValue 10 s) := by
  obtain ⟨c, rest, rfl⟩ := List.exists_cons_of_ne_nil hne
  have hc := (radixDigit_ten_isSome c).mp (hs c (List.mem_cons_self _ _))
  have hws : isStrWhiteSpace c = false := by
    simp only [isStrWhiteSpace, Bool.or_eq_false_iff, decide_eq_false_iff_not,
      Bool.and_eq_false_iff]
    omega
  have hminus : c ≠ '-' := by rintro rfl; revert hc; decide
  have hplus : c ≠ '+' := by rintro rfl; revert hc; decide
  have hdrop : (c :: rest ++ t).dropWhile isStrWhiteSpace = c :: rest ++ t := by
    simp [List.dropWhile, hws]
  have htw : (c :: rest ++ t).takeWhile (fun c => (radixDigit 10 c).isSome) = c :: rest :=
    takeWhile_append_of_all _ (c :: rest) t hs ht
  have hs2 : stripSign (c :: rest ++ t) = c :: rest ++ t := by
    show stripSign (c :: (rest ++ t)) = _
    unfold stripSign
    split
    · next r h => simp only [List.cons.injEq] at h; exact absurd h.1 hminus
    · next r h => simp only [List.cons.injEq] at h; exact absurd h.1 hplus
    · rfl
  have hpd : parseDigits 1 10 (c :: rest ++ t) = JSNum.int (digitsValue 10 (c :: rest)) := by
    unfold parseDigits
    simp only [htw]
    simp
  unfold parseInt
  simp only [hdrop, hs2]
  have hsign : (if (c :: rest ++ t).head? = some '-' then (-1 : Int) else 1) = 1 := by
    simp [hminus]
  rw [hsign]
  rcases hr with rfl | rfl
  · have hhex : hasHexPrefix (c :: rest ++ t) = false := by
      obtain ⟨h1, h2⟩ := hx rfl
      cases rest with
      | nil =>
        cases t with
        | nil => simp [hasHexPrefix, List.isPrefixOf]
        | cons d ds =>
          simp only [List.head?_cons, ne_eq, Option.some.injEq] at h1 h2
          simp [hasHexPrefix, List.isPrefixOf, Ne.symm h1, Ne.symm h2]
      | cons d ds =>
        have hd := (radixDigit_ten_isSome d).mp
          (hs d (List.mem_cons_of_mem _ (List.mem_cons_self _ _)))
        have e1 : d ≠ 'x' := by rintro rfl; revert hd; decide
        have e2 : d ≠ 'X' := by rintro rfl; revert hd; decide
        simp [hasHexPrefix, List.isPrefixOf, Ne.symm e1, Ne.symm e2]
    simp only [List.cons_append] at hhex hpd
    simp [hhex, hpd]
  · simp only [List.cons_append] at hpd
    simp [hpd]

theorem parseInt_toDigits (n : Nat) (radix : Option Nat) (hr : radix = none ∨ radix = some 10) :
    parseInt (Nat.toDigits 10 n) radix = JSNum.int n := by
  have h := parseInt_digits (Nat.toDigits 10 n) [] radix hr (toDigits_ne_nil n)
    (toDigits_isDigit n) (by simp) (by simp)
  rw [List.append_nil, digitsValue_toDigits] at h
  exact h



theorem toDigits_injective (a b : Nat) (h : Nat.toDigits 10 a = Nat.toDigits 10 b) : a = b := by
  have := congrArg (digitsValue 10) h
  rwa [digitsValue_toDigits, digitsValue_toDigits] at this

theorem toDigits_head_ne_minus (n : Nat) (t : Str) : Nat.toDigits 10 n ≠ '-' :: t := by
  intro h
  have := (radixDigit_ten_isSome '-').mp
    (toDigits_isDigit n '-' (by rw [h]; exact List.mem_cons_self _ _))
  revert this; decide

/-- The decimal rendering of an integer determines it. -/
theorem JSNum.toStr_int_injective (i j : Int) (h : (JSNum.int i).toStr = (JSNum.int j).toStr) :
    i = j := by
  unfold JSNum.toStr at h
  by_cases hi : i < 0 <;> by_cases hj : j < 0
  · simp only [hi, hj, if_true, List.cons.injEq, true_and] at h
    have := toDigits_injective _ _ h
    omega
  · simp only [hi, hj, if_true, if_false] at h
    exact absurd h.symm (toDigits_head_ne_minus _ _)
  · simp only [hi, hj, if_true, if_false] at h
    exact absurd h (toDigits_head_ne_minus _ _)
  · simp only [hi, hj, if_false] at h
    have := toDigits_injective _ _ h
    omega

/-! ### Hex encoding -/

theorem bufferFromHex_toHex (bs : Bytes) : bufferFromHex (bufferToHex bs) = bs := by
  induction bs with
  | nil => rfl
  | cons b bs ih =>
    have h1 : b.val / 16 < 16 := by have := b.isLt; omega
    have h2 : b.val % 16 < 16 := Nat.mod_lt _ (by decide)
    simp only [bufferToHex, bufferFromHex, radixDigit_digitChar 16 _ h1 (le_refl _),
      radixDigit_digitChar 16 _ h2 (le_refl _), ih]
    congr 1
    apply Fin.ext
    have := b.isLt
    simp only [Fin.ofNat, Fin.val_mk]
    omega

theorem bufferToHex_ne_nil (bs : Bytes) (h : bs ≠ []) : bufferToHex bs ≠ [] := by
  cases bs with
  | nil => exact absurd rfl h
  | cons b bs => simp [bufferToHex]

/-! ### Splitting and joining -/

theorem removeFirst_append (pat s : Str) (hp : pat ≠ []) : removeFirst pat (pat ++ s) = s := by
  obtain ⟨c, p, rfl⟩ := List.exists_cons_of_ne_nil hp
  have hpre : (c :: p).isPrefixOf (c :: (p ++ s)) = true := by
    rw [← List.cons_append, List.isPrefixOf_iff_prefix]
    exact List.prefix_append _ _
  rw [List.cons_append, removeFirst, if_pos hpre, ← List.cons_append, List.drop_left]

theorem splitOnChar_no_sep (sep : Char) (a : Str) (ha : ∀ c ∈ a, c ≠ sep) :
    splitOnChar sep a = [a] := by
  induction a with
  | nil => rfl
  | cons c cs ih =>
    have hc : c ≠ sep := ha c (List.mem_cons_self _ _)
    simp [splitOnChar, hc, ih (fun d hd => ha d (List.mem_cons_of_mem _ hd))]

theorem splitOnChar_sep (sep : Char) (a b : Str) (ha : ∀ c ∈ a, c ≠ sep) :
    splitOnChar sep (a ++ sep :: b) = a :: splitOnChar sep b := by
  induction a with
  | nil => simp [splitOnChar]
  | cons c cs ih =>
    have hc : c ≠ sep := ha c (List.mem_cons_self _ _)
    simp [splitOnChar, hc, ih (fun d hd => ha d (List.mem_cons_of_mem _ hd))]

/-- Appending text without a separator extends the last piece only. -/
theorem splitOnChar_append (sep : Char) (b : Str) (hb : ∀ c ∈ b, c ≠ sep) (a : Str) :
    ∃ init last, splitOnChar sep a = init ++ [last] ∧
      splitOnChar sep (a ++ b) = init ++ [last ++ b] := by
  induction a with
  | nil => exact ⟨[], [], rfl, by simp [splitOnChar_no_sep sep b hb]⟩
  | cons c cs ih =>
    obtain ⟨init, last, h1, h2⟩ := ih
    by_cases hc : c = sep
    · exact ⟨[] :: init, last, by simp [splitOnChar, hc, h1], by simp [splitOnChar, hc, h2]⟩
    · cases init with
      | nil =>
        exact ⟨[], c :: last, by simp [splitOnChar, hc, h1], by simp [splitOnChar, hc, h2]⟩
      | cons q qs =>
        exact ⟨(c :: q) :: qs, last, by simp [splitOnChar, hc, h1],
          by simp [splitOnChar, hc, h2]⟩

theorem joinWith_cons_cons (sep : Char) (s t : Str) (rest : List Str) :
    joinWith sep (s :: t :: rest) = s ++ sep :: joinWith sep (t :: rest) := rfl

theorem joinWith_append_singleton (sep : Char) (T : List Str) :
    ∃ P, ∀ y : Str, joinWith sep (T ++ [y]) = P ++ y := by
  induction T with
  | nil => exact ⟨[], fun y => rfl⟩
  | cons s T ih =>
    obtain ⟨P, hP⟩ := ih
    refine ⟨s ++ sep :: P, fun y => ?_⟩
    cases T with
    | nil =>
      have h2 : joinWith sep [y] = P ++ y := hP y
      show joinWith sep [s, y] = _
      rw [joinWith_cons_cons, h2]
      simp
    | cons t T =>
      have h2 := hP y
      show joinWith sep (s :: t :: (T ++ [y])) = _
      rw [joinWith_cons_cons]
      rw [List.cons_append] at h2
      rw [h2]
      simp



/-! ### Chunk paths -/

theorem pathNormalize_ne_nil (path : Str) : pathNormalize path ≠ [] := by
  unfold pathNormalize
  simp only []
  split_ifs <;> simp_all

theorem pathJoin_ne_nil (args : List Str) : pathJoin args ≠ [] := by
  unfold pathJoin
  split
  · simp
  · exact pathNormalize_ne_nil _

theorem JSNum.toStr_no_slash (idx : JSNum) : ∀ c ∈ idx.toStr, c ≠ '/' := by
  intro c hc
  have hdig : ∀ n : Nat, ∀ c ∈ Nat.toDigits 10 n, c ≠ '/' := by
    intro n c hc
    have := (radixDigit_ten_isSome c).mp (toDigits_isDigit n c hc)
    rintro rfl
    revert this; decide
  cases idx with
  | nan =>
    have : c ∈ ['N', 'a', 'N'] := hc
    simp at this
    rcases this with rfl | rfl | rfl <;> decide
  | int i =>
    simp only [JSNum.toStr] at hc
    split_ifs at hc
    · rcases List.mem_cons.mp hc with rfl | h
      · decide
      · exact hdig _ c h
    · exact hdig _ c hc

/-- The name suffix that `chunkPath` gives to a chunk index. -/
theorem chunkSuffix_no_slash (idx : JSNum) :
    ∀ c ∈ "_chunk_".toList ++ idx.toStr ++ ".enc".toList, c ≠ '/' := by
  intro c hc
  rcases List.mem_append.mp hc with h | h
  · rcases List.mem_append.mp h with h | h
    · have : c ∈ ['_', 'c', 'h', 'u', 'n', 'k', '_'] := h
      simp at this
      rcases this with rfl | rfl | rfl | rfl | rfl | rfl | rfl <;> decide
    · exact JSNum.toStr_no_slash idx c h
  · have : c ∈ ['.', 'e', 'n', 'c'] := h
    simp at this
    rcases this with rfl | rfl | rfl | rfl <;> decide

theorem normalizeStep_ordinary (allow : Bool) (stack : List Str) (seg : Str)
    (h : 3 ≤ seg.length) : normalizeStep allow stack seg = seg :: stack := by
  have h0 : seg ≠ [] := by rintro rfl; simp at h
  have h1 : seg ≠ ['.'] := by rintro rfl; simp at h
  have h2 : seg ≠ ['.', '.'] := by rintro rfl; simp at h
  simp [normalizeStep, h0, h1, h2]

/-- The path of a chunk is a fixed text, which depends on the host and the file id only,
followed by `_chunk_<index>.enc`. -/
theorem chunkPath_eq (host : Host) (fileId : Option Str) :
    ∃ P : Str, ∀ idx : JSNum,
      chunkPath host fileId idx = P ++ ("_chunk_".toList ++ idx.toStr ++ ".enc".toList) := by
  set D := CHUNK_DIR host with hD
  have hDne : D ≠ [] := pathJoin_ne_nil _
  set F := jsToString fileId with hF
  obtain ⟨d, ds, hdd⟩ := List.exists_cons_of_ne_nil hDne
  -- the pieces of the joined path, up to the file id
  have hsplit : ∀ S : Str, (∀ c ∈ S, c ≠ '/') → ∃ init last,
      splitOnChar '/' (D ++ '/' :: F) = init ++ [last] ∧
      splitOnChar '/' ((D ++ '/' :: F) ++ S) = init ++ [last ++ S] :=
    fun S hS => splitOnChar_append '/' S hS (D ++ '/' :: F)
  obtain ⟨init, last, hi1, -⟩ := hsplit [] (by simp)
  obtain ⟨P0, hP0⟩ := joinWith_append_singleton '/'
    (init.foldl (normalizeStep (!decide (D.head? = some '/'))) []).reverse
  refine ⟨(if D.head? = some '/' then ['/'] else []) ++ P0 ++ last, fun idx => ?_⟩
  set S := "_chunk_".toList ++ idx.toStr ++ ".enc".toList with hS
  have hSns := chunkSuffix_no_slash idx
  obtain ⟨init2, last2, hi2, hi3⟩ := hsplit S hSns
  have hsame : init2 = init ∧ last2 = last := by
    have := hi1.symm.trans hi2
    have h := List.append_inj' this (by simp)
    exact ⟨h.1.symm, by simpa using h.2.symm⟩
  obtain ⟨rfl, rfl⟩ := hsame
  have hSlen : 11 ≤ S.length := by
    simp only [hS, List.length_append]
    have : "_chunk_".toList.length = 7 := rfl
    have : ".enc".toList.length = 4 := rfl
    omega
  have hname : jsToString fileId ++ "_chunk_".toList ++ idx.toStr ++ ".enc".toList = F ++ S := by
    simp [hS, hF]
  have hJ : pathJoin [D, F ++ S] = pathNormalize ((D ++ '/' :: F) ++ S) := by
    have hne2 : F ++ S ≠ [] := by
      intro h
      rw [(List.append_eq_nil.mp h).2] at hSlen
      simp at hSlen
    unfold pathJoin
    simp [List.filter, hDne, hne2, joinWith]
  unfold chunkPath
  rw [hname, ← hD, hJ]
  have hJne : (D ++ '/' :: F) ++ S ≠ [] := by simp [hDne]
  have hhead : ((D ++ '/' :: F) ++ S).head? = D.head? := by
    rw [hdd]; rfl
  have hSlast : S.getLast? = some 'c' := by
    have : S = ("_chunk_".toList ++ idx.toStr ++ ['.', 'e', 'n']) ++ ['c'] := by
      simp [hS]
    rw [this, List.getLast?_append]
    rfl
  have hlast : ((D ++ '/' :: F) ++ S).getLast? = some 'c' := by
    rw [List.getLast?_append, hSlast]
    rfl
  have hnorm : normalizeString (!decide (D.head? = some '/')) ((D ++ '/' :: F) ++ S) =
      P0 ++ (last2 ++ S) := by
    unfold normalizeString
    rw [hi3, List.foldl_append]
    simp only [List.foldl_cons, List.foldl_nil]
    rw [normalizeStep_ordinary _ _ _ (by simp; omega), List.reverse_cons, hP0]
  unfold pathNormalize
  simp only [hJne, if_false, hhead, hlast, hnorm]
  have hres : P0 ++ (last2 ++ S) ≠ [] := by
    intro h
    rw [(List.append_eq_nil.mp ((List.append_eq_nil.mp h).2)).2] at hSlen
    simp at hSlen
  simp only [hres, if_false]
  by_cases habs : D.head? = some '/'
  · simp [habs]
  · simp [habs]

theorem chunkPath_injective (host : Host) (fileId : Option Str) (i j : Int)
    (h : chunkPath host fileId (JSNum.int i) = chunkPath host fileId (JSNum.int j)) : i = j := by
  obtain ⟨P, hP⟩ := chunkPath_eq host fileId
  rw [hP, hP] at h
  have h1 := List.append_cancel_left h
  have h2 := List.append_cancel_right h1
  have h3 := List.append_cancel_left h2
  exact JSNum.toStr_int_injective i j h3



/-! ### What an upload does -/

/-- The state left by an upload that was answered 200, and what it took to get there. -/
theorem POST_ok (host : Host) (st : Store) (req : PostRequest) (env : PostEnv)
    (h : (POST host st req env).1.status = 200) :
    ∃ buffer encrypted authTag index fileDoc,
      req.chunk = some buffer ∧
      parseInt (jsToString req.chunkIndex) none = JSNum.int index ∧
      encryptChunk host.crypto buffer (cipherParams host (findOne st.files req.fileId) env).2
        (cipherParams host (findOne st.files req.fileId) env).1 = some (encrypted, authTag) ∧
      env.writeFileOk = true ∧ env.saveOk = true ∧
      docToSave (findOne st.files req.fileId) req.fileId req.fileName
        (orElseStr req.fileType "application/octet-stream".toList)
        (parseInt (orElseStr req.fileSize "0".toList) none) (JSNum.int index)
        (cipherParams host (findOne st.files req.fileId) env).1
        (cipherParams host (findOne st.files req.fileId) env).2 env.now
        (chunkPath host req.fileId (JSNum.int index)) encrypted.length authTag = some fileDoc ∧
      (POST host st req env).2 =
        { files := (match findOne st.files req.fileId with
            | some _ => replaceDoc fileDoc st.files
            | none => st.files ++ [fileDoc])
          disk := writeFile st.disk (chunkPath host req.fileId (JSNum.int index)) encrypted } := by
  revert h
  unfold POST
  simp only []
  cases hchunk : req.chunk with
  | none => intro h; simp [caught] at h
  | some buffer =>
    simp only []
    cases henc : encryptChunk host.crypto buffer
        (cipherParams host (findOne st.files req.fileId) env).2
        (cipherParams host (findOne st.files req.fileId) env).1 with
    | none => intro h; simp [caught] at h
    | some ea =>
      obtain ⟨encrypted, authTag⟩ := ea
      simp only []
      cases hw : env.writeFileOk with
      | false => intro h; simp [caught] at h
      | true =>
        simp only [Bool.true_eq_false, if_false]
        cases hidx : parseInt (jsToString req.chunkIndex) none with
        | nan => intro h; simp [docToSave, caught] at h
        | int index =>
          cases hdoc : docToSave (findOne st.files req.fileId) req.fileId req.fileName
              (orElseStr req.fileType "application/octet-stream".toList)
              (parseInt (orElseStr req.fileSize "0".toList) none) (JSNum.int index)
              (cipherParams host (findOne st.files req.fileId) env).1
              (cipherParams host (findOne st.files req.fileId) env).2 env.now
              (chunkPath host req.fileId (JSNum.int index)) encrypted.length authTag with
          | none => intro h; simp [caught] at h
          | some fileDoc =>
            simp only []
            cases hs : env.saveOk with
            | false => intro h; simp [caught] at h
            | true =>
              intro _
              refine ⟨buffer, encrypted, authTag, index, fileDoc, rfl, rfl, henc, ?_, rfl,
                hdoc, ?_⟩
              · trivial
              · simp only [Bool.true_eq_false, if_false]

/-- An upload that was not answered 200 was answered 500. -/
theorem POST_status (host : Host) (st : Store) (req : PostRequest) (env : PostEnv) :
    (POST host st req env).1.status = 200 ∨ (POST host st req env).1.status = 500 := by
  unfold POST
  simp only []
  repeat' split
  all_goals simp [caught]



/-! ### The collection and the disk -/

theorem findOne_fileId (files : List FileDoc) (fileId : Str) (doc : FileDoc)
    (h : findOne files (some fileId) = some doc) : doc.fileId = fileId := by
  have := List.find?_some h
  simpa using this

theorem findOne_append_new (files : List FileDoc) (doc : FileDoc)
    (h : findOne files (some doc.fileId) = none) :
    findOne (files ++ [doc]) (some doc.fileId) = some doc := by
  unfold findOne at h ⊢
  rw [List.find?_append, h]
  simp

theorem findOne_replaceDoc (files : List FileDoc) (old doc : FileDoc)
    (h : findOne files (some doc.fileId) = some old) :
    findOne (replaceDoc doc files) (some doc.fileId) = some doc := by
  induction files with
  | nil => simp [findOne] at h
  | cons d ds ih =>
    unfold replaceDoc
    by_cases hd : d.fileId = doc.fileId
    · simp [hd, findOne]
    · have h2 : findOne ds (some doc.fileId) = some old := by
        simpa [findOne, List.find?, hd] using h
      simp only [hd, if_false]
      simpa [findOne, List.find?, hd] using ih h2

theorem readFile_writeFile_same (disk : List (Str × Bytes)) (path : Str) (data : Bytes) :
    readFile (writeFile disk path data) path = some data := by
  simp [readFile, writeFile]

theorem readFile_writeFile_other (disk : List (Str × Bytes)) (path other : Str) (data : Bytes)
    (h : path ≠ other) : readFile (writeFile disk path data) other = readFile disk other := by
  simp [readFile, writeFile, List.find?, h]

/-! ### Uploading the chunks of one object -/

theorem chunkUpload_index (fileId : Str) (fileName fileType fileSize : Option Str)
    (chunks : List Bytes) (i : Nat) :
    parseInt (jsToString (chunkUpload fileId fileName fileType fileSize chunks i).chunkIndex)
      none = JSNum.int i :=
  parseInt_toDigits i none (Or.inl rfl)

/-- The first upload of a fresh object records it. -/
theorem Holds_first (host : Host) (st : Store) (fileId : Str)
    (fileName fileType fileSize : Option Str) (chunks : List Bytes) (i : Nat) (env : PostEnv)
    (hfresh : findOne st.files (some fileId) = none)
    (hok : (POST host st (chunkUpload fileId fileName fileType fileSize chunks i) env).1.status
      = 200) :
    Holds host (POST host st (chunkUpload fileId fileName fileType fileSize chunks i) env).2
      fileId (orElseStr fileType "application/octet-stream".toList)
      (orElseStr host.ENCRYPTION_KEY (bufferToHex env.randomBytes32)) env.randomBytes16
      chunks [i] := by
  obtain ⟨buffer, encrypted, authTag, index, fileDoc, hchunk, hidx, henc, -, -, hdoc, hst⟩ :=
    POST_ok host st _ env hok
  rw [chunkUpload_index] at hidx
  have hindex : index = (i : Int) := by injection hidx with h; exact h.symm
  subst hindex
  have hfid : (chunkUpload fileId fileName fileType fileSize chunks i).fileId = some fileId := rfl
  have hbuf : buffer = chunks.getD i [] := by
    have : (chunkUpload fileId fileName fileType fileSize chunks i).chunk =
      some (chunks.getD i []) := rfl
    rw [this] at hchunk
    injection hchunk with h; exact h.symm
  subst hbuf
  rw [hfid, hfresh] at hst hdoc henc
  simp only [cipherParams] at hdoc henc
  rw [hst]
  -- what validation let through
  unfold docToSave at hdoc
  simp only [] at hdoc
  split at hdoc
  · next c cs n ns sz hfi hfn hsz =>
    split_ifs at hdoc
    injection hdoc with hdoc
    have hfi2 : fileId = c :: cs := by injection hfi
    refine ⟨fileDoc, ?_, ?_, ?_, ?_, ?_, ?_, ?_⟩
    · have : fileDoc.fileId = fileId := by rw [← hdoc, hfi2]
      rw [← this]
      exact findOne_append_new _ _ (by rw [this]; exact hfresh)
    · rw [hfi2]; simp
    · rw [← hdoc]
    · rw [← hdoc]; exact bufferFromHex_toHex _
    · rw [← hdoc]; rfl
    · rw [← hdoc]; rfl
    · intro d hd
      rw [← hdoc] at hd
      simp only [List.mem_singleton] at hd
      subst hd
      refine ⟨i, rfl, rfl, encrypted, authTag, readFile_writeFile_same _ _ _, henc, ?_⟩
      exact bufferFromHex_toHex _
  · exact absurd hdoc (by simp)



/-- A further upload of an object adds a descriptor for its chunk and keeps the others;
the index may have been uploaded before. -/
theorem Holds_next (host : Host) (st : Store) (fileId fileType key : Str) (iv : Bytes)
    (fileName ft fileSize : Option Str) (chunks : List Bytes) (done : List Nat) (i : Nat)
    (env : PostEnv)
    (hinv : Holds host st fileId fileType key iv chunks done)
    (hok : (POST host st (chunkUpload fileId fileName ft fileSize chunks i) env).1.status
      = 200) :
    Holds host (POST host st (chunkUpload fileId fileName ft fileSize chunks i) env).2
      fileId fileType key iv chunks (done ++ [i]) := by
  obtain ⟨doc, hfind, hne, hkey, hiv, htype, hidxs, hall⟩ := hinv
  obtain ⟨buffer, encrypted, authTag, index, fileDoc, hchunk, hidx, henc, -, -, hdoc, hst⟩ :=
    POST_ok host st _ env hok
  rw [chunkUpload_index] at hidx
  have hindex : index = (i : Int) := by injection hidx with h; exact h.symm
  subst hindex
  have hfid : (chunkUpload fileId fileName ft fileSize chunks i).fileId = some fileId := rfl
  have hbuf : buffer = chunks.getD i [] := by
    have : (chunkUpload fileId fileName ft fileSize chunks i).chunk =
      some (chunks.getD i []) := rfl
    rw [this] at hchunk
    injection hchunk with h; exact h.symm
  subst hbuf
  rw [hfid, hfind] at hst hdoc henc
  simp only [cipherParams, hkey, hiv] at hdoc henc
  rw [hst]
  simp only [docToSave] at hdoc
  injection hdoc with hdoc
  have hdocid : doc.fileId = fileId := findOne_fileId _ _ _ hfind
  have hnewid : fileDoc.fileId = fileId := by rw [← hdoc]; exact hdocid
  refine ⟨fileDoc, ?_, hne, ?_, ?_, ?_, ?_, ?_⟩
  · have h := findOne_replaceDoc st.files doc fileDoc (by rw [hnewid]; exact hfind)
    rw [hnewid] at h
    exact h
  · rw [← hdoc]; exact hkey
  · rw [← hdoc]; exact hiv
  · rw [← hdoc]; exact htype
  · rw [← hdoc]
    simp [hidxs]
  · intro d hd
    rw [← hdoc] at hd
    simp only [List.mem_append, List.mem_singleton] at hd
    rcases hd with hd | hd
    · obtain ⟨j, hj, hpath, ct, tag, hread, hencj, htag⟩ := hall d hd
      refine ⟨j, hj, hpath, ct, tag, ?_, hencj, htag⟩
      by_cases hij : i = j
      · -- the same index again: the same blob is written over itself
        subst hij
        rw [hencj] at henc
        injection henc with henc
        injection henc with hct _
        rw [hpath, readFile_writeFile_same, hct]
      · have hne : chunkPath host (some fileId) (JSNum.int i) ≠ d.filePath := by
          rw [hpath]
          intro h
          have := chunkPath_injective host (some fileId) _ _ h
          exact hij (Int.ofNat.inj this)
        rw [readFile_writeFile_other _ _ _ _ hne]
        exact hread
    · subst hd
      refine ⟨i, rfl, rfl, encrypted, authTag, readFile_writeFile_same _ _ _, henc, ?_⟩
      exact bufferFromHex_toHex _

/-- Sequential uploads of further chunks of an object. -/
theorem Holds_run (host : Host) (fileId fileType key : Str) (iv : Bytes)
    (fileName ft fileSize : Option Str) (chunks : List Bytes) :
    ∀ (subs : List (Nat × PostEnv)) (st : Store) (done : List Nat),
      Holds host st fileId fileType key iv chunks done →
      (∀ r ∈ (runPosts host st (subs.map (fun s =>
        (chunkUpload fileId fileName ft fileSize chunks s.1, s.2)))).1, r.status = 200) →
      Holds host (runPosts host st (subs.map (fun s =>
        (chunkUpload fileId fileName ft fileSize chunks s.1, s.2)))).2
        fileId fileType key iv chunks (done ++ subs.map Prod.fst) := by
  intro subs
  induction subs with
  | nil => intro st done h _; simpa [runPosts] using h
  | cons s rest ih =>
    intro st done h hok
    simp only [List.map_cons, runPosts] at hok ⊢
    have hok1 := hok _ (List.mem_cons_self _ _)
    have h1 := Holds_next host st fileId fileType key iv fileName ft fileSize chunks done s.1
      s.2 h hok1
    have := ih _ (done ++ [s.1]) h1 (fun r hr => hok r (List.mem_cons_of_mem _ hr))
    simpa using this



/-! ### Reconstruction -/

theorem sortChunks_perm (L : List ChunkDescriptor) : (sortChunks L).Perm L :=
  List.perm_insertionSort _ L

theorem sortChunks_sorted (L : List ChunkDescriptor) :
    ((sortChunks L).map (fun d => d.index)).Sorted (· ≤ ·) := by
  haveI : IsTotal ChunkDescriptor (fun a b => a.index ≤ b.index) := ⟨fun a b => le_total _ _⟩
  haveI : IsTrans ChunkDescriptor (fun a b => a.index ≤ b.index) :=
    ⟨fun a b c h1 h2 => le_trans h1 h2⟩
  have h := List.sorted_insertionSort (fun a b : ChunkDescriptor => a.index ≤ b.index) L
  unfold sortChunks
  exact List.pairwise_map.mpr h

/-- Sorting descriptors sorts their indices. -/
theorem sortChunks_indices (L : List ChunkDescriptor) (order : List Nat)
    (h : L.map (fun d => d.index) = order.map Int.ofNat) :
    (sortChunks L).map (fun d => d.index) =
      (order.insertionSort (· ≤ ·)).map Int.ofNat := by
  have hp : ((sortChunks L).map (fun d => d.index)).Perm
      ((order.insertionSort (· ≤ ·)).map Int.ofNat) := by
    have h1 := (sortChunks_perm L).map (fun d => d.index)
    rw [h] at h1
    exact h1.trans ((List.perm_insertionSort _ order).symm.map _)
  have hs2 : ((order.insertionSort (· ≤ ·)).map Int.ofNat).Sorted (· ≤ ·) := by
    apply List.pairwise_map.mpr
    have := List.sorted_insertionSort (fun a b : Nat => a ≤ b) order
    exact this.imp (fun hab => Int.ofNat_le.mpr hab)
  exact List.eq_of_perm_of_sorted hp (sortChunks_sorted L) hs2

/-- Sorting the indices `0, ..., N-1`, given in any order, lists them in order. -/
theorem insertionSort_range (order : List Nat) (N : Nat) (hperm : order.Perm (List.range N)) :
    order.insertionSort (· ≤ ·) = List.range N := by
  have hs : (List.range N).Sorted (· ≤ ·) :=
    (List.pairwise_lt_range N).imp (fun hab => le_of_lt hab)
  exact List.eq_of_perm_of_sorted ((List.perm_insertionSort _ order).trans hperm)
    (List.sorted_insertionSort _ order) hs

theorem decryptChunks_of_encrypted (host : Host) (disk : List (Str × Bytes)) (key : Str)
    (iv : Bytes) (chunks : List Bytes)
    (hcodec : ∀ k v p ct tag, host.crypto.encrypt k v p = some (ct, tag) →
      host.crypto.decrypt k v ct tag = some p) :
    ∀ (L : List ChunkDescriptor) (idxs : List Nat),
      L.map (fun d => d.index) = idxs.map Int.ofNat →
      (∀ d ∈ L, ∃ i : Nat, d.index = (i : Int) ∧
        ∃ ct tag, readFile disk d.filePath = some ct ∧
          encryptChunk host.crypto (chunks.getD i []) key iv = some (ct, tag) ∧
          bufferFromHex d.authTag = tag) →
      decryptChunks host.crypto disk key iv L =
        Except.ok (idxs.map (fun i => chunks.getD i [])) := by
  intro L
  induction L with
  | nil =>
    intro idxs h _
    cases idxs with
    | nil => rfl
    | cons a as => simp at h
  | cons d ds ih =>
    intro idxs h hall
    cases idxs with
    | nil => simp at h
    | cons a as =>
      simp only [List.map_cons, List.cons.injEq] at h
      obtain ⟨i, hi, ct, tag, hread, henc, htag⟩ := hall d (List.mem_cons_self _ _)
      have hia : i = a := by
        have : (i : Int) = Int.ofNat a := hi.symm.trans h.1
        exact Int.ofNat.inj this
      subst hia
      have hdec : decryptChunk host.crypto ct key iv (bufferFromHex d.authTag) =
          some (chunks.getD i []) := by
        rw [htag]
        exact hcodec _ _ _ _ _ henc
      have hrest := ih as h.2 (fun e he => hall e (List.mem_cons_of_mem _ he))
      simp [decryptChunks, hread, hdec, hrest]

theorem map_getD_range (chunks : List Bytes) :
    (List.range chunks.length).map (fun i => chunks.getD i []) = chunks := by
  apply List.ext_getElem
  · simp
  · intro n h1 h2
    simp [List.getD, List.getElem?_eq_getElem h2]

/-- The buffer rebuilt from an object: the chunks of its descriptors, by ascending index. -/
theorem fullFile_of_Holds (host : Host) (st : Store) (fileId fileType key : Str) (iv : Bytes)
    (chunks : List Bytes) (order : List Nat)
    (hcodec : ∀ k v p ct tag, host.crypto.encrypt k v p = some (ct, tag) →
      host.crypto.decrypt k v ct tag = some p)
    (hinv : Holds host st fileId fileType key iv chunks order) :
    ∃ doc, findOne st.files (some fileId) = some doc ∧ fileId ≠ [] ∧
      doc.fileType = fileType ∧
      doc.chunks.map (fun d => d.index) = order.map Int.ofNat ∧
      fullFile host st doc = Except.ok
        ((order.insertionSort (· ≤ ·)).map (fun i => chunks.getD i [])).flatten := by
  obtain ⟨doc, hfind, hne, hkey, hiv, htype, hidxs, hall⟩ := hinv
  refine ⟨doc, hfind, hne, htype, hidxs, ?_⟩
  have hsorted := sortChunks_indices doc.chunks order hidxs
  have hall2 : ∀ d ∈ sortChunks doc.chunks, ∃ i : Nat, d.index = (i : Int) ∧
      ∃ ct tag, readFile st.disk d.filePath = some ct ∧
        encryptChunk host.crypto (chunks.getD i []) key iv = some (ct, tag) ∧
        bufferFromHex d.authTag = tag := by
    intro d hd
    obtain ⟨i, hi, -, ct, tag, h1, h2, h3⟩ :=
      hall d ((sortChunks_perm doc.chunks).mem_iff.mp hd)
    exact ⟨i, hi, ct, tag, h1, h2, h3⟩
  have hdec := decryptChunks_of_encrypted host st.disk key iv chunks hcodec
    (sortChunks doc.chunks) (order.insertionSort (· ≤ ·)) hsorted hall2
  unfold fullFile
  simp only [hkey, hiv, hdec]

/-- The state after the uploads of a fresh object, in any order and with repetitions. -/
theorem uploads_Holds (host : Host) (st : Store) (fileId : Str)
    (fileName fileType fileSize : Option Str) (chunks : List Bytes)
    (s : Nat × PostEnv) (rest : List (Nat × PostEnv))
    (hfresh : findOne st.files (some fileId) = none)
    (hok : ∀ r ∈ (runPosts host st (((s :: rest).map (fun s =>
      (chunkUpload fileId fileName fileType fileSize chunks s.1, s.2))))).1, r.status = 200) :
    Holds host (runPosts host st ((s :: rest).map (fun s =>
      (chunkUpload fileId fileName fileType fileSize chunks s.1, s.2)))).2
      fileId (orElseStr fileType "application/octet-stream".toList)
      (orElseStr host.ENCRYPTION_KEY (bufferToHex s.2.randomBytes32)) s.2.randomBytes16
      chunks ((s :: rest).map Prod.fst) := by
  simp only [List.map_cons, runPosts] at hok ⊢
  have h1 := Holds_first host st fileId fileName fileType fileSize chunks s.1 s.2 hfresh
    (hok _ (List.mem_cons_self _ _))
  exact Holds_run host fileId _ _ _ fileName fileType fileSize chunks rest _ [s.1] h1
    (fun r hr => hok r (List.mem_cons_of_mem _ hr))


theorem exampleCipher_inverts (k v p ct tag : Bytes)
    (h : exampleCipher.encrypt k v p = some (ct, tag)) :
    exampleCipher.decrypt k v ct tag = some p := by
  simp only [exampleCipher] at h ⊢
  split_ifs at h with hk
  simp only [Option.some.injEq, Prod.mk.injEq] at h
  obtain ⟨rfl, rfl⟩ := h
  simp [hk, Function.comp_def]

/-- What `GET` answers to an unranged request that passes the origin check, for a recorded
object that is not a video and whose chunks decrypt. -/
theorem GET_full (host : Host) (st : Store) (req : GetRequest) (env : GetEnv) (fileId : Str)
    (doc : FileDoc) (content : Bytes)
    (hid : req.fileId = some fileId) (hne : fileId ≠ [])
    (hgate : (!isValidOrigin req.origin && !isValidReferer req.referer) = false)
    (hrange : req.range = none)
    (hfind : findOne st.files (some fileId) = some doc)
    (hvideo : "video/".toList.isPrefixOf doc.fileType = false)
    (hfull : fullFile host st doc = Except.ok content) :
    (GET host st req env).status = 200 ∧ (GET host st req env).body = Body.bytes content := by
  obtain ⟨c, cs, rfl⟩ := List.exists_cons_of_ne_nil hne
  unfold GET
  simp only [hid, hgate, hfind, hfull, hrange, fullResponse, hvideo]
  simp

/-- C1. Round trip: the chunks of a file, uploaded for a fresh file id in any order, each
index once and every upload answered 200, are served back whole (status 200, body equal
to the concatenation of the chunks) to an unranged request from an allowed origin, when
the file type is not a video type and decryption inverts encryption. -/
theorem C1_round_trip (host : Host) (st : Store) (fileId : Str)
    (fileName fileType fileSize : Option Str) (chunks : List Bytes)
    (subs : List (Nat × PostEnv)) (req : GetRequest) (env : GetEnv)
    (hcodec : ∀ k v p ct tag, host.crypto.encrypt k v p = some (ct, tag) →
      host.crypto.decrypt k v ct tag = some p)
    (hN : 1 ≤ chunks.length)
    (hfresh : findOne st.files (some fileId) = none)
    (hvideo : "video/".toList.isPrefixOf
      (orElseStr fileType "application/octet-stream".toList) = false)
    (hsubs : (subs.map Prod.fst).Perm (List.range chunks.length))
    (hok : ∀ r ∈ (runPosts host st (subs.map (fun s =>
      (chunkUpload fileId fileName fileType fileSize chunks s.1, s.2)))).1, r.status = 200)
    (hid : req.fileId = some fileId) (horigin : isValidOrigin req.origin = true)
    (hrange : req.range = none) :
    (GET host (runPosts host st (subs.map (fun s =>
      (chunkUpload fileId fileName fileType fileSize chunks s.1, s.2)))).2 req env).status
      = 200 ∧
    (GET host (runPosts host st (subs.map (fun s =>
      (chunkUpload fileId fileName fileType fileSize chunks s.1, s.2)))).2 req env).body
      = Body.bytes chunks.flatten := by
  cases subs with
  | nil =>
    have := hsubs.length_eq
    simp at this
    omega
  | cons s rest =>
    have h2 := uploads_Holds host st fileId fileName fileType fileSize chunks s rest hfresh hok
    obtain ⟨doc, hfind, hne, htype, -, hfull⟩ := fullFile_of_Holds host _ fileId _ _ _ chunks
      _ hcodec h2
    rw [insertionSort_range _ _ hsubs, map_getD_range] at hfull
    exact GET_full host _ req env fileId doc _ hid hne (by simp [horigin]) hrange hfind
      (by rw [htype]; exact hvideo) hfull

theorem C1_round_trip_witness :
    (GET exampleHost (runPosts exampleHost ⟨[], []⟩
      [(chunkUpload "demo".toList (some "demo.bin".toList) (some "text/plain".toList)
          (some "5".toList) [[1, 2, 3], [9, 8]] 1, exampleEnv 7 100),
       (chunkUpload "demo".toList (some "demo.bin".toList) (some "text/plain".toList)
          (some "5".toList) [[1, 2, 3], [9, 8]] 0, exampleEnv 3 101)]).2
      (exampleGet none) exampleGetEnv).status = 200 ∧
    (GET exampleHost (runPosts exampleHost ⟨[], []⟩
      [(chunkUpload "demo".toList (some "demo.bin".toList) (some "text/plain".toList)
          (some "5".toList) [[1, 2, 3], [9, 8]] 1, exampleEnv 7 100),
       (chunkUpload "demo".toList (some "demo.bin".toList) (some "text/plain".toList)
          (some "5".toList) [[1, 2, 3], [9, 8]] 0, exampleEnv 3 101)]).2
      (exampleGet none) exampleGetEnv).body = Body.bytes [1, 2, 3, 9, 8] :=
  C1_round_trip exampleHost ⟨[], []⟩ "demo".toList (some "demo.bin".toList)
    (some "text/plain".toList) (some "5".toList) [[1, 2, 3], [9, 8]]
    [(1, exampleEnv 7 100), (0, exampleEnv 3 101)] (exampleGet none) exampleGetEnv
    exampleCipher_inverts (by decide) (by decide) (by decide) (by decide) (by decide)
    rfl (by decide) rfl


/-! ### Range requests -/

theorem toDigits_no_minus (n : Nat) : ∀ c ∈ Nat.toDigits 10 n, c ≠ '-' := by
  intro c hc
  have := (radixDigit_ten_isSome c).mp (toDigits_isDigit n c hc)
  rintro rfl
  revert this; decide

theorem JSNum.toStr_natCast (n : Nat) : (JSNum.int (n : Int)).toStr = Nat.toDigits 10 n := by
  simp [JSNum.toStr]

/-- The pieces of a header `bytes=<a>-<b>`. -/
theorem rangeParts_closed (a b : Nat) :
    splitOnChar '-' (removeFirst "bytes=".toList
      ("bytes=".toList ++ Nat.toDigits 10 a ++ '-' :: Nat.toDigits 10 b)) =
      [Nat.toDigits 10 a, Nat.toDigits 10 b] := by
  rw [List.append_assoc, removeFirst_append _ _ (by decide),
    splitOnChar_sep _ _ _ (toDigits_no_minus a), splitOnChar_no_sep _ _ (toDigits_no_minus b)]

theorem truthy_toDigits (n : Nat) : truthy (some (Nat.toDigits 10 n)) = true := by
  obtain ⟨c, cs, h⟩ := List.exists_cons_of_ne_nil (toDigits_ne_nil n)
  rw [h]; rfl

/-- The slice taken for a start `a` and an inclusive end `b`. -/
theorem bufferSlice_range (P : Bytes) (a b : Nat) :
    bufferSlice P (JSNum.int a) (JSNum.int ((b : Int) + 1)) = (P.drop a).take (b + 1 - a) := by
  have hs : adjustOffset (JSNum.int a) P.length = Min.min a P.length := by
    unfold adjustOffset
    simp only []
    by_cases h0 : (a : Int) = 0
    · have : a = 0 := by exact_mod_cast h0
      simp [this]
    · have hneg : ¬ ((a : Int) < 0) := by omega
      by_cases hlt : (a : Int) < (P.length : Int)
      · have : a < P.length := by exact_mod_cast hlt
        simp [h0, hneg, hlt, Nat.min_eq_left (le_of_lt this)]
      · have : P.length ≤ a := by
          have := not_lt.mp hlt
          exact_mod_cast this
        simp [h0, hneg, hlt, Nat.min_eq_right this]
  have he : adjustOffset (JSNum.int ((b : Int) + 1)) P.length = Min.min (b + 1) P.length := by
    unfold adjustOffset
    simp only []
    have h0 : ¬ ((b : Int) + 1 = 0) := by omega
    have hneg : ¬ ((b : Int) + 1 < 0) := by omega
    by_cases hlt : (b : Int) + 1 < (P.length : Int)
    · have : b + 1 < P.length := by exact_mod_cast hlt
      have e : ((b : Int) + 1).toNat = b + 1 := by omega
      simp only [h0, hneg, hlt, if_true, if_false, e, Nat.min_eq_left (le_of_lt this)]
    · have : P.length ≤ b + 1 := by
        have := not_lt.mp hlt
        exact_mod_cast this
      simp only [h0, hneg, hlt, if_false, Nat.min_eq_right this]
  unfold bufferSlice
  simp only [hs, he]
  by_cases ha : P.length ≤ a
  · rw [List.drop_of_length_le ha, List.drop_of_length_le (by simp [ha])]
    simp
  · have ha2 : a < P.length := not_le.mp ha
    rw [Nat.min_eq_left (le_of_lt ha2)]
    by_cases hb : b + 1 ≤ P.length
    · rw [Nat.min_eq_left hb]
      split_ifs with h
      · rfl
      · have : b + 1 - a = 0 := by omega
        rw [this]
    · have hb2 : P.length ≤ b + 1 := by omega
      rw [Nat.min_eq_right hb2, if_pos ha2]
      rw [List.take_of_length_le (by simp), List.take_of_length_le (by simp; omega)]

/-- The answer of the range branch to a header `bytes=<a>-<b>`, whatever `a` and `b`. -/
theorem rangeResponse_closed (env : GetEnv) (doc : FileDoc) (P : Bytes) (a b : Nat) :
    rangeResponse env doc P
      ("bytes=".toList ++ Nat.toDigits 10 a ++ '-' :: Nat.toDigits 10 b) =
    { status := 206
      headers :=
        [("Content-Range".toList,
           "bytes ".toList ++ Nat.toDigits 10 a ++ "-".toList ++ Nat.toDigits 10 b ++
             "/".toList ++ Nat.toDigits 10 P.length),
         ("Accept-Ranges".toList, "bytes".toList),
         ("Content-Length".toList, (JSNum.int ((b : Int) - a + 1)).toStr),
         ("Content-Type".toList, doc.fileType)] ++ streamHeaders
      body := Body.bytes ((P.drop a).take (b + 1 - a)) } := by
  unfold rangeResponse
  simp only [rangeParts_closed, List.headD_cons, parseInt_toDigits _ _ (Or.inr rfl)]
  have h1 : ([Nat.toDigits 10 a, Nat.toDigits 10 b] : List Str)[1]? =
      some (Nat.toDigits 10 b) := rfl
  simp only [h1, truthy_toDigits, Option.getD_some, parseInt_toDigits _ _ (Or.inr rfl),
    if_true, Bool.not_true, Bool.and_false, Bool.false_eq_true, if_false, JSNum.sub, JSNum.add,
    bufferSlice_range, JSNum.toStr_natCast]

/-- How `GET` reaches the range branch. -/
theorem GET_ranged (host : Host) (st : Store) (req : GetRequest) (env : GetEnv) (fileId : Str)
    (doc : FileDoc) (P : Bytes) (range : Str)
    (hid : req.fileId = some fileId) (hne : fileId ≠ [])
    (hgate : (!isValidOrigin req.origin && !isValidReferer req.referer) = false)
    (hfind : findOne st.files (some fileId) = some doc)
    (hfull : fullFile host st doc = Except.ok P)
    (hrange : req.range = some range) (hr : range ≠ []) :
    GET host st req env = rangeResponse env doc P range := by
  obtain ⟨c, cs, rfl⟩ := List.exists_cons_of_ne_nil hne
  obtain ⟨r, rs, rfl⟩ := List.exists_cons_of_ne_nil hr
  unfold GET
  simp only [hid, hgate, hfind, hfull, hrange]
  simp

/-- C2. Exact range: for a recorded object whose chunks decrypt to the plaintext `P`, a
request that passes the origin check with the header `Range: bytes=a-b`, where
`a ≤ b < P.length`, is answered 206 with the body `P[a..b]`, which has `b - a + 1` bytes,
and with `Content-Range: bytes a-b/L` for `L = P.length`. -/
theorem C2_exact_range (host : Host) (st : Store) (req : GetRequest) (env : GetEnv)
    (fileId : Str) (doc : FileDoc) (P : Bytes) (a b : Nat)
    (hid : req.fileId = some fileId) (hne : fileId ≠ [])
    (hgate : (!isValidOrigin req.origin && !isValidReferer req.referer) = false)
    (hfind : findOne st.files (some fileId) = some doc)
    (hfull : fullFile host st doc = Except.ok P)
    (hab : a ≤ b) (hb : b < P.length)
    (hrange : req.range = some
      ("bytes=".toList ++ Nat.toDigits 10 a ++ '-' :: Nat.toDigits 10 b)) :
    (GET host st req env).status = 206 ∧
    (GET host st req env).body = Body.bytes ((P.drop a).take (b - a + 1)) ∧
    ((P.drop a).take (b - a + 1)).length = b - a + 1 ∧
    (GET host st req env).header "Content-Range".toList = some
      ("bytes ".toList ++ Nat.toDigits 10 a ++ "-".toList ++ Nat.toDigits 10 b ++
        "/".toList ++ Nat.toDigits 10 P.length) := by
  rw [GET_ranged host st req env fileId doc P _ hid hne hgate hfind hfull hrange (by simp),
    rangeResponse_closed]
  have e : b + 1 - a = b - a + 1 := by omega
  refine ⟨rfl, by rw [e], ?_, ?_⟩
  · rw [List.length_take, List.length_drop]
    omega
  · simp [Response.header]

theorem C2_exact_range_witness :
    (GET exampleHost exampleStore (exampleGet (some "bytes=10-19".toList))
      exampleGetEnv).status = 206 ∧
    (GET exampleHost exampleStore (exampleGet (some "bytes=10-19".toList))
      exampleGetEnv).body = Body.bytes [10, 11, 12, 13, 14, 15, 16, 17, 18, 19] ∧
    ([10, 11, 12, 13, 14, 15, 16, 17, 18, 19] : Bytes).length = 10 ∧
    (GET exampleHost exampleStore (exampleGet (some "bytes=10-19".toList))
      exampleGetEnv).header "Content-Range".toList = some "bytes 10-19/24".toList :=
  C2_exact_range exampleHost exampleStore (exampleGet (some "bytes=10-19".toList))
    exampleGetEnv "demo".toList exampleDoc exampleContent 10 19 rfl (by decide) (by decide)
    (by decide) (by decide) (by decide) (by decide) (by decide)

/-- C3 fails as stated: on the 24-byte example object the header `bytes=24-34`, whose
start is the length of the object, is answered 206 and not 416. -/
theorem C3_counterexample :
    (GET exampleHost exampleStore (exampleGet (some "bytes=24-34".toList))
      exampleGetEnv).status = 206 ∧
    (GET exampleHost exampleStore (exampleGet (some "bytes=24-34".toList))
      exampleGetEnv).status ≠ 416 := by
  decide

/-- C3 (amended). For a recorded object whose chunks decrypt to `P` and a request that
passes the origin check with the header `Range: bytes=a-b`, where `a > b` or
`a ≥ P.length`, `GET` answers 206 with an empty body; it does not answer 416. -/
theorem C3_unsatisfiable_range (host : Host) (st : Store) (req : GetRequest) (env : GetEnv)
    (fileId : Str) (doc : FileDoc) (P : Bytes) (a b : Nat)
    (hid : req.fileId = some fileId) (hne : fileId ≠ [])
    (hgate : (!isValidOrigin req.origin && !isValidReferer req.referer) = false)
    (hfind : findOne st.files (some fileId) = some doc)
    (hfull : fullFile host st doc = Except.ok P)
    (hcase : b < a ∨ P.length ≤ a)
    (hrange : req.range = some
      ("bytes=".toList ++ Nat.toDigits 10 a ++ '-' :: Nat.toDigits 10 b)) :
    (GET host st req env).status = 206 ∧ (GET host st req env).body = Body.bytes [] ∧
    (GET host st req env).status ≠ 416 := by
  rw [GET_ranged host st req env fileId doc P _ hid hne hgate hfind hfull hrange (by simp),
    rangeResponse_closed]
  refine ⟨rfl, ?_, by simp⟩
  rcases hcase with h | h
  · have : b + 1 - a = 0 := by omega
    simp [this]
  · simp [List.drop_of_length_le h]

theorem C3_unsatisfiable_range_witness :
    (GET exampleHost exampleStore (exampleGet (some "bytes=5-2".toList))
      exampleGetEnv).status = 206 ∧
    (GET exampleHost exampleStore (exampleGet (some "bytes=5-2".toList))
      exampleGetEnv).body = Body.bytes [] ∧
    (GET exampleHost exampleStore (exampleGet (some "bytes=5-2".toList))
      exampleGetEnv).status ≠ 416 :=
  C3_unsatisfiable_range exampleHost exampleStore (exampleGet (some "bytes=5-2".toList))
    exampleGetEnv "demo".toList exampleDoc exampleContent 5 2 rfl (by decide) (by decide)
    (by decide) (by decide) (by decide) (by decide)

/-- C4 fails on the code: on the 24-byte example object the header `bytes=20-30` is
answered with the four bytes `P[20..23]`, but with `Content-Range: bytes 20-30/24` and
`Content-Length: 11`: the end is clamped in the body only, not in the headers. -/
theorem C4_headers_not_clamped :
    (GET exampleHost exampleStore (exampleGet (some "bytes=20-30".toList))
      exampleGetEnv).status = 206 ∧
    (GET exampleHost exampleStore (exampleGet (some "bytes=20-30".toList))
      exampleGetEnv).body = Body.bytes [20, 21, 22, 23] ∧
    (GET exampleHost exampleStore (exampleGet (some "bytes=20-30".toList))
      exampleGetEnv).header "Content-Range".toList = some "bytes 20-30/24".toList ∧
    (GET exampleHost exampleStore (exampleGet (some "bytes=20-30".toList))
      exampleGetEnv).header "Content-Length".toList = some "11".toList := by
  decide

/-! ### Screening in `GET` -/

/-- The status of a response of the range branch or of the unranged branch. -/
theorem served_status (env : GetEnv) (doc : FileDoc) (P : Bytes) (range : Option Str) :
    (match range with
      | some (r :: rs) => rangeResponse env doc P (r :: rs)
      | _ => fullResponse env doc P).status = 200 ∨
    (match range with
      | some (r :: rs) => rangeResponse env doc P (r :: rs)
      | _ => fullResponse env doc P).status = 206 := by
  split
  · right; rfl
  · unfold fullResponse
    simp only []
    split_ifs
    · right; rfl
    · left; rfl

/-- C5 fails as stated: after the upload of chunk 0 only, of the three chunks the client
announced, `GET` answers 200 with the eight bytes of chunk 0, not 404. -/
theorem C5_counterexample :
    (GET exampleHost (runPosts exampleHost ⟨[], []⟩ (exampleUploads.take 1)).2
      (exampleGet none) exampleGetEnv).status = 200 ∧
    (GET exampleHost (runPosts exampleHost ⟨[], []⟩ (exampleUploads.take 1)).2
      (exampleGet none) exampleGetEnv).body = Body.bytes [0, 1, 2, 3, 4, 5, 6, 7] := by
  decide

/-- C5 (amended). For a request with a file id that passes the origin check, `GET`
answers 404 exactly when no document is recorded for the file id.  A recorded document is
served from the chunks it has: an unranged request for an object that is not a video is
answered 200 with the buffer rebuilt from the descriptors that are present. -/
theorem C5_not_found_iff (host : Host) (st : Store) (req : GetRequest) (env : GetEnv)
    (fileId : Str) (hid : req.fileId = some fileId) (hne : fileId ≠ [])
    (hgate : (!isValidOrigin req.origin && !isValidReferer req.referer) = false) :
    ((GET host st req env).status = 404 ↔ findOne st.files (some fileId) = none) ∧
    (∀ doc P, findOne st.files (some fileId) = some doc →
      fullFile host st doc = Except.ok P → req.range = none →
      "video/".toList.isPrefixOf doc.fileType = false →
      (GET host st req env).status = 200 ∧ (GET host st req env).body = Body.bytes P) := by
  refine ⟨?_, fun doc P hfind hfull hrange hvideo =>
    GET_full host st req env fileId doc P hid hne hgate hrange hfind hvideo hfull⟩
  obtain ⟨c, cs, rfl⟩ := List.exists_cons_of_ne_nil hne
  unfold GET
  simp only [hid, hgate]
  cases hfind : findOne st.files (some (c :: cs)) with
  | none => simp
  | some doc =>
    simp only [Bool.false_eq_true, if_false]
    cases hfull : fullFile host st doc with
    | error e => simp [caught]
    | ok P =>
      simp only []
      rcases served_status env doc P req.range with h | h <;> simp [h]

theorem C5_not_found_iff_witness :
    ((GET exampleHost (runPosts exampleHost ⟨[], []⟩ (exampleUploads.take 2)).2
        (exampleGet none) exampleGetEnv).status = 404 ↔
      findOne (runPosts exampleHost ⟨[], []⟩ (exampleUploads.take 2)).2.files
        (some "demo".toList) = none) ∧
    (GET exampleHost (runPosts exampleHost ⟨[], []⟩ (exampleUploads.take 2)).2
      (exampleGet none) exampleGetEnv).status = 200 ∧
    (GET exampleHost (runPosts exampleHost ⟨[], []⟩ (exampleUploads.take 2)).2
      (exampleGet none) exampleGetEnv).body = Body.bytes (exampleContent.take 16) :=
  ⟨(C5_not_found_iff exampleHost (runPosts exampleHost ⟨[], []⟩ (exampleUploads.take 2)).2
      (exampleGet none) exampleGetEnv "demo".toList rfl (by decide) (by decide)).1,
   (C5_not_found_iff exampleHost (runPosts exampleHost ⟨[], []⟩ (exampleUploads.take 2)).2
      (exampleGet none) exampleGetEnv "demo".toList rfl (by decide) (by decide)).2
      { exampleDoc with chunks := exampleDoc.chunks.take 2 } (exampleContent.take 16)
      (by decide) (by decide) rfl (by decide)⟩

/-- C7 fails as stated: a request without an `Origin` header whose `Referer` starts with
an allowed origin is served (status 200 with the whole example file), not refused. -/
theorem C7_counterexample :
    (GET exampleHost exampleStore
      { fileId := some "demo".toList, referer := some "http://localhost:3000/watch".toList,
        origin := none, range := none } exampleGetEnv).status = 200 ∧
    (GET exampleHost exampleStore
      { fileId := some "demo".toList, referer := some "http://localhost:3000/watch".toList,
        origin := none, range := none } exampleGetEnv).body = Body.bytes exampleContent := by
  decide

/-- C7 (amended). A request with a file id whose `Origin` header is absent or not in the
allow-list and whose `Referer` header is absent or does not start with an allowed origin
is answered 403 with an error message and no object bytes, whatever its `Range` header
and whatever is stored. -/
theorem C7_origin_gate (host : Host) (st : Store) (req : GetRequest) (env : GetEnv)
    (fileId : Str) (hid : req.fileId = some fileId) (hne : fileId ≠ [])
    (horigin : isValidOrigin req.origin = false)
    (hreferer : isValidReferer req.referer = false) :
    (GET host st req env).status = 403 ∧
    (GET host st req env).body = Body.error ("Access denied - Direct links are not " ++
      "allowed. Please access files through the application.").toList ∧
    (GET host st req env).content = [] := by
  obtain ⟨c, cs, rfl⟩ := List.exists_cons_of_ne_nil hne
  unfold GET
  simp only [hid, horigin, hreferer]
  refine ⟨rfl, rfl, rfl⟩

theorem C7_origin_gate_witness :
    (GET exampleHost exampleStore
      { fileId := some "demo".toList, referer := some "http://example.org/".toList,
        origin := some "http://example.org".toList, range := some "bytes=0-5".toList }
      exampleGetEnv).status = 403 ∧
    (GET exampleHost exampleStore
      { fileId := some "demo".toList, referer := some "http://example.org/".toList,
        origin := some "http://example.org".toList, range := some "bytes=0-5".toList }
      exampleGetEnv).body = Body.error ("Access denied - Direct links are not " ++
      "allowed. Please access files through the application.").toList ∧
    (GET exampleHost exampleStore
      { fileId := some "demo".toList, referer := some "http://example.org/".toList,
        origin := some "http://example.org".toList, range := some "bytes=0-5".toList }
      exampleGetEnv).content = [] :=
  C7_origin_gate exampleHost exampleStore _ exampleGetEnv "demo".toList rfl (by decide)
    (by decide) (by decide)

/-! ### Key and IV of an object across uploads -/

theorem findOne_replaceDoc_other (files : List FileDoc) (doc : FileDoc) (fileId : Str)
    (h : doc.fileId ≠ fileId) :
    findOne (replaceDoc doc files) (some fileId) = findOne files (some fileId) := by
  induction files with
  | nil => rfl
  | cons d ds ih =>
    unfold replaceDoc
    by_cases hd : d.fileId = doc.fileId
    · have hd2 : d.fileId ≠ fileId := by rw [hd]; exact h
      simp [hd, findOne, List.find?, h, hd2]
    · simp only [hd, if_false]
      by_cases hd2 : d.fileId = fileId
      · simp [findOne, List.find?, hd2]
      · simpa [findOne, List.find?, hd2] using ih

theorem findOne_append_other (files : List FileDoc) (doc extra : FileDoc) (fileId : Str)
    (h : findOne files (some fileId) = some doc) :
    findOne (files ++ [extra]) (some fileId) = some doc := by
  unfold findOne at h ⊢
  rw [List.find?_append, h]
  rfl

theorem findOne_request (files : List FileDoc) (fileId : Option Str) (doc : FileDoc)
    (h : findOne files fileId = some doc) : fileId = some doc.fileId := by
  have := List.find?_some h
  simp only [decide_eq_true_eq] at this
  exact this.symm

/-- An upload that is not answered 200 leaves the collection as it was. -/
theorem POST_files (host : Host) (st : Store) (req : PostRequest) (env : PostEnv) :
    (POST host st req env).2.files = st.files ∨ (POST host st req env).1.status = 200 := by
  unfold POST
  simp only []
  repeat' split
  all_goals first
    | (left; rfl)
    | (right; rfl)

/-- The document that `docToSave` builds for a recorded object. -/
theorem docToSave_some (doc : FileDoc) (fileId fileName : Option Str) (fileType : Str)
    (fileSize : JSNum) (index : Int) (iv : Bytes) (key : Str) (now : Nat) (path : Str)
    (size : Nat) (authTag : Bytes) :
    docToSave (some doc) fileId fileName fileType fileSize (JSNum.int index) iv key now path
      size authTag = some { doc with chunks := doc.chunks ++
        [{ index := index, filePath := path, size := size,
           authTag := bufferToHex authTag }] } := rfl

/-- What an upload that was answered 200 recorded for its object. -/
theorem POST_ok_records (host : Host) (st : Store) (req : PostRequest) (env : PostEnv)
    (h : (POST host st req env).1.status = 200) :
    ∃ fileId doc1, req.fileId = some fileId ∧
      findOne (POST host st req env).2.files (some fileId) = some doc1 ∧
      (bufferFromHex doc1.encryptionIV, doc1.encryptionKey) =
        cipherParams host (findOne st.files req.fileId) env ∧
      (findOne st.files req.fileId = none →
        doc1.encryptionIV = bufferToHex env.randomBytes16 ∧
        doc1.encryptionKey = orElseStr host.ENCRYPTION_KEY (bufferToHex env.randomBytes32)) ∧
      (∀ doc, findOne st.files req.fileId = some doc →
        doc1.encryptionIV = doc.encryptionIV ∧ doc1.encryptionKey = doc.encryptionKey ∧
        doc1.fileType = doc.fileType ∧ doc1.fileSize = doc.fileSize ∧
        ∃ d, doc1.chunks = doc.chunks ++ [d] ∧
          (readFile (POST host st req env).2.disk d.filePath).isSome = true) := by
  obtain ⟨buffer, encrypted, authTag, index, fileDoc, hchunk, hidx, henc, -, -, hdoc, hst⟩ :=
    POST_ok host st req env h
  rw [hst]
  cases hfound : findOne st.files req.fileId with
  | none =>
    rw [hfound] at hdoc
    simp only [cipherParams] at hdoc ⊢
    unfold docToSave at hdoc
    simp only [] at hdoc
    split at hdoc
    · next c cs n ns sz hfi hfn hsz =>
      split_ifs at hdoc
      injection hdoc with hdoc
      have hid : fileDoc.fileId = c :: cs := by rw [← hdoc]
      refine ⟨c :: cs, fileDoc, hfi, ?_, ?_, fun _ => ?_, fun doc hd => by simp at hd⟩
      · rw [← hid]
        apply findOne_append_new
        rw [hid, ← hfi]
        exact hfound
      · rw [← hdoc]
        simp [bufferFromHex_toHex]
      · rw [← hdoc]
        exact ⟨rfl, rfl⟩
    · exact absurd hdoc (by simp)
  | some doc =>
    rw [hfound] at hdoc
    rw [docToSave_some] at hdoc
    injection hdoc with hdoc
    have hreq := findOne_request _ _ _ hfound
    have hid : fileDoc.fileId = doc.fileId := by rw [← hdoc]
    refine ⟨doc.fileId, fileDoc, hreq, ?_, ?_, fun hn => by simp at hn, fun doc2 hd => ?_⟩
    · have := findOne_replaceDoc st.files doc fileDoc (by rw [hid, ← hreq]; exact hfound)
      rw [hid] at this
      exact this
    · rw [← hdoc]
      rfl
    · injection hd with hd
      subst hd
      rw [← hdoc]
      refine ⟨rfl, rfl, rfl, rfl, _, rfl, ?_⟩
      simp [readFile_writeFile_same]

/-- No upload changes the key or the IV of a recorded object. -/
theorem POST_keeps_params (host : Host) (st : Store) (req : PostRequest) (env : PostEnv)
    (fileId : Str) (doc : FileDoc) (h : findOne st.files (some fileId) = some doc) :
    ∃ doc1, findOne (POST host st req env).2.files (some fileId) = some doc1 ∧
      doc1.encryptionIV = doc.encryptionIV ∧ doc1.encryptionKey = doc.encryptionKey := by
  rcases POST_files host st req env with hsame | hok
  · exact ⟨doc, by rw [hsame]; exact h, rfl, rfl⟩
  · obtain ⟨g, doc1, hg, hfind1, -, -, hold⟩ := POST_ok_records host st req env hok
    by_cases hgf : g = fileId
    · subst hgf
      rw [hg] at hold
      obtain ⟨h1, h2, -⟩ := hold doc h
      exact ⟨doc1, hfind1, h1, h2⟩
    · obtain ⟨buffer, encrypted, authTag, index, fileDoc, -, -, -, -, -, hdoc, hst⟩ :=
        POST_ok host st req env hok
      rw [hst]
      refine ⟨doc, ?_, rfl, rfl⟩
      cases hfound : findOne st.files req.fileId with
      | none =>
        simp only []
        exact findOne_append_other _ _ _ _ h
      | some old =>
        simp only []
        rw [hfound, docToSave_some] at hdoc
        injection hdoc with hdoc
        have hreq := findOne_request _ _ _ hfound
        rw [hg] at hreq
        injection hreq with hreq
        have hid : fileDoc.fileId ≠ fileId := by
          rw [← hdoc]
          show old.fileId ≠ fileId
          rw [← hreq]
          exact hgf
        rw [findOne_replaceDoc_other _ _ _ hid]
        exact h

theorem runPosts_keeps_params (host : Host) (fileId : Str) :
    ∀ (reqs : List (PostRequest × PostEnv)) (st : Store) (doc : FileDoc),
      findOne st.files (some fileId) = some doc →
      ∃ doc1, findOne (runPosts host st reqs).2.files (some fileId) = some doc1 ∧
        doc1.encryptionIV = doc.encryptionIV ∧ doc1.encryptionKey = doc.encryptionKey := by
  intro reqs
  induction reqs with
  | nil => intro st doc h; exact ⟨doc, h, rfl, rfl⟩
  | cons r rest ih =>
    intro st doc h
    obtain ⟨doc1, h1, hiv1, hkey1⟩ := POST_keeps_params host st r.1 r.2 fileId doc h
    obtain ⟨doc2, h2, hiv2, hkey2⟩ := ih _ doc1 h1
    exact ⟨doc2, by simpa [runPosts] using h2, hiv2.trans hiv1, hkey2.trans hkey1⟩

/-! ### Claims about the upload route -/

/-- C6 fails as stated: in the three uploads of the example object, whose environments
draw three different random values, `encryptChunk` receives the same IV for the chunks
0, 1 and 2: the sixteen bytes drawn by the first upload. -/
theorem C6_counterexample :
    (uploadTrace exampleHost ⟨[], []⟩ exampleUploads).map (fun e => e.1.1) =
      [List.replicate 16 7, List.replicate 16 7, List.replicate 16 7] ∧
    (exampleUploads.map (fun u => u.2.randomBytes16)) =
      [List.replicate 16 7, List.replicate 16 50, List.replicate 16 90] := by
  decide

/-- C6 (amended). After an upload for a file id was answered 200, every later upload for
the same file id, whatever was uploaded in between and whatever its chunk index, hands to
`encryptChunk` the IV and the key that this upload handed to it: the base IV of the object
is used as it is for every chunk, no nonce is derived from the index. -/
theorem C6_base_iv_reused (host : Host) (st : Store) (req1 req2 : PostRequest)
    (env1 env2 : PostEnv) (between : List (PostRequest × PostEnv))
    (hok : (POST host st req1 env1).1.status = 200)
    (hsame : req2.fileId = req1.fileId) :
    cipherParams host
      (findOne (runPosts host (POST host st req1 env1).2 between).2.files req2.fileId) env2 =
    cipherParams host (findOne st.files req1.fileId) env1 := by
  obtain ⟨fileId, doc1, hid, hfind1, hparams, -, -⟩ := POST_ok_records host st req1 env1 hok
  obtain ⟨doc2, hfind2, hiv, hkey⟩ :=
    runPosts_keeps_params host fileId between _ doc1 hfind1
  rw [hsame, hid, hfind2, ← hid, ← hparams]
  simp only [cipherParams, hiv, hkey]

theorem C6_base_iv_reused_witness :
    (POST exampleHost ⟨[], []⟩ (exampleUpload "text/plain".toList 0)
      (exampleEnv 7 100)).1.status = 200 ∧
    cipherParams exampleHost
      (findOne (runPosts exampleHost (POST exampleHost ⟨[], []⟩
        (exampleUpload "text/plain".toList 0) (exampleEnv 7 100)).2
        [(exampleUpload "text/plain".toList 1, exampleEnv 50 101)]).2.files
        (exampleUpload "text/plain".toList 2).fileId) (exampleEnv 90 102) =
    cipherParams exampleHost
      (findOne (⟨[], []⟩ : Store).files (exampleUpload "text/plain".toList 0).fileId)
      (exampleEnv 7 100) :=
  ⟨by decide,
   C6_base_iv_reused exampleHost ⟨[], []⟩ (exampleUpload "text/plain".toList 0)
    (exampleUpload "text/plain".toList 2) (exampleEnv 7 100) (exampleEnv 90 102)
    [(exampleUpload "text/plain".toList 1, exampleEnv 50 101)] (by decide) rfl⟩

/-- Uploads for a recorded object use its key and IV and leave them in place. -/
theorem uploadTrace_recorded (host : Host) (fileId : Str) (ivHex key : Str) :
    ∀ (reqs : List (PostRequest × PostEnv)) (st : Store),
      (∃ doc, findOne st.files (some fileId) = some doc ∧ doc.encryptionIV = ivHex ∧
        doc.encryptionKey = key) →
      (∀ p ∈ reqs, p.1.fileId = some fileId) →
      ∀ e ∈ uploadTrace host st reqs, e.1 = (bufferFromHex ivHex, key) ∧
        ∃ doc, findOne e.2.files (some fileId) = some doc ∧ doc.encryptionIV = ivHex ∧
          doc.encryptionKey = key := by
  intro reqs
  induction reqs with
  | nil => intro st _ _ e he; simp [uploadTrace] at he
  | cons r rest ih =>
    intro st hdoc hall e he
    obtain ⟨doc, hfind, hiv, hkey⟩ := hdoc
    have hr : r.1.fileId = some fileId := hall r (List.mem_cons_self _ _)
    obtain ⟨doc1, hfind1, hiv1, hkey1⟩ := POST_keeps_params host st r.1 r.2 fileId doc hfind
    have hnext : ∃ doc, findOne (POST host st r.1 r.2).2.files (some fileId) = some doc ∧
        doc.encryptionIV = ivHex ∧ doc.encryptionKey = key :=
      ⟨doc1, hfind1, hiv1.trans hiv, hkey1.trans hkey⟩
    simp only [uploadTrace, List.mem_cons] at he
    rcases he with rfl | he
    · refine ⟨?_, hnext⟩
      simp only [hr, hfind, cipherParams, hiv, hkey]
    · exact ih _ hnext (fun p hp => hall p (List.mem_cons_of_mem _ hp)) e he

/-- C8. Key and IV stability: in a sequence of uploads for the same fresh file id, all
answered 200, every upload hands to `encryptChunk` the IV and the key generated by the
first upload, and after every upload the object records that key and that IV. -/
theorem C8_key_iv_stable (host : Host) (st : Store) (fileId : Str) (req1 : PostRequest)
    (env1 : PostEnv) (rest : List (PostRequest × PostEnv))
    (hfresh : findOne st.files (some fileId) = none)
    (hall : ∀ p ∈ (req1, env1) :: rest, p.1.fileId = some fileId)
    (hok : ∀ r ∈ (runPosts host st ((req1, env1) :: rest)).1, r.status = 200) :
    ∀ e ∈ uploadTrace host st ((req1, env1) :: rest),
      e.1 = (env1.randomBytes16,
        orElseStr host.ENCRYPTION_KEY (bufferToHex env1.randomBytes32)) ∧
      ∃ doc, findOne e.2.files (some fileId) = some doc ∧
        doc.encryptionIV = bufferToHex env1.randomBytes16 ∧
        doc.encryptionKey = orElseStr host.ENCRYPTION_KEY (bufferToHex env1.randomBytes32) := by
  have h1 : req1.fileId = some fileId := hall (req1, env1) (List.mem_cons_self _ _)
  have hok1 : (POST host st req1 env1).1.status = 200 := by
    apply hok
    simp [runPosts]
  obtain ⟨g, doc1, hg, hfind1, -, hnew, -⟩ := POST_ok_records host st req1 env1 hok1
  have hgf : g = fileId := by
    rw [h1] at hg
    injection hg with hg
    exact hg.symm
  subst hgf
  rw [h1] at hnew
  obtain ⟨hiv1, hkey1⟩ := hnew hfresh
  have hrec : ∃ doc, findOne (POST host st req1 env1).2.files (some g) = some doc ∧
      doc.encryptionIV = bufferToHex env1.randomBytes16 ∧
      doc.encryptionKey = orElseStr host.ENCRYPTION_KEY (bufferToHex env1.randomBytes32) :=
    ⟨doc1, hfind1, hiv1, hkey1⟩
  intro e he
  simp only [uploadTrace, List.mem_cons] at he
  rcases he with rfl | he
  · refine ⟨?_, hrec⟩
    simp only [h1, hfresh, cipherParams]
  · have := uploadTrace_recorded host g _ _ rest _ hrec
      (fun p hp => hall p (List.mem_cons_of_mem _ hp)) e he
    rw [bufferFromHex_toHex] at this
    exact this

theorem C8_key_iv_stable_witness :
    ((List.replicate 16 7, bufferToHex (List.replicate 32 8)), exampleStore) ∈
      uploadTrace exampleHost ⟨[], []⟩ exampleUploads ∧
    ∃ doc, findOne exampleStore.files (some "demo".toList) = some doc ∧
      doc.encryptionIV = bufferToHex (List.replicate 16 7) ∧
      doc.encryptionKey = bufferToHex (List.replicate 32 8) :=
  ⟨by decide,
   (C8_key_iv_stable exampleHost ⟨[], []⟩ "demo".toList (exampleUpload "text/plain".toList 0)
    (exampleEnv 7 100)
    [(exampleUpload "text/plain".toList 1, exampleEnv 50 101),
     (exampleUpload "text/plain".toList 2, exampleEnv 90 102)]
    (by decide) (by decide) (by decide)
    ((List.replicate 16 7, bufferToHex (List.replicate 32 8)), exampleStore) (by decide)).2⟩

/-- C9 fails as stated: chunk 0 of a fresh object, uploaded twice with the same bytes,
leaves two descriptors of index 0, and the unranged `GET` returns the chunk twice. -/
theorem C9_counterexample :
    ((findOne (runPosts exampleHost ⟨[], []⟩
        [(exampleUpload "text/plain".toList 0, exampleEnv 7 100),
         (exampleUpload "text/plain".toList 0, exampleEnv 50 101)]).2.files
        (some "demo".toList)).map (fun doc => doc.chunks.map (fun d => d.index)))
      = some [0, 0] ∧
    (GET exampleHost (runPosts exampleHost ⟨[], []⟩
        [(exampleUpload "text/plain".toList 0, exampleEnv 7 100),
         (exampleUpload "text/plain".toList 0, exampleEnv 50 101)]).2
        (exampleGet none) exampleGetEnv).body
      = Body.bytes [0, 1, 2, 3, 4, 5, 6, 7, 0, 1, 2, 3, 4, 5, 6, 7] ∧
    (GET exampleHost (runPosts exampleHost ⟨[], []⟩
        [(exampleUpload "text/plain".toList 0, exampleEnv 7 100)]).2
        (exampleGet none) exampleGetEnv).body
      = Body.bytes [0, 1, 2, 3, 4, 5, 6, 7] := by
  decide

/-- C9 (amended). Every upload that is answered 200 appends a descriptor: after the
uploads of chunks of a fresh object, in any order and with any repetitions, the object has
one descriptor per upload, in upload order, so an index submitted twice has two
descriptors; the unranged `GET` of an object that is not a video returns the chunks of the
submitted indices in ascending order, a chunk as many times as it was submitted. -/
theorem C9_retry_appends (host : Host) (st : Store) (fileId : Str)
    (fileName fileType fileSize : Option Str) (chunks : List Bytes)
    (s : Nat × PostEnv) (rest : List (Nat × PostEnv)) (req : GetRequest) (env : GetEnv)
    (hcodec : ∀ k v p ct tag, host.crypto.encrypt k v p = some (ct, tag) →
      host.crypto.decrypt k v ct tag = some p)
    (hfresh : findOne st.files (some fileId) = none)
    (hvideo : "video/".toList.isPrefixOf
      (orElseStr fileType "application/octet-stream".toList) = false)
    (hok : ∀ r ∈ (runPosts host st ((s :: rest).map (fun s =>
      (chunkUpload fileId fileName fileType fileSize chunks s.1, s.2)))).1, r.status = 200)
    (hid : req.fileId = some fileId)
    (hgate : (!isValidOrigin req.origin && !isValidReferer req.referer) = false)
    (hrange : req.range = none) :
    (∃ doc, findOne (runPosts host st ((s :: rest).map (fun s =>
        (chunkUpload fileId fileName fileType fileSize chunks s.1, s.2)))).2.files
        (some fileId) = some doc ∧
      doc.chunks.map (fun d => d.index) = (s :: rest).map (fun s => Int.ofNat s.1)) ∧
    (GET host (runPosts host st ((s :: rest).map (fun s =>
      (chunkUpload fileId fileName fileType fileSize chunks s.1, s.2)))).2 req env).status
      = 200 ∧
    (GET host (runPosts host st ((s :: rest).map (fun s =>
      (chunkUpload fileId fileName fileType fileSize chunks s.1, s.2)))).2 req env).body
      = Body.bytes ((((s :: rest).map Prod.fst).insertionSort (· ≤ ·)).map
          (fun i => chunks.getD i [])).flatten := by
  have h2 := uploads_Holds host st fileId fileName fileType fileSize chunks s rest hfresh hok
  obtain ⟨doc, hfind, hne, htype, hidx, hfull⟩ := fullFile_of_Holds host _ fileId _ _ _ chunks
    _ hcodec h2
  refine ⟨⟨doc, hfind, ?_⟩, ?_⟩
  · rw [hidx, List.map_map]
    rfl
  · exact GET_full host _ req env fileId doc _ hid hne hgate hrange hfind
      (by rw [htype]; exact hvideo) hfull

theorem C9_retry_appends_witness :
    (∃ doc, findOne (runPosts exampleHost ⟨[], []⟩
        [(exampleUpload "text/plain".toList 1, exampleEnv 7 100),
         (exampleUpload "text/plain".toList 0, exampleEnv 50 101),
         (exampleUpload "text/plain".toList 1, exampleEnv 90 102)]).2.files
        (some "demo".toList) = some doc ∧
      doc.chunks.map (fun d => d.index) = [1, 0, 1]) ∧
    (GET exampleHost (runPosts exampleHost ⟨[], []⟩
        [(exampleUpload "text/plain".toList 1, exampleEnv 7 100),
         (exampleUpload "text/plain".toList 0, exampleEnv 50 101),
         (exampleUpload "text/plain".toList 1, exampleEnv 90 102)]).2
        (exampleGet none) exampleGetEnv).status = 200 ∧
    (GET exampleHost (runPosts exampleHost ⟨[], []⟩
        [(exampleUpload "text/plain".toList 1, exampleEnv 7 100),
         (exampleUpload "text/plain".toList 0, exampleEnv 50 101),
         (exampleUpload "text/plain".toList 1, exampleEnv 90 102)]).2
        (exampleGet none) exampleGetEnv).body
      = Body.bytes [0, 1, 2, 3, 4, 5, 6, 7, 8, 9, 10, 11, 12, 13, 14, 15,
          8, 9, 10, 11, 12, 13, 14, 15] :=
  C9_retry_appends exampleHost ⟨[], []⟩ "demo".toList (some "demo.bin".toList)
    (some "text/plain".toList) (some "24".toList) exampleChunks (1, exampleEnv 7 100)
    [(0, exampleEnv 50 101), (1, exampleEnv 90 102)] (exampleGet none) exampleGetEnv
    exampleCipher_inverts (by decide) (by decide) (by decide) rfl (by decide) rfl

/-- C10 fails as stated: the example object is recorded with three chunks, the type
`text/plain` and the size 24; an upload for it that announces seven chunks, the type
`video/mp4` and the size 999 is answered 200, adds a fourth descriptor and writes its
blob. -/
theorem C10_counterexample :
    (POST exampleHost exampleStore
      { chunk := some [1, 2, 3], chunkIndex := some "3".toList,
        totalChunks := some "7".toList, fileId := some "demo".toList,
        fileName := some "demo.bin".toList, fileType := some "video/mp4".toList,
        fileSize := some "999".toList } (exampleEnv 7 103)).1.status = 200 ∧
    ((findOne (POST exampleHost exampleStore
      { chunk := some [1, 2, 3], chunkIndex := some "3".toList,
        totalChunks := some "7".toList, fileId := some "demo".toList,
        fileName := some "demo.bin".toList, fileType := some "video/mp4".toList,
        fileSize := some "999".toList } (exampleEnv 7 103)).2.files
      (some "demo".toList)).map (fun doc => doc.chunks.map (fun d => d.index)))
      = some [0, 1, 2, 3] ∧
    (readFile (POST exampleHost exampleStore
      { chunk := some [1, 2, 3], chunkIndex := some "3".toList,
        totalChunks := some "7".toList, fileId := some "demo".toList,
        fileName := some "demo.bin".toList, fileType := some "video/mp4".toList,
        fileSize := some "999".toList } (exampleEnv 7 103)).2.disk
      "/srv/app/uploads/chunks/demo_chunk_3.enc".toList).isSome = true := by
  decide

/-- C10 (amended). For a recorded object, the values of `totalChunks`, `fileType` and
`fileSize` in an upload are not compared with anything: the status of the upload and the
state it leaves are those of the same upload with any other values of the three fields.
When the upload is answered 200 it appends a descriptor whose blob is on disk, and the
recorded `fileType` and `fileSize` stay as they were. -/
theorem C10_metadata_not_checked (host : Host) (st : Store) (req : PostRequest)
    (env : PostEnv) (doc : FileDoc) (tc ft fs : Option Str)
    (hfind : findOne st.files req.fileId = some doc) :
    (POST host st { req with totalChunks := tc, fileType := ft, fileSize := fs } env).1.status
      = (POST host st req env).1.status ∧
    (POST host st { req with totalChunks := tc, fileType := ft, fileSize := fs } env).2
      = (POST host st req env).2 ∧
    ((POST host st req env).1.status = 200 →
      ∃ doc1, findOne (POST host st req env).2.files req.fileId = some doc1 ∧
        doc1.fileType = doc.fileType ∧ doc1.fileSize = doc.fileSize ∧
        ∃ d, doc1.chunks = doc.chunks ++ [d] ∧
          (readFile (POST host st req env).2.disk d.filePath).isSome = true) := by
  refine ⟨?_, ?_, fun hok => ?_⟩
  · unfold POST
    simp only [hfind]
    cases req.chunk with
    | none => rfl
    | some buffer =>
      simp only []
      cases encryptChunk host.crypto buffer (cipherParams host (some doc) env).2
          (cipherParams host (some doc) env).1 with
      | none => rfl
      | some ea =>
        simp only []
        cases env.writeFileOk with
        | false => rfl
        | true =>
          simp only [Bool.true_eq_false, if_false]
          cases parseInt (jsToString req.chunkIndex) none with
          | nan => rfl
          | int index =>
            simp only [docToSave_some]
            cases env.saveOk <;> rfl
  · unfold POST
    simp only [hfind]
    cases req.chunk with
    | none => rfl
    | some buffer =>
      simp only []
      cases encryptChunk host.crypto buffer (cipherParams host (some doc) env).2
          (cipherParams host (some doc) env).1 with
      | none => rfl
      | some ea =>
        simp only []
        cases env.writeFileOk with
        | false => rfl
        | true =>
          simp only [Bool.true_eq_false, if_false]
          cases parseInt (jsToString req.chunkIndex) none with
          | nan => rfl
          | int index =>
            simp only [docToSave_some]
            cases env.saveOk <;> rfl
  · obtain ⟨g, doc1, hg, hfind1, -, -, hold⟩ := POST_ok_records host st req env hok
    obtain ⟨-, -, htype, hsize, d, hd, hblob⟩ := hold doc hfind
    exact ⟨doc1, by rw [hg]; exact hfind1, htype, hsize, d, hd, hblob⟩

theorem C10_metadata_not_checked_witness :
    (POST exampleHost exampleStore exampleMismatch (exampleEnv 7 103)).1.status
      = (POST exampleHost exampleStore (exampleUpload "text/plain".toList 1)
        (exampleEnv 7 103)).1.status ∧
    (POST exampleHost exampleStore exampleMismatch (exampleEnv 7 103)).2
      = (POST exampleHost exampleStore (exampleUpload "text/plain".toList 1)
        (exampleEnv 7 103)).2 :=
  ⟨(C10_metadata_not_checked exampleHost exampleStore (exampleUpload "text/plain".toList 1)
      (exampleEnv 7 103) exampleDoc (some "7".toList) (some "video/mp4".toList)
      (some "999".toList) (by decide)).1,
   (C10_metadata_not_checked exampleHost exampleStore (exampleUpload "text/plain".toList 1)
      (exampleEnv 7 103) exampleDoc (some "7".toList) (some "video/mp4".toList)
      (some "999".toList) (by decide)).2.1⟩

/-! ### Integrity failures and the order of the descriptors -/

/-- A chunk that is read but does not decrypt makes the whole loop fail. -/
theorem decryptChunks_fails (crypto : AesGcm) (disk : List (Str × Bytes)) (key : Str)
    (iv : Bytes) :
    ∀ (L : List ChunkDescriptor) (d : ChunkDescriptor) (enc : Bytes), d ∈ L →
      readFile disk d.filePath = some enc →
      decryptChunk crypto enc key iv (bufferFromHex d.authTag) = none →
      ∃ e, decryptChunks crypto disk key iv L = Except.error e := by
  intro L
  induction L with
  | nil => intro d enc hd; simp at hd
  | cons c rest ih =>
    intro d enc hd hread hfail
    unfold decryptChunks
    cases hrc : readFile disk c.filePath with
    | none => exact ⟨_, rfl⟩
    | some encc =>
      simp only []
      cases hdc : decryptChunk crypto encc key iv (bufferFromHex c.authTag) with
      | none => exact ⟨_, rfl⟩
      | some plain =>
        simp only []
        have hrest : d ∈ rest := by
          rcases List.mem_cons.mp hd with h | h
          · subst h
            rw [hread] at hrc
            injection hrc with hrc
            subst hrc
            rw [hfail] at hdc
            exact absurd hdc (by simp)
          · exact h
        obtain ⟨e, he⟩ := ih d enc hrest hread hfail
        exact ⟨e, by rw [he]⟩

/-- How `GET` answers when the buffer cannot be rebuilt. -/
theorem GET_failed (host : Host) (st : Store) (req : GetRequest) (env : GetEnv) (fileId : Str)
    (doc : FileDoc) (e : Thrown)
    (hid : req.fileId = some fileId) (hne : fileId ≠ [])
    (hgate : (!isValidOrigin req.origin && !isValidReferer req.referer) = false)
    (hfind : findOne st.files (some fileId) = some doc)
    (hfull : fullFile host st doc = Except.error e) :
    GET host st req env = caught e := by
  obtain ⟨c, cs, rfl⟩ := List.exists_cons_of_ne_nil hne
  unfold GET
  simp only [hid, hgate, hfind, hfull]
  simp

/-- C11. Integrity failure aborts the whole request: when some chunk of a recorded object
is read from disk and `decryptChunk` fails on it, `GET` answers a request that passes the
origin check with status 500 and a JSON error body, whatever the `Range` header; the
response carries none of the bytes of the chunks that did decrypt. -/
theorem C11_integrity_failure (host : Host) (st : Store) (req : GetRequest) (env : GetEnv)
    (fileId : Str) (doc : FileDoc) (d : ChunkDescriptor) (enc : Bytes)
    (hid : req.fileId = some fileId) (hne : fileId ≠ [])
    (hgate : (!isValidOrigin req.origin && !isValidReferer req.referer) = false)
    (hfind : findOne st.files (some fileId) = some doc)
    (hd : d ∈ doc.chunks)
    (hread : readFile st.disk d.filePath = some enc)
    (hfail : decryptChunk host.crypto enc doc.encryptionKey (bufferFromHex doc.encryptionIV)
      (bufferFromHex d.authTag) = none) :
    (GET host st req env).status = 500 ∧
    (∃ e, (GET host st req env).body = Body.thrown e) ∧
    (GET host st req env).content = [] := by
  have hd2 : d ∈ sortChunks doc.chunks := (sortChunks_perm doc.chunks).mem_iff.mpr hd
  obtain ⟨e, he⟩ := decryptChunks_fails host.crypto st.disk doc.encryptionKey
    (bufferFromHex doc.encryptionIV) (sortChunks doc.chunks) d enc hd2 hread hfail
  have hfull : fullFile host st doc = Except.error e := by
    unfold fullFile
    simp only [he]
  rw [GET_failed host st req env fileId doc e hid hne hgate hfind hfull]
  exact ⟨rfl, ⟨e, rfl⟩, rfl⟩

theorem C11_integrity_failure_witness :
    (GET exampleHost exampleTampered (exampleGet (some "bytes=0-3".toList))
      exampleGetEnv).status = 500 ∧
    (∃ e, (GET exampleHost exampleTampered (exampleGet (some "bytes=0-3".toList))
      exampleGetEnv).body = Body.thrown e) ∧
    (GET exampleHost exampleTampered (exampleGet (some "bytes=0-3".toList))
      exampleGetEnv).content = [] :=
  C11_integrity_failure exampleHost exampleTampered (exampleGet (some "bytes=0-3".toList))
    exampleGetEnv "demo".toList exampleDoc
    { index := 1, filePath := "/srv/app/uploads/chunks/demo_chunk_1.enc".toList,
      size := 8, authTag := "4c".toList }
    [121, 121, 122, 123, 124, 125, 126, 127] rfl (by decide) (by decide) (by decide)
    (by decide) (by decide) (by decide)

/-- Two lists with the same images under a function that is injective on their elements
are equal. -/
theorem eq_of_map_eq_of_injOn {α β : Type} (f : α → β) :
    ∀ (l1 l2 : List α), l1.map f = l2.map f →
      (∀ x ∈ l1, ∀ y ∈ l2, f x = f y → x = y) → l1 = l2 := by
  intro l1
  induction l1 with
  | nil =>
    intro l2 h _
    cases l2 with
    | nil => rfl
    | cons b bs => simp at h
  | cons a as ih =>
    intro l2 h hinj
    cases l2 with
    | nil => simp at h
    | cons b bs =>
      simp only [List.map_cons, List.cons.injEq] at h
      have hab : a = b := hinj a (List.mem_cons_self _ _) b (List.mem_cons_self _ _) h.1
      have hrest := ih bs h.2 (fun x hx y hy hxy =>
        hinj x (List.mem_cons_of_mem _ hx) y (List.mem_cons_of_mem _ hy) hxy)
      rw [hab, hrest]

/-- The loop reads the disk only at the paths of the descriptors it is given. -/
theorem decryptChunks_congr (crypto : AesGcm) (disk1 disk2 : List (Str × Bytes)) (key : Str)
    (iv : Bytes) :
    ∀ (L : List ChunkDescriptor),
      (∀ d ∈ L, readFile disk2 d.filePath = readFile disk1 d.filePath) →
      decryptChunks crypto disk2 key iv L = decryptChunks crypto disk1 key iv L := by
  intro L
  induction L with
  | nil => intro _; rfl
  | cons c rest ih =>
    intro h
    unfold decryptChunks
    rw [h c (List.mem_cons_self _ _), ih (fun d hd => h d (List.mem_cons_of_mem _ hd))]

/-- C12. Arrival-order independence: for a recorded object whose descriptors carry the
pairwise distinct indices `0, ..., N-1` in any order, `GET` decrypts the chunks in ascending
index order (the sorted descriptors have the indices `0, ..., N-1` in this order), and the
sorted descriptors and the rebuilt buffer are the same for every permutation `arrived` of
the descriptor list, that is for every order in which the chunks were recorded, on every
disk that holds the same blobs at the paths of the descriptors. -/
theorem C12_arrival_order (host : Host) (st st2 : Store) (doc : FileDoc) (N : Nat)
    (arrived : List ChunkDescriptor)
    (hidx : (doc.chunks.map (fun d => d.index)).Perm ((List.range N).map Int.ofNat))
    (hperm : arrived.Perm doc.chunks)
    (hdisk : ∀ d ∈ doc.chunks, readFile st2.disk d.filePath = readFile st.disk d.filePath) :
    (sortChunks doc.chunks).map (fun d => d.index) = (List.range N).map Int.ofNat ∧
    sortChunks arrived = sortChunks doc.chunks ∧
    fullFile host st2 { doc with chunks := arrived } = fullFile host st doc := by
  have hsorted : ((List.range N).map Int.ofNat).Sorted (· ≤ ·) := by
    apply List.pairwise_map.mpr
    exact (List.pairwise_lt_range N).imp (fun hab => Int.ofNat_le.mpr (le_of_lt hab))
  have h1 : ∀ L : List ChunkDescriptor,
      (L.map (fun d => d.index)).Perm ((List.range N).map Int.ofNat) →
      (sortChunks L).map (fun d => d.index) = (List.range N).map Int.ofNat := by
    intro L hL
    exact List.eq_of_perm_of_sorted
      (((sortChunks_perm L).map (fun d => d.index)).trans hL) (sortChunks_sorted L) hsorted
  have hnodup : (doc.chunks.map (fun d => d.index)).Nodup := by
    rw [hidx.nodup_iff]
    exact (List.nodup_range N).map (fun a b h => Int.ofNat.inj h)
  have hinj := List.inj_on_of_nodup_map hnodup
  have h2 : sortChunks arrived = sortChunks doc.chunks := by
    apply eq_of_map_eq_of_injOn (fun d => d.index)
    · rw [h1 arrived ((hperm.map _).trans hidx), h1 doc.chunks hidx]
    · intro x hx y hy hxy
      have hx2 : x ∈ doc.chunks :=
        hperm.mem_iff.mp ((sortChunks_perm arrived).mem_iff.mp hx)
      have hy2 : y ∈ doc.chunks := (sortChunks_perm doc.chunks).mem_iff.mp hy
      exact hinj hx2 hy2 hxy
  refine ⟨h1 doc.chunks hidx, h2, ?_⟩
  unfold fullFile
  simp only [h2]
  rw [decryptChunks_congr host.crypto st.disk st2.disk _ _ (sortChunks doc.chunks)
    (fun d hd => hdisk d ((sortChunks_perm doc.chunks).mem_iff.mp hd))]

theorem C12_arrival_order_witness :
    findOne (runPosts exampleHost ⟨[], []⟩
      [(exampleUpload "text/plain".toList 2, exampleEnv 7 100),
       (exampleUpload "text/plain".toList 0, exampleEnv 50 101),
       (exampleUpload "text/plain".toList 1, exampleEnv 90 102)]).2.files
      (some "demo".toList) = some { exampleDoc with chunks := exampleDoc.chunks.rotate 2 } ∧
    (sortChunks exampleDoc.chunks).map (fun d => d.index) = (List.range 3).map Int.ofNat ∧
    sortChunks (exampleDoc.chunks.rotate 2) = sortChunks exampleDoc.chunks ∧
    fullFile exampleHost (runPosts exampleHost ⟨[], []⟩
      [(exampleUpload "text/plain".toList 2, exampleEnv 7 100),
       (exampleUpload "text/plain".toList 0, exampleEnv 50 101),
       (exampleUpload "text/plain".toList 1, exampleEnv 90 102)]).2
      { exampleDoc with chunks := exampleDoc.chunks.rotate 2 }
      = fullFile exampleHost exampleStore exampleDoc :=
  ⟨by decide,
   C12_arrival_order exampleHost exampleStore (runPosts exampleHost ⟨[], []⟩
      [(exampleUpload "text/plain".toList 2, exampleEnv 7 100),
       (exampleUpload "text/plain".toList 0, exampleEnv 50 101),
       (exampleUpload "text/plain".toList 1, exampleEnv 90 102)]).2 exampleDoc 3
    (exampleDoc.chunks.rotate 2) (by decide) (List.rotate_perm _ _) (by decide)⟩

/-! ### Video segments -/

/-- How `GET` reaches the branch without a `Range` header. -/
theorem GET_unranged (host : Host) (st : Store) (req : GetRequest) (env : GetEnv)
    (fileId : Str) (doc : FileDoc) (P : Bytes)
    (hid : req.fileId = some fileId) (hne : fileId ≠ [])
    (hgate : (!isValidOrigin req.origin && !isValidReferer req.referer) = false)
    (hfind : findOne st.files (some fileId) = some doc)
    (hfull : fullFile host st doc = Except.ok P)
    (hrange : truthy req.range = false) :
    GET host st req env = fullResponse env doc P := by
  obtain ⟨c, cs, rfl⟩ := List.exists_cons_of_ne_nil hne
  unfold GET
  simp only [hid, hgate, hfind, hfull]
  cases hr : req.range with
  | none => simp
  | some r =>
    cases r with
    | nil => simp
    | cons a as => rw [hr] at hrange; simp [truthy] at hrange

/-- The slice from a start `a` to an exclusive end `k`. -/
theorem bufferSlice_nat (P : Bytes) (a k : Nat) :
    bufferSlice P (JSNum.int a) (JSNum.int k) = (P.drop a).take (k - a) := by
  cases k with
  | zero =>
    have h0 : adjustOffset (JSNum.int ((0 : Nat) : Int)) P.length = 0 := by
      simp [adjustOffset]
    unfold bufferSlice
    simp only [h0]
    simp
  | succ b =>
    have := bufferSlice_range P a b
    rw [show ((b + 1 : Nat) : Int) = (b : Int) + 1 by push_cast; rfl]
    exact this

theorem segmentSeconds_bounds (env : GetEnv) :
    7 ≤ segmentSeconds env ∧ segmentSeconds env ≤ 10 := by
  unfold segmentSeconds MathRandom.floorMul
  have h := env.random.lt_one
  have hden : 0 < env.random.den := by omega
  have hq : env.random.num * 4 / env.random.den < 4 := by
    rw [Nat.div_lt_iff_lt_mul hden]
    omega
  generalize env.random.num * 4 / env.random.den = q at hq
  omega

/-- The answer of the unranged branch for a video, with `n` the size of the segment. -/
theorem fullResponse_video (env : GetEnv) (doc : FileDoc) (P : Bytes)
    (hvideo : "video/".toList.isPrefixOf doc.fileType = true) :
    fullResponse env doc P =
    { status := 206
      headers :=
        [("Content-Range".toList,
           "bytes 0-".toList ++ (JSNum.int (((Min.min (segmentSeconds env * 1048576)
             P.length : Nat) : Int) - 1)).toStr ++ "/".toList ++ Nat.toDigits 10 P.length),
         ("Accept-Ranges".toList, "bytes".toList),
         ("Content-Length".toList,
           Nat.toDigits 10 (Min.min (segmentSeconds env * 1048576) P.length)),
         ("Content-Type".toList, doc.fileType)] ++ streamHeaders
      body := Body.bytes (P.take (Min.min (segmentSeconds env * 1048576) P.length)) } := by
  have hM : estimatedBytesPerSecond = 1048576 := rfl
  have hslice : bufferSlice P (JSNum.int 0)
      (JSNum.int ((Min.min (segmentSeconds env * 1048576) P.length : Nat) : Int)) =
      P.take (Min.min (segmentSeconds env * 1048576) P.length) := by
    have := bufferSlice_nat P 0 (Min.min (segmentSeconds env * 1048576) P.length)
    simpa using this
  unfold fullResponse
  simp only [hvideo, if_true, hM, hslice, JSNum.toStr_natCast]

/-- C13. Leading segment for a video without `Range`: for a recorded object whose type
starts with `video/` and whose chunks decrypt to `P` with `P.length ≥ 1`, a request
without a `Range` header that passes the origin check is answered 206 with the first `n`
bytes of `P`, where `n = min (d * 1048576) P.length` for the drawn duration `d`, with
`Content-Length: n` and `Content-Range: bytes 0-(n-1)/L`. -/
theorem C13_leading_segment (host : Host) (st : Store) (req : GetRequest) (env : GetEnv)
    (fileId : Str) (doc : FileDoc) (P : Bytes)
    (hid : req.fileId = some fileId) (hne : fileId ≠ [])
    (hgate : (!isValidOrigin req.origin && !isValidReferer req.referer) = false)
    (hfind : findOne st.files (some fileId) = some doc)
    (hfull : fullFile host st doc = Except.ok P)
    (hvideo : "video/".toList.isPrefixOf doc.fileType = true)
    (hL : 1 ≤ P.length) (hrange : req.range = none) :
    (GET host st req env).status = 206 ∧
    (GET host st req env).body =
      Body.bytes (P.take (Min.min (segmentSeconds env * 1048576) P.length)) ∧
    (GET host st req env).header "Content-Length".toList =
      some (Nat.toDigits 10 (Min.min (segmentSeconds env * 1048576) P.length)) ∧
    (GET host st req env).header "Content-Range".toList =
      some ("bytes 0-".toList ++
        Nat.toDigits 10 (Min.min (segmentSeconds env * 1048576) P.length - 1) ++
        "/".toList ++ Nat.toDigits 10 P.length) := by
  rw [GET_unranged host st req env fileId doc P hid hne hgate hfind hfull
    (by rw [hrange]; rfl), fullResponse_video env doc P hvideo]
  have hd := (segmentSeconds_bounds env).1
  have hn : 1 ≤ Min.min (segmentSeconds env * 1048576) P.length := by
    apply le_min _ hL
    omega
  have e : ((Min.min (segmentSeconds env * 1048576) P.length : Nat) : Int) - 1 =
      ((Min.min (segmentSeconds env * 1048576) P.length - 1 : Nat) : Int) := by
    omega
  rw [e, JSNum.toStr_natCast]
  refine ⟨rfl, rfl, ?_, ?_⟩
  · simp [Response.header]
  · simp [Response.header]

theorem C13_leading_segment_witness :
    (GET exampleHost exampleVideoStore (exampleGet none) exampleGetEnv).status = 206 ∧
    (GET exampleHost exampleVideoStore (exampleGet none) exampleGetEnv).body =
      Body.bytes exampleContent ∧
    (GET exampleHost exampleVideoStore (exampleGet none) exampleGetEnv).header
      "Content-Length".toList = some "24".toList ∧
    (GET exampleHost exampleVideoStore (exampleGet none) exampleGetEnv).header
      "Content-Range".toList = some "bytes 0-23/24".toList :=
  C13_leading_segment exampleHost exampleVideoStore (exampleGet none) exampleGetEnv
    "demo".toList exampleVideoDoc exampleContent rfl (by decide) (by decide) (by decide)
    (by decide) (by decide) (by decide) rfl

/-- The pieces of a header `bytes=<a>-`. -/
theorem rangeParts_open (a : Nat) :
    splitOnChar '-' (removeFirst "bytes=".toList
      ("bytes=".toList ++ Nat.toDigits 10 a ++ ['-'])) = [Nat.toDigits 10 a, []] := by
  rw [List.append_assoc, removeFirst_append _ _ (by decide),
    splitOnChar_sep _ _ _ (toDigits_no_minus a)]
  rfl

/-- The answer of the range branch for a video when the header gives no end: `start` is
what `parseInt` makes of the first piece. -/
theorem rangeResponse_video_open (env : GetEnv) (doc : FileDoc) (P : Bytes) (range : Str)
    (hvideo : "video/".toList.isPrefixOf doc.fileType = true)
    (hend : truthy (splitOnChar '-' (removeFirst "bytes=".toList range))[1]? = false) :
    rangeResponse env doc P range =
    { status := 206
      headers :=
        [("Content-Range".toList,
           "bytes ".toList ++
             (parseInt ((splitOnChar '-' (removeFirst "bytes=".toList range)).headD [])
               (some 10)).toStr ++ "-".toList ++
             (JSNum.min (((parseInt ((splitOnChar '-' (removeFirst "bytes=".toList
                 range)).headD []) (some 10)).add
                 (JSNum.int ((segmentSeconds env * 1048576 : Nat) : Int))).sub (JSNum.int 1))
               (JSNum.int ((P.length : Int) - 1))).toStr ++
             "/".toList ++ (JSNum.int P.length).toStr),
         ("Accept-Ranges".toList, "bytes".toList),
         ("Content-Length".toList,
           (((JSNum.min (((parseInt ((splitOnChar '-' (removeFirst "bytes=".toList
                 range)).headD []) (some 10)).add
                 (JSNum.int ((segmentSeconds env * 1048576 : Nat) : Int))).sub (JSNum.int 1))
               (JSNum.int ((P.length : Int) - 1))).sub
             (parseInt ((splitOnChar '-' (removeFirst "bytes=".toList range)).headD [])
               (some 10))).add (JSNum.int 1)).toStr),
         ("Content-Type".toList, doc.fileType)] ++ streamHeaders
      body := Body.bytes (bufferSlice P
        (parseInt ((splitOnChar '-' (removeFirst "bytes=".toList range)).headD []) (some 10))
        ((JSNum.min (((parseInt ((splitOnChar '-' (removeFirst "bytes=".toList
            range)).headD []) (some 10)).add
            (JSNum.int ((segmentSeconds env * 1048576 : Nat) : Int))).sub (JSNum.int 1))
          (JSNum.int ((P.length : Int) - 1))).add (JSNum.int 1))) } := by
  have hM : estimatedBytesPerSecond = 1048576 := rfl
  unfold rangeResponse
  simp only [hvideo, hend, hM]
  simp

/-- C14. Open-ended range on a video: for a recorded object whose type starts with
`video/` and whose chunks decrypt to `P`, a request that passes the origin check with the
header `Range: bytes=a-`, where `a < P.length`, is answered 206 with the body `P[a..e]`
for `e = min (a + d * 1048576 - 1) (P.length - 1)` and the drawn duration `d`, with
`Content-Range: bytes a-e/L` and `Content-Length: e - a + 1`. -/
theorem C14_open_range_video (host : Host) (st : Store) (req : GetRequest) (env : GetEnv)
    (fileId : Str) (doc : FileDoc) (P : Bytes) (a : Nat)
    (hid : req.fileId = some fileId) (hne : fileId ≠ [])
    (hgate : (!isValidOrigin req.origin && !isValidReferer req.referer) = false)
    (hfind : findOne st.files (some fileId) = some doc)
    (hfull : fullFile host st doc = Except.ok P)
    (hvideo : "video/".toList.isPrefixOf doc.fileType = true)
    (ha : a < P.length)
    (hrange : req.range = some ("bytes=".toList ++ Nat.toDigits 10 a ++ ['-'])) :
    (GET host st req env).status = 206 ∧
    (GET host st req env).body = Body.bytes ((P.drop a).take
      (Min.min (a + segmentSeconds env * 1048576 - 1) (P.length - 1) - a + 1)) ∧
    (GET host st req env).header "Content-Range".toList = some
      ("bytes ".toList ++ Nat.toDigits 10 a ++ "-".toList ++
        Nat.toDigits 10 (Min.min (a + segmentSeconds env * 1048576 - 1) (P.length - 1)) ++
        "/".toList ++ Nat.toDigits 10 P.length) ∧
    (GET host st req env).header "Content-Length".toList = some
      (Nat.toDigits 10
        (Min.min (a + segmentSeconds env * 1048576 - 1) (P.length - 1) - a + 1)) := by
  have hd := (segmentSeconds_bounds env).1
  have hend : truthy (splitOnChar '-' (removeFirst "bytes=".toList
      ("bytes=".toList ++ Nat.toDigits 10 a ++ ['-'])))[1]? = false := by
    rw [rangeParts_open]; rfl
  rw [GET_ranged host st req env fileId doc P _ hid hne hgate hfind hfull hrange (by simp),
    rangeResponse_video_open env doc P _ hvideo hend, rangeParts_open]
  simp only [List.headD_cons, parseInt_toDigits _ _ (Or.inr rfl), JSNum.add, JSNum.sub,
    JSNum.min]
  generalize hS : segmentSeconds env * 1048576 = S
  have hS1 : 1 ≤ S := by omega
  have e1 : Min.min ((a : Int) + (S : Int) - 1) ((P.length : Int) - 1) =
      ((Min.min (a + S - 1) (P.length - 1) : Nat) : Int) := by
    rw [Nat.cast_min]
    congr 1 <;> omega
  have hle : a ≤ Min.min (a + S - 1) (P.length - 1) := by
    apply le_min <;> omega
  have e2 : ((Min.min (a + S - 1) (P.length - 1) : Nat) : Int) - (a : Int) + 1 =
      ((Min.min (a + S - 1) (P.length - 1) - a + 1 : Nat) : Int) := by
    omega
  have e3 : Min.min (a + S - 1) (P.length - 1) + 1 - a =
      Min.min (a + S - 1) (P.length - 1) - a + 1 := by omega
  rw [e1, e2, bufferSlice_range, e3]
  simp only [JSNum.toStr_natCast]
  refine ⟨trivial, trivial, ?_, ?_⟩
  · simp [Response.header]
  · simp [Response.header]

theorem C14_open_range_video_witness :
    (GET exampleHost exampleVideoStore (exampleGet (some "bytes=5-".toList))
      exampleGetEnv).status = 206 ∧
    (GET exampleHost exampleVideoStore (exampleGet (some "bytes=5-".toList))
      exampleGetEnv).body =
      Body.bytes [5, 6, 7, 8, 9, 10, 11, 12, 13, 14, 15, 16, 17, 18, 19, 20, 21, 22, 23] ∧
    (GET exampleHost exampleVideoStore (exampleGet (some "bytes=5-".toList))
      exampleGetEnv).header "Content-Range".toList = some "bytes 5-23/24".toList ∧
    (GET exampleHost exampleVideoStore (exampleGet (some "bytes=5-".toList))
      exampleGetEnv).header "Content-Length".toList = some "19".toList :=
  C14_open_range_video exampleHost exampleVideoStore (exampleGet (some "bytes=5-".toList))
    exampleGetEnv "demo".toList exampleVideoDoc exampleContent 5 rfl (by decide) (by decide)
    (by decide) (by decide) (by decide) (by decide) (by decide)

/-- C15 fails as stated: the draw 3/4 gives the duration 10, which is not below 10. -/
theorem C15_counterexample :
    segmentSeconds exampleLateDraw = 10 ∧ ¬ (segmentSeconds exampleLateDraw < 10) := by
  decide

/-- C15 (amended). Segment duration: for every draw `r` of `Math.random()`, a fraction in
`[0, 1)`, the duration `d = Math.floor(r * 4) + 7` satisfies `7 ≤ d ≤ 10`, so a
randomized segment has at most `10 * 1048576` bytes. -/
theorem C15_duration_interval (env : GetEnv) :
    7 ≤ segmentSeconds env ∧ segmentSeconds env ≤ 10 ∧
    segmentSeconds env * estimatedBytesPerSecond ≤ 10 * 1048576 := by
  obtain ⟨h1, h2⟩ := segmentSeconds_bounds env
  have hM : estimatedBytesPerSecond = 1048576 := rfl
  refine ⟨h1, h2, ?_⟩
  rw [hM]
  omega

/-! ### The cap on video segments -/

theorem splitOnChar_mem_no_sep (sep : Char) (s : Str) :
    ∀ p ∈ splitOnChar sep s, ∀ c ∈ p, c ≠ sep := by
  induction s with
  | nil => intro p hp c hc; simp [splitOnChar] at hp; subst hp; simp at hc
  | cons a as ih =>
    intro p hp c hc
    unfold splitOnChar at hp
    by_cases ha : a = sep
    · simp only [ha, if_true, List.mem_cons] at hp
      rcases hp with rfl | hp
      · simp at hc
      · exact ih p hp c hc
    · simp only [ha, if_false] at hp
      cases hsp : splitOnChar sep as with
      | nil =>
        rw [hsp] at hp
        simp only [List.mem_singleton] at hp
        subst hp
        simp only [List.mem_singleton] at hc
        subst hc
        exact ha
      | cons q qs =>
        rw [hsp] at hp ih
        simp only [List.mem_cons] at hp
        rcases hp with rfl | hp
        · rcases List.mem_cons.mp hc with rfl | hc
          · exact ha
          · exact ih q (List.mem_cons_self _ _) c hc
        · exact ih p (List.mem_cons_of_mem _ hp) c hc

/-- Without a minus sign the result of `parseInt` is `NaN` or a natural number. -/
theorem parseInt_no_minus (s : Str) (radix : Option Nat) (h : ∀ c ∈ s, c ≠ '-') :
    parseInt s radix = JSNum.nan ∨ ∃ n : Nat, parseInt s radix = JSNum.int n := by
  have hpd : ∀ (R : Nat) (t : Str), parseDigits 1 R t = JSNum.nan ∨
      ∃ n : Nat, parseDigits 1 R t = JSNum.int n := by
    intro R t
    unfold parseDigits
    simp only []
    split_ifs
    · left; rfl
    · right
      refine ⟨digitsValue R (t.takeWhile (fun c => (radixDigit R c).isSome)), ?_⟩
      simp
  have hhead : (s.dropWhile isStrWhiteSpace).head? ≠ some '-' := by
    intro hh
    have hmem : '-' ∈ s.dropWhile isStrWhiteSpace := List.mem_of_mem_head? hh
    have : '-' ∈ s := (List.dropWhile_sublist _).subset hmem
    exact h '-' this rfl
  unfold parseInt
  simp only [hhead, if_false]
  split_ifs
  · left; rfl
  · exact hpd _ _
  · exact hpd _ _

/-- The first piece of a `Range` header parses to `NaN` or to a natural number. -/
theorem rangeStart_cases (range : Str) :
    parseInt ((splitOnChar '-' (removeFirst "bytes=".toList range)).headD []) (some 10)
      = JSNum.nan ∨
    ∃ n : Nat, parseInt ((splitOnChar '-' (removeFirst "bytes=".toList range)).headD [])
      (some 10) = JSNum.int n := by
  apply parseInt_no_minus
  intro c hc
  cases hsp : splitOnChar '-' (removeFirst "bytes=".toList range) with
  | nil => rw [hsp] at hc; simp at hc
  | cons p ps =>
    rw [hsp] at hc
    have := splitOnChar_mem_no_sep '-' (removeFirst "bytes=".toList range) p
      (by rw [hsp]; exact List.mem_cons_self _ _)
    exact this c hc

/-- The slice served to an open-ended range on a video has at most `S` bytes, for `S` the
byte count of the drawn duration. -/
theorem openSlice_length (P : Bytes) (start : JSNum) (S : Nat)
    (hstart : start = JSNum.nan ∨ ∃ n : Nat, start = JSNum.int n) :
    (bufferSlice P start
      ((JSNum.min ((start.add (JSNum.int (S : Int))).sub (JSNum.int 1))
        (JSNum.int ((P.length : Int) - 1))).add (JSNum.int 1))).length ≤ S := by
  rcases hstart with rfl | ⟨n, rfl⟩
  · simp [JSNum.add, JSNum.sub, JSNum.min, bufferSlice, adjustOffset]
  · simp only [JSNum.add, JSNum.sub, JSNum.min]
    have e : Min.min ((n : Int) + (S : Int) - 1) ((P.length : Int) - 1) + 1 =
        ((Min.min (n + S) P.length : Nat) : Int) := by
      rw [Nat.cast_min]
      rcases le_total ((n : Int) + (S : Int) - 1) ((P.length : Int) - 1) with h | h
      · rw [min_eq_left h, min_eq_left (by push_cast; omega)]
        push_cast
        omega
      · rw [min_eq_right h, min_eq_right (by push_cast; omega)]
        omega
    rw [e, bufferSlice_nat, List.length_take, List.length_drop]
    omega

/-- The buffer rebuilt from the video of `n` zero bytes. -/
theorem zerosVideo_fullFile (n : Nat) (hn : n % 256 = 1) :
    fullFile exampleHost (zerosVideoStore n) (zerosVideoDoc n) =
      Except.ok (List.replicate n 0) := by
  have hkey : bufferFromHex (zerosVideoDoc n).encryptionKey = List.replicate 32 8 := by
    show bufferFromHex
      "0808080808080808080808080808080808080808080808080808080808080808".toList = _
    decide
  have hiv : bufferFromHex (zerosVideoDoc n).encryptionIV = List.replicate 16 7 := by
    show bufferFromHex "07070707070707070707070707070707".toList = _
    decide
  have hmask : exampleMask (List.replicate 32 8) (List.replicate 16 7) = 112 := by decide
  have htag : bufferFromHex "e0".toList = [224] := by decide
  have hcast : ((n : Nat) : Fin 256) = 1 := by
    apply Fin.ext
    rw [Fin.val_natCast, hn]
    rfl
  have hsum : (List.replicate n (112 : Byte)).sum = 112 := by
    rw [List.sum_replicate, nsmul_eq_mul, hcast]
    decide
  have hread : readFile (zerosVideoStore n).disk
      "/srv/app/uploads/chunks/film_chunk_0.enc".toList = some (List.replicate n 112) := by
    simp [readFile, zerosVideoStore, List.find?]
  have hdec : decryptChunk exampleHost.crypto (List.replicate n 112)
      (zerosVideoDoc n).encryptionKey (List.replicate 16 7) (bufferFromHex "e0".toList) =
      some (List.replicate n 0) := by
    unfold decryptChunk
    rw [hkey, htag]
    simp only [exampleHost, exampleCipher, hmask, hsum]
    simp
  have hsort : sortChunks (zerosVideoDoc n).chunks =
      [{ index := 0, filePath := "/srv/app/uploads/chunks/film_chunk_0.enc".toList,
         size := n, authTag := "e0".toList }] := rfl
  unfold fullFile
  simp only [hiv, hsort, decryptChunks, hread, hdec]
  simp


/-- C16 fails as stated: the video of 10485761 zero bytes, one byte more than ten times
1048576, is served whole to the header `bytes=0-10485760`: the body has the length of the
file. -/
theorem C16_counterexample :
    "video/".toList.isPrefixOf (zerosVideoDoc bigLength).fileType = true ∧
    10 * 1048576 < bigLength ∧
    fullFile exampleHost (zerosVideoStore bigLength) (zerosVideoDoc bigLength) =
      Except.ok (List.replicate bigLength 0) ∧
    (GET exampleHost (zerosVideoStore bigLength)
      (zerosVideoGet (some "bytes=0-10485760".toList)) exampleGetEnv).content =
      List.replicate bigLength 0 ∧
    (List.replicate bigLength (0 : Byte)).length = bigLength := by
  have hfull := zerosVideo_fullFile bigLength (by decide)
  have hR : "bytes=0-10485760".toList =
      "bytes=".toList ++ Nat.toDigits 10 0 ++ '-' :: Nat.toDigits 10 10485760 := by decide
  have hfind : findOne (zerosVideoStore bigLength).files (some "film".toList) =
      some (zerosVideoDoc bigLength) := by
    simp [findOne, zerosVideoStore, zerosVideoDoc, List.find?]
  have hG := GET_ranged exampleHost (zerosVideoStore bigLength)
    (zerosVideoGet (some "bytes=0-10485760".toList)) exampleGetEnv "film".toList
    (zerosVideoDoc bigLength) (List.replicate bigLength 0) "bytes=0-10485760".toList
    rfl (by decide) (by decide) hfind hfull rfl (by decide)
  refine ⟨by decide, by decide, hfull, ?_, List.length_replicate _ _⟩
  rw [hG, hR, rangeResponse_closed]
  show ((List.replicate bigLength (0 : Byte)).drop 0).take (10485760 + 1 - 0) = _
  rw [List.drop_zero]
  exact List.take_of_length_le (by rw [List.length_replicate]; decide)

/-- C16 (amended). For a recorded object whose type starts with `video/` and whose
plaintext has more than `10 * 1048576` bytes, a request that passes the origin check and
has no `Range` header, or a `Range` header that gives no end (nothing after the first
dash), is answered with a body of at most `10 * 1048576` bytes, strictly shorter than the
file.  A header with an explicit end is not capped. -/
theorem C16_segment_cap (host : Host) (st : Store) (req : GetRequest) (env : GetEnv)
    (fileId : Str) (doc : FileDoc) (P : Bytes)
    (hid : req.fileId = some fileId) (hne : fileId ≠ [])
    (hgate : (!isValidOrigin req.origin && !isValidReferer req.referer) = false)
    (hfind : findOne st.files (some fileId) = some doc)
    (hfull : fullFile host st doc = Except.ok P)
    (hvideo : "video/".toList.isPrefixOf doc.fileType = true)
    (hbig : 10 * 1048576 < P.length)
    (hreq : truthy req.range = false ∨ ∃ range, req.range = some range ∧ range ≠ [] ∧
      truthy (splitOnChar '-' (removeFirst "bytes=".toList range))[1]? = false) :
    (GET host st req env).content.length ≤ 10 * 1048576 ∧
    (GET host st req env).content.length < P.length := by
  have hd := (segmentSeconds_bounds env).2
  have hS : segmentSeconds env * 1048576 ≤ 10 * 1048576 := by omega
  suffices h : (GET host st req env).content.length ≤ segmentSeconds env * 1048576 by
    constructor <;> omega
  rcases hreq with hnone | ⟨range, hrange, hr, hend⟩
  · rw [GET_unranged host st req env fileId doc P hid hne hgate hfind hfull hnone,
      fullResponse_video env doc P hvideo]
    simp only [Response.content, List.length_take]
    exact le_trans (min_le_left _ _) (min_le_left _ _)
  · rw [GET_ranged host st req env fileId doc P range hid hne hgate hfind hfull hrange hr,
      rangeResponse_video_open env doc P range hvideo hend]
    simp only [Response.content]
    exact openSlice_length P _ _ (rangeStart_cases range)

theorem C16_segment_cap_witness :
    (GET exampleHost (zerosVideoStore bigLength) (zerosVideoGet (some "bytes=0-".toList))
      exampleGetEnv).content.length ≤ 10 * 1048576 ∧
    (GET exampleHost (zerosVideoStore bigLength) (zerosVideoGet (some "bytes=0-".toList))
      exampleGetEnv).content.length < (List.replicate bigLength (0 : Byte)).length :=
  C16_segment_cap exampleHost (zerosVideoStore bigLength)
    (zerosVideoGet (some "bytes=0-".toList)) exampleGetEnv "film".toList
    (zerosVideoDoc bigLength) (List.replicate bigLength 0) rfl (by decide) (by decide)
    (by simp [findOne, zerosVideoStore, zerosVideoDoc, List.find?])
    (zerosVideo_fullFile bigLength (by decide)) (by decide)
    (by rw [List.length_replicate]; decide)
    (Or.inr ⟨"bytes=0-".toList, rfl, by decide, by decide⟩)

/-! ### Effects of an upload on the disk and on the record -/

/-- C17 fails as stated: the blob of chunk 1 of the example object is on disk; an upload
for the same file id and index with other bytes is answered 200 and the blob at that path
is then the encryption of the new bytes. -/
theorem C17_counterexample :
    readFile exampleStore.disk "/srv/app/uploads/chunks/demo_chunk_1.enc".toList =
      some [120, 121, 122, 123, 124, 125, 126, 127] ∧
    (POST exampleHost exampleStore exampleRewrite (exampleEnv 7 103)).1.status = 200 ∧
    readFile (POST exampleHost exampleStore exampleRewrite (exampleEnv 7 103)).2.disk
      "/srv/app/uploads/chunks/demo_chunk_1.enc".toList = some [113, 114, 115] := by
  decide

/-- C17 (amended). An upload that is answered 200 leaves at the path of its file id and
chunk index the encryption of the bytes it submitted, whatever blob was there before, and
leaves the blobs at all other paths as they were. -/
theorem C17_blob_overwritten (host : Host) (st : Store) (req : PostRequest) (env : PostEnv)
    (buffer encrypted authTag : Bytes) (index : Int)
    (hok : (POST host st req env).1.status = 200)
    (hchunk : req.chunk = some buffer)
    (hidx : parseInt (jsToString req.chunkIndex) none = JSNum.int index)
    (henc : encryptChunk host.crypto buffer
      (cipherParams host (findOne st.files req.fileId) env).2
      (cipherParams host (findOne st.files req.fileId) env).1 = some (encrypted, authTag)) :
    readFile (POST host st req env).2.disk (chunkPath host req.fileId (JSNum.int index)) =
      some encrypted ∧
    ∀ path, path ≠ chunkPath host req.fileId (JSNum.int index) →
      readFile (POST host st req env).2.disk path = readFile st.disk path := by
  obtain ⟨buffer1, encrypted1, authTag1, index1, fileDoc, hchunk1, hidx1, henc1, -, -, -,
    hst⟩ := POST_ok host st req env hok
  rw [hchunk] at hchunk1
  injection hchunk1 with hb
  subst hb
  rw [hidx] at hidx1
  injection hidx1 with hi
  subst hi
  rw [henc] at henc1
  injection henc1 with he
  injection he with he1 he2
  subst he1
  refine ⟨?_, fun path hp => ?_⟩
  · rw [hst]
    exact readFile_writeFile_same _ _ _
  · rw [hst]
    exact readFile_writeFile_other _ _ _ _ (Ne.symm hp)

theorem C17_blob_overwritten_witness :
    readFile (POST exampleHost exampleStore exampleRewrite (exampleEnv 7 103)).2.disk
      (chunkPath exampleHost exampleRewrite.fileId (JSNum.int 1)) = some [113, 114, 115] ∧
    readFile (POST exampleHost exampleStore exampleRewrite (exampleEnv 7 103)).2.disk
      "/srv/app/uploads/chunks/demo_chunk_0.enc".toList =
      readFile exampleStore.disk "/srv/app/uploads/chunks/demo_chunk_0.enc".toList :=
  ⟨(C17_blob_overwritten exampleHost exampleStore exampleRewrite (exampleEnv 7 103)
      [1, 2, 3] [113, 114, 115] [198] 1 (by decide) rfl (by decide) (by decide)).1,
   (C17_blob_overwritten exampleHost exampleStore exampleRewrite (exampleEnv 7 103)
      [1, 2, 3] [113, 114, 115] [198] 1 (by decide) rfl (by decide) (by decide)).2
      "/srv/app/uploads/chunks/demo_chunk_0.enc".toList (by decide)⟩

/-- C18. No dangling descriptor: an upload during which `writeFile` fails is answered 500
and leaves the `File` collection as it was: no descriptor is added to a recorded object
and no document is created for a new file id. -/
theorem C18_write_failure (host : Host) (st : Store) (req : PostRequest) (env : PostEnv)
    (hw : env.writeFileOk = false) :
    (POST host st req env).1.status = 500 ∧
    (POST host st req env).2.files = st.files ∧
    findOne (POST host st req env).2.files req.fileId = findOne st.files req.fileId := by
  have h : (POST host st req env).1.status = 500 ∧ (POST host st req env).2.files = st.files := by
    unfold POST
    simp only [hw, if_true]
    cases req.chunk with
    | none => exact ⟨rfl, rfl⟩
    | some buffer =>
      simp only []
      cases encryptChunk host.crypto buffer
          (cipherParams host (findOne st.files req.fileId) env).2
          (cipherParams host (findOne st.files req.fileId) env).1 with
      | none => exact ⟨rfl, rfl⟩
      | some ea => exact ⟨rfl, rfl⟩
  exact ⟨h.1, h.2, by rw [h.2]⟩

theorem C18_write_failure_witness :
    (POST exampleHost exampleStore exampleRewrite exampleFailingEnv).1.status = 500 ∧
    (POST exampleHost exampleStore exampleRewrite exampleFailingEnv).2.files
      = exampleStore.files ∧
    findOne (POST exampleHost exampleStore exampleRewrite exampleFailingEnv).2.files
      exampleRewrite.fileId = findOne exampleStore.files exampleRewrite.fileId :=
  C18_write_failure exampleHost exampleStore exampleRewrite exampleFailingEnv rfl

/-- C19. Append-only descriptors: an upload for a recorded object that is answered 200
leaves the file id, name, type, size, key, IV and upload date of the object as they were
and appends one descriptor to its chunk list, so the previous list is a prefix of the new
one; the descriptor carries the submitted chunk index, the path the blob was written to,
the length of the ciphertext and the authentication tag of the chunk in hex. -/
theorem C19_append_only (host : Host) (st : Store) (req : PostRequest) (env : PostEnv)
    (doc : FileDoc) (buffer encrypted authTag : Bytes) (index : Int)
    (hfind : findOne st.files req.fileId = some doc)
    (hok : (POST host st req env).1.status = 200)
    (hchunk : req.chunk = some buffer)
    (hidx : parseInt (jsToString req.chunkIndex) none = JSNum.int index)
    (henc : encryptChunk host.crypto buffer doc.encryptionKey
      (bufferFromHex doc.encryptionIV) = some (encrypted, authTag)) :
    findOne (POST host st req env).2.files req.fileId = some
      { fileId := doc.fileId
        fileName := doc.fileName
        fileType := doc.fileType
        fileSize := doc.fileSize
        encryptionIV := doc.encryptionIV
        encryptionKey := doc.encryptionKey
        uploadedAt := doc.uploadedAt
        chunks := doc.chunks ++
          [{ index := index
             filePath := chunkPath host req.fileId (JSNum.int index)
             size := encrypted.length
             authTag := bufferToHex authTag }] } ∧
    doc.chunks <+: doc.chunks ++
      [{ index := index
         filePath := chunkPath host req.fileId (JSNum.int index)
         size := encrypted.length
         authTag := bufferToHex authTag }] ∧
    readFile (POST host st req env).2.disk (chunkPath host req.fileId (JSNum.int index)) =
      some encrypted := by
  obtain ⟨buffer1, encrypted1, authTag1, index1, fileDoc, hchunk1, hidx1, henc1, -, -, hdoc,
    hst⟩ := POST_ok host st req env hok
  rw [hchunk] at hchunk1
  injection hchunk1 with hb
  subst hb
  rw [hidx] at hidx1
  injection hidx1 with hi
  subst hi
  rw [hfind] at henc1 hdoc hst
  simp only [cipherParams] at henc1 hdoc
  rw [henc] at henc1
  injection henc1 with he
  injection he with he1 he2
  subst he1
  subst he2
  rw [docToSave_some] at hdoc
  injection hdoc with hdoc
  have hreq := findOne_request _ _ _ hfind
  have hid : fileDoc.fileId = doc.fileId := by rw [← hdoc]
  refine ⟨?_, List.prefix_append _ _, ?_⟩
  · rw [hst]
    simp only []
    have := findOne_replaceDoc st.files doc fileDoc (by rw [hid, ← hreq]; exact hfind)
    rw [hid, ← hreq] at this
    rw [this, ← hdoc]
  · rw [hst]
    exact readFile_writeFile_same _ _ _

theorem C19_append_only_witness :
    findOne (POST exampleHost exampleStore exampleRewrite (exampleEnv 7 103)).2.files
      exampleRewrite.fileId = some
      { fileId := exampleDoc.fileId
        fileName := exampleDoc.fileName
        fileType := exampleDoc.fileType
        fileSize := exampleDoc.fileSize
        encryptionIV := exampleDoc.encryptionIV
        encryptionKey := exampleDoc.encryptionKey
        uploadedAt := exampleDoc.uploadedAt
        chunks := exampleDoc.chunks ++
          [{ index := 1
             filePath := chunkPath exampleHost exampleRewrite.fileId (JSNum.int 1)
             size := ([113, 114, 115] : Bytes).length
             authTag := bufferToHex [198] }] } ∧
    exampleDoc.chunks <+: exampleDoc.chunks ++
      [{ index := 1
         filePath := chunkPath exampleHost exampleRewrite.fileId (JSNum.int 1)
         size := ([113, 114, 115] : Bytes).length
         authTag := bufferToHex [198] }] ∧
    readFile (POST exampleHost exampleStore exampleRewrite (exampleEnv 7 103)).2.disk
      (chunkPath exampleHost exampleRewrite.fileId (JSNum.int 1)) = some [113, 114, 115] :=
  C19_append_only exampleHost exampleStore exampleRewrite (exampleEnv 7 103) exampleDoc
    [1, 2, 3] [113, 114, 115] [198] 1 (by decide) (by decide) rfl (by decide) (by decide)

/-- C20 fails as stated: the first upload of the example object hands a 16-byte IV to
`encryptChunk` and records it; 16 bytes are 128 bits, not 96. -/
theorem C20_counterexample :
    (cipherParams exampleHost (findOne (⟨[], []⟩ : Store).files
      (exampleUpload "text/plain".toList 0).fileId) (exampleEnv 7 100)).1.length = 16 ∧
    (findOne (POST exampleHost ⟨[], []⟩ (exampleUpload "text/plain".toList 0)
      (exampleEnv 7 100)).2.files (some "demo".toList)).map
      (fun doc => (bufferFromHex doc.encryptionIV).length) = some 16 ∧
    (16 : Nat) ≠ 12 := by
  decide

/-- C20 (amended). Cipher parameter sizes: an upload answered 200 that creates an object
hands to `encryptChunk` the 16 bytes (128 bits) of `randomBytes(16)` as IV and records
them in hex; when `ENCRYPTION_KEY` is not set in the environment, the key it records is
the hex form of the 32 bytes (256 bits) of `randomBytes(32)`. -/
theorem C20_parameter_sizes (host : Host) (st : Store) (req : PostRequest) (env : PostEnv)
    (hfresh : findOne st.files req.fileId = none)
    (hok : (POST host st req env).1.status = 200) :
    (cipherParams host (findOne st.files req.fileId) env).1 = env.randomBytes16 ∧
    (cipherParams host (findOne st.files req.fileId) env).1.length = 16 ∧
    (findOne (POST host st req env).2.files req.fileId).map
      (fun doc => bufferFromHex doc.encryptionIV) = some env.randomBytes16 ∧
    (truthy host.ENCRYPTION_KEY = false →
      (findOne (POST host st req env).2.files req.fileId).map
        (fun doc => bufferFromHex doc.encryptionKey) = some env.randomBytes32 ∧
      env.randomBytes32.length = 32) := by
  obtain ⟨g, doc1, hg, hfind1, -, hnew, -⟩ := POST_ok_records host st req env hok
  obtain ⟨hiv, hkey⟩ := hnew hfresh
  have hp : (cipherParams host (findOne st.files req.fileId) env).1 = env.randomBytes16 := by
    rw [hfresh]; rfl
  refine ⟨hp, by rw [hp]; exact env.length16, ?_, ?_⟩
  · rw [hg, hfind1]
    simp only [Option.map_some', hiv, bufferFromHex_toHex]
  · intro hkeyenv
    have : orElseStr host.ENCRYPTION_KEY (bufferToHex env.randomBytes32) =
        bufferToHex env.randomBytes32 := by
      cases hk : host.ENCRYPTION_KEY with
      | none => rfl
      | some k =>
        cases k with
        | nil => rfl
        | cons c cs => rw [hk] at hkeyenv; simp [truthy] at hkeyenv
    refine ⟨?_, env.length32⟩
    rw [hg, hfind1]
    simp only [Option.map_some', hkey, this, bufferFromHex_toHex]

theorem C20_parameter_sizes_witness :
    (cipherParams exampleHost (findOne (⟨[], []⟩ : Store).files
      (exampleUpload "text/plain".toList 0).fileId) (exampleEnv 7 100)).1.length = 16 ∧
    (findOne (POST exampleHost ⟨[], []⟩ (exampleUpload "text/plain".toList 0)
      (exampleEnv 7 100)).2.files (exampleUpload "text/plain".toList 0).fileId).map
      (fun doc => bufferFromHex doc.encryptionIV) = some (exampleEnv 7 100).randomBytes16 ∧
    (findOne (POST exampleHost ⟨[], []⟩ (exampleUpload "text/plain".toList 0)
      (exampleEnv 7 100)).2.files (exampleUpload "text/plain".toList 0).fileId).map
      (fun doc => bufferFromHex doc.encryptionKey) = some (exampleEnv 7 100).randomBytes32 :=
  ⟨(C20_parameter_sizes exampleHost ⟨[], []⟩ (exampleUpload "text/plain".toList 0)
      (exampleEnv 7 100) (by decide) (by decide)).2.1,
   (C20_parameter_sizes exampleHost ⟨[], []⟩ (exampleUpload "text/plain".toList 0)
      (exampleEnv 7 100) (by decide) (by decide)).2.2.1,
   ((C20_parameter_sizes exampleHost ⟨[], []⟩ (exampleUpload "text/plain".toList 0)
      (exampleEnv 7 100) (by decide) (by decide)).2.2.2 rfl).1⟩

/-! ### Requests that the routes turn away -/

/-- A request without `fileId` matches no document. -/
theorem findOne_none (files : List FileDoc) : findOne files none = none := by
  unfold findOne
  rw [List.find?_eq_none]
  intro d _
  simp

/-- C21 fails as stated: an upload without a `chunk` part is answered 500, not 400, and an
upload whose `totalChunks` is not a number is answered 200 and recorded, blob and
document. -/
theorem C21_counterexample :
    (POST exampleHost exampleStore exampleNoChunk (exampleEnv 7 103)).1.status = 500 ∧
    (POST exampleHost exampleStore exampleNoChunk (exampleEnv 7 103)).1.status ≠ 400 ∧
    parseInt (jsToString exampleBadTotal.totalChunks) none = JSNum.nan ∧
    (POST exampleHost exampleStore exampleBadTotal (exampleEnv 7 103)).1.status = 200 ∧
    ((POST exampleHost exampleStore exampleBadTotal (exampleEnv 7 103)).2.files.map
      (fun doc => doc.fileId)) = ["demo".toList, "other".toList] ∧
    readFile (POST exampleHost exampleStore exampleBadTotal (exampleEnv 7 103)).2.disk
      "/srv/app/uploads/chunks/other_chunk_0.enc".toList = some [113, 114, 115] := by
  decide

/-- C21 (amended). Ingestion validation: an upload without a `chunk` part, or whose
`chunkIndex` does not parse as an integer, or without `fileId`, is answered 500 (the route
never answers 400) and leaves the collection of documents as it was; without a `chunk`
part the chunk directory is left as it was too. -/
theorem C21_invalid_upload (host : Host) (st : Store) (req : PostRequest) (env : PostEnv)
    (h : req.chunk = none ∨ parseInt (jsToString req.chunkIndex) none = JSNum.nan ∨
      req.fileId = none) :
    (POST host st req env).1.status = 500 ∧
    (POST host st req env).1.status ≠ 400 ∧
    (POST host st req env).2.files = st.files ∧
    (req.chunk = none → (POST host st req env).2 = st) := by
  have hnot : (POST host st req env).1.status ≠ 200 := by
    intro hok
    obtain ⟨buffer, encrypted, authTag, index, fileDoc, hchunk, hidx, -, -, -, hdoc, -⟩ :=
      POST_ok host st req env hok
    rcases h with h | h | h
    · rw [h] at hchunk
      exact Option.noConfusion hchunk
    · rw [h] at hidx
      exact JSNum.noConfusion hidx
    · rw [h, findOne_none] at hdoc
      simp [docToSave] at hdoc
  have h500 : (POST host st req env).1.status = 500 := by
    rcases POST_status host st req env with h2 | h5
    · exact absurd h2 hnot
    · exact h5
  refine ⟨h500, by rw [h500]; decide, ?_, ?_⟩
  · rcases POST_files host st req env with hf | h2
    · exact hf
    · exact absurd h2 hnot
  · intro hnone
    unfold POST
    simp only [hnone]

theorem C21_invalid_upload_witness :
    (POST exampleHost exampleStore exampleNoChunk (exampleEnv 7 103)).1.status = 500 ∧
    (POST exampleHost exampleStore exampleNoChunk (exampleEnv 7 103)).1.status ≠ 400 ∧
    (POST exampleHost exampleStore exampleNoChunk (exampleEnv 7 103)).2.files =
      exampleStore.files ∧
    (exampleNoChunk.chunk = none →
      (POST exampleHost exampleStore exampleNoChunk (exampleEnv 7 103)).2 = exampleStore) :=
  C21_invalid_upload exampleHost exampleStore exampleNoChunk (exampleEnv 7 103) (Or.inl rfl)

/-- C24. The stream route answers a request without `Origin` whose `Referer` is a page of
the host `localhost:3000.evil.example`, or of port 30001 of `localhost`: the referer test
is `startsWith`, so the request passes and gets status 200 and the whole content. -/
theorem C24_foreign_referer_accepted :
    isValidOrigin exampleForeignReferer.origin = false ∧
    isValidReferer exampleForeignReferer.referer = true ∧
    (GET exampleHost exampleStore exampleForeignReferer exampleGetEnv).status = 200 ∧
    (GET exampleHost exampleStore exampleForeignReferer exampleGetEnv).content =
      exampleContent ∧
    isValidReferer (some "http://localhost:30001/".toList) = true := by
  decide

/-- C27. The route answers 206 to `Range: bytes=20-30` on the 24-byte example object with
`Content-Length: 11` and end offset 30 in `Content-Range`, and a body of 4 bytes; to
`Range: bytes=5-2` it answers 206 with `Content-Length: -2` and an empty body. -/
theorem C27_length_not_body :
    (GET exampleHost exampleStore (exampleGet (some "bytes=20-30".toList))
      exampleGetEnv).status = 206 ∧
    (GET exampleHost exampleStore (exampleGet (some "bytes=20-30".toList))
      exampleGetEnv).header "Content-Length".toList = some "11".toList ∧
    (GET exampleHost exampleStore (exampleGet (some "bytes=20-30".toList))
      exampleGetEnv).header "Content-Range".toList = some "bytes 20-30/24".toList ∧
    (GET exampleHost exampleStore (exampleGet (some "bytes=20-30".toList))
      exampleGetEnv).content.length = 4 ∧
    (GET exampleHost exampleStore (exampleGet (some "bytes=5-2".toList))
      exampleGetEnv).status = 206 ∧
    (GET exampleHost exampleStore (exampleGet (some "bytes=5-2".toList))
      exampleGetEnv).header "Content-Length".toList = some "-2".toList ∧
    (GET exampleHost exampleStore (exampleGet (some "bytes=5-2".toList))
      exampleGetEnv).content.length = 0 := by
  decide

/-- C30. Request screening order of `GET`: a request without `fileId` gets the 400
response whatever its `Origin` and `Referer`; a request with `fileId` that fails the origin
test gets the 403 response whatever the collection holds; a request that passes and whose
`fileId` matches no document gets the 404 response. Each of the three responses is a
constant: it depends neither on the chunk directory nor on the cipher, so no chunk is read
or decrypted. -/
theorem C30_screening_order (host : Host) (st : Store) (req : GetRequest) (env : GetEnv) :
    (truthy req.fileId = false →
      GET host st req env =
        { status := 400, headers := [], body := Body.error "File ID required".toList }) ∧
    (truthy req.fileId = true →
      (isValidOrigin req.origin = false ∧ isValidReferer req.referer = false) →
      GET host st req env =
        { status := 403
          headers := [("Access-Control-Allow-Origin".toList, "*".toList)]
          body := Body.error ("Access denied - Direct links are not allowed. " ++
            "Please access files through the application.").toList }) ∧
    (truthy req.fileId = true →
      (isValidOrigin req.origin = true ∨ isValidReferer req.referer = true) →
      findOne st.files req.fileId = none →
      GET host st req env =
        { status := 404, headers := [], body := Body.error "File not found".toList }) := by
  refine ⟨?_, ?_, ?_⟩
  · intro hid
    unfold GET
    cases hf : req.fileId with
    | none => rfl
    | some f =>
      cases f with
      | nil => rfl
      | cons c cs => rw [hf] at hid; simp [truthy] at hid
  · intro hid hgate
    unfold GET
    cases hf : req.fileId with
    | none => rw [hf] at hid; simp [truthy] at hid
    | some f =>
      cases f with
      | nil => rw [hf] at hid; simp [truthy] at hid
      | cons c cs => simp [hgate.1, hgate.2]
  · intro hid hgate hfind
    unfold GET
    cases hf : req.fileId with
    | none => rw [hf] at hid; simp [truthy] at hid
    | some f =>
      cases f with
      | nil => rw [hf] at hid; simp [truthy] at hid
      | cons c cs =>
        rw [hf] at hfind
        have hg : (!isValidOrigin req.origin && !isValidReferer req.referer) = false := by
          rcases hgate with h | h <;> simp [h]
        simp only [hg, hfind]
        simp

theorem C30_screening_order_witness :
    GET exampleHost exampleStore { exampleGet none with fileId := none } exampleGetEnv =
      { status := 400, headers := [], body := Body.error "File ID required".toList } ∧
    GET exampleHost exampleStore { exampleGet none with origin := none } exampleGetEnv =
      { status := 403
        headers := [("Access-Control-Allow-Origin".toList, "*".toList)]
        body := Body.error ("Access denied - Direct links are not allowed. " ++
          "Please access files through the application.").toList } ∧
    GET exampleHost exampleStore { exampleGet none with fileId := some "absent".toList }
      exampleGetEnv =
      { status := 404, headers := [], body := Body.error "File not found".toList } :=
  ⟨(C30_screening_order exampleHost exampleStore { exampleGet none with fileId := none }
      exampleGetEnv).1 rfl,
   (C30_screening_order exampleHost exampleStore { exampleGet none with origin := none }
      exampleGetEnv).2.1 rfl (by decide),
   (C30_screening_order exampleHost exampleStore
      { exampleGet none with fileId := some "absent".toList } exampleGetEnv).2.2 rfl
      (by decide) (by decide)⟩

/-! ### The listing route -/

/-- C22. Object listing: the listing route answers with at most 50 summaries, as many as
there are documents when there are fewer; their `uploadedAt` values never increase along
the list; each one is the projection of a stored document on the five fields `fileId`,
`fileName`, `fileType`, `fileSize` and `uploadedAt` (a summary has no field for the key or
the IV); and the documents listed are the most recent ones: the collection splits into the
documents listed and the rest, and nothing in the rest is more recent than a listed
document. -/
theorem C22_listing (st : Store) :
    (Files.GET st true).status = 200 ∧
    (Files.GET st true).body = FilesBody.files (findRecent st.files) ∧
    (findRecent st.files).length ≤ 50 ∧
    (findRecent st.files).length = min 50 st.files.length ∧
    ((findRecent st.files).map (fun s => s.uploadedAt)).Pairwise (fun a b => b ≤ a) ∧
    (∀ s ∈ findRecent st.files, ∃ doc ∈ st.files,
      s = { fileId := doc.fileId, fileName := doc.fileName, fileType := doc.fileType,
            fileSize := doc.fileSize, uploadedAt := doc.uploadedAt }) ∧
    ∃ listed rest : List FileDoc,
      findRecent st.files = listed.map FileDoc.select ∧
      (listed ++ rest).Perm st.files ∧
      (50 < st.files.length → listed.length = 50) ∧
      ∀ x ∈ listed, ∀ y ∈ rest, y.uploadedAt ≤ x.uploadedAt := by
  haveI : IsTotal FileDoc (fun a b => b.uploadedAt ≤ a.uploadedAt) :=
    ⟨fun a b => le_total _ _⟩
  haveI : IsTrans FileDoc (fun a b => b.uploadedAt ≤ a.uploadedAt) :=
    ⟨fun a b c h1 h2 => le_trans h2 h1⟩
  have hsorted :=
    List.sorted_insertionSort (fun a b : FileDoc => b.uploadedAt ≤ a.uploadedAt) st.files
  have hperm := List.perm_insertionSort (fun a b : FileDoc => b.uploadedAt ≤ a.uploadedAt)
    st.files
  have hlen : (findRecent st.files).length = min 50 st.files.length := by
    unfold findRecent
    rw [List.length_map, List.length_take, List.length_insertionSort]
  refine ⟨rfl, rfl, ?_, hlen, ?_, ?_, ?_⟩
  · rw [hlen]
    exact Nat.min_le_left _ _
  · unfold findRecent
    rw [List.map_map]
    apply List.pairwise_map.mpr
    exact List.Pairwise.sublist (List.take_sublist _ _) hsorted
  · intro s hs
    unfold findRecent at hs
    obtain ⟨doc, hdoc, rfl⟩ := List.mem_map.mp hs
    exact ⟨doc, hperm.subset (List.mem_of_mem_take hdoc), rfl⟩
  · refine ⟨(st.files.insertionSort (fun a b : FileDoc => b.uploadedAt ≤ a.uploadedAt)).take 50,
      (st.files.insertionSort (fun a b : FileDoc => b.uploadedAt ≤ a.uploadedAt)).drop 50,
      rfl, ?_, ?_, ?_⟩
    · rw [List.take_append_drop]
      exact hperm
    · intro hmore
      rw [List.length_take, List.length_insertionSort]
      omega
    · intro x hx y hy
      have h := hsorted
      rw [← List.take_append_drop 50
        (st.files.insertionSort (fun a b => b.uploadedAt ≤ a.uploadedAt))] at h
      exact (List.pairwise_append.mp h).2.2 x hx y hy

/-! ### The PDF viewer -/

theorem isPremium_free (status : Option Str)
    (h : status ≠ some "active".toList ∧ status ≠ some "trialing".toList) :
    isPremium status = false := by
  have h1 := h.1
  have h2 := h.2
  simp only [String.toList] at h1 h2
  simp [isPremium, h1, h2]

theorem isPremium_iff (status : Option Str) :
    isPremium status = true ↔
      status = some "active".toList ∨ status = some "trialing".toList := by
  simp [isPremium]

/-- A click of a free user keeps `currentPage` between 1 and 5. -/
theorem click_free (status : Option Str) (v : PDFViewer) (b : PageButton)
    (hfree : isPremium status = false) (h : 1 ≤ v.currentPage ∧ v.currentPage ≤ 5) :
    1 ≤ (click status v b).currentPage ∧ (click status v b).currentPage ≤ 5 ∧
      (click status v b).totalPages = v.totalPages := by
  cases b with
  | next =>
    simp only [click, nextPage, PAGE_LIMIT, hfree, atPageLimit]
    by_cases h5 : 5 ≤ v.currentPage
    · simp [h5, h.1, h.2]
    · by_cases ht : v.currentPage < v.totalPages
      · simp [h5, ht]
        omega
      · simp [h5, ht, h.1, h.2]
  | prev =>
    simp only [click, prevPage]
    by_cases h1 : 1 < v.currentPage
    · simp [h1]
      omega
    · simp [h1, h.1, h.2]

/-- A click of a premium user keeps `currentPage` between 1 and `totalPages` (1 when the
document has no page). -/
theorem click_premium (status : Option Str) (v : PDFViewer) (b : PageButton)
    (hprem : isPremium status = true)
    (h : 1 ≤ v.currentPage ∧ v.currentPage ≤ max 1 v.totalPages) :
    1 ≤ (click status v b).currentPage ∧
      (click status v b).currentPage ≤ max 1 (click status v b).totalPages ∧
      (click status v b).totalPages = v.totalPages := by
  cases b with
  | next =>
    simp only [click, nextPage, PAGE_LIMIT, hprem, atPageLimit]
    by_cases ht : v.currentPage < v.totalPages
    · simp [ht]
      omega
    · simp [ht, h.1, h.2]
  | prev =>
    simp only [click, prevPage]
    by_cases h1 : 1 < v.currentPage
    · simp [h1]
      omega
    · simp [h1, h.1, h.2]

theorem clicks_free (status : Option Str) (hfree : isPremium status = false)
    (buttons : List PageButton) (v : PDFViewer)
    (h : 1 ≤ v.currentPage ∧ v.currentPage ≤ 5) :
    1 ≤ (clicks status v buttons).currentPage ∧ (clicks status v buttons).currentPage ≤ 5 := by
  induction buttons generalizing v with
  | nil => exact h
  | cons b bs ih =>
    have hb := click_free status v b hfree h
    exact ih (click status v b) ⟨hb.1, hb.2.1⟩

theorem clicks_premium (status : Option Str) (hprem : isPremium status = true)
    (buttons : List PageButton) (v : PDFViewer)
    (h : 1 ≤ v.currentPage ∧ v.currentPage ≤ max 1 v.totalPages) :
    1 ≤ (clicks status v buttons).currentPage ∧
      (clicks status v buttons).currentPage ≤ max 1 v.totalPages := by
  induction buttons generalizing v with
  | nil => exact h
  | cons b bs ih =>
    have hb := click_premium status v b hprem h
    have := ih (click status v b) ⟨hb.1, hb.2.1⟩
    rw [hb.2.2] at this
    exact this

/-- A premium user who clicks `next` over and over walks through the document. -/
theorem clicks_premium_next (status : Option Str) (hprem : isPremium status = true)
    (totalPages k : Nat) (hk : k + 1 ≤ totalPages) :
    clicks status (openViewer totalPages) (List.replicate k PageButton.next) =
      { currentPage := k + 1, totalPages := totalPages } := by
  induction k with
  | zero => rfl
  | succ k ih =>
    rw [List.replicate_succ', clicks, List.foldl_append]
    have := ih (by omega)
    unfold clicks at this
    rw [this]
    simp only [List.foldl_cons, List.foldl_nil, click, nextPage, PAGE_LIMIT, hprem, atPageLimit]
    have : k + 1 < totalPages := by omega
    simp [this]

/-- C26. Page limit of the PDF viewer: from `currentPage = 1`, after any sequence of
clicks on the two page buttons and whatever the number of pages of the document, a user
whose subscription status is neither `active` nor `trialing` has `1 ≤ currentPage ≤ 5`;
a user whose status is one of the two has `1 ≤ currentPage ≤ totalPages` (or page 1 when
the document has no page), and reaches every page up to `totalPages` by `next` alone. -/
theorem C26_page_limit (status : Option Str) (totalPages : Nat) (buttons : List PageButton) :
    ((status ≠ some "active".toList ∧ status ≠ some "trialing".toList) →
      1 ≤ (clicks status (openViewer totalPages) buttons).currentPage ∧
      (clicks status (openViewer totalPages) buttons).currentPage ≤ 5) ∧
    ((status = some "active".toList ∨ status = some "trialing".toList) →
      1 ≤ (clicks status (openViewer totalPages) buttons).currentPage ∧
      (clicks status (openViewer totalPages) buttons).currentPage ≤ max 1 totalPages ∧
      ∀ page, 1 ≤ page → page ≤ totalPages →
        (clicks status (openViewer totalPages)
          (List.replicate (page - 1) PageButton.next)).currentPage = page) := by
  refine ⟨?_, ?_⟩
  · intro hfree
    exact clicks_free status (isPremium_free status hfree) buttons (openViewer totalPages)
      ⟨Nat.le_refl 1, by show 1 ≤ 5; decide⟩
  · intro hprem
    have hp := (isPremium_iff status).mpr hprem
    have h := clicks_premium status hp buttons (openViewer totalPages)
      ⟨Nat.le_refl 1, Nat.le_max_left _ _⟩
    refine ⟨h.1, h.2, ?_⟩
    intro page h1 h2
    rw [clicks_premium_next status hp totalPages (page - 1) (by omega)]
    show page - 1 + 1 = page
    omega

theorem C26_page_limit_witness :
    (1 ≤ (clicks none (openViewer 9) (List.replicate 7 PageButton.next)).currentPage ∧
      (clicks none (openViewer 9) (List.replicate 7 PageButton.next)).currentPage ≤ 5) ∧
    (1 ≤ (clicks (some "active".toList) (openViewer 9)
        (List.replicate 7 PageButton.next)).currentPage ∧
      (clicks (some "active".toList) (openViewer 9)
        (List.replicate 7 PageButton.next)).currentPage ≤ max 1 9 ∧
      (clicks (some "active".toList) (openViewer 9)
        (List.replicate (8 - 1) PageButton.next)).currentPage = 8) :=
  ⟨(C26_page_limit none 9 (List.replicate 7 PageButton.next)).1 (by decide),
   ((C26_page_limit (some "active".toList) 9 (List.replicate 7 PageButton.next)).2
      (Or.inl rfl)).1,
   ((C26_page_limit (some "active".toList) 9 (List.replicate 7 PageButton.next)).2
      (Or.inl rfl)).2.1,
   ((C26_page_limit (some "active".toList) 9 (List.replicate 7 PageButton.next)).2
      (Or.inl rfl)).2.2 8 (by decide) (by decide)⟩

/-! ### The client upload -/

/-- The value `ceilDiv a b` is the least number of blocks of `b` that cover `a`. -/
theorem ceilDiv_spec (a b : Nat) (hb : 0 < b) (ha : 1 ≤ a) :
    (ceilDiv a b - 1) * b < a ∧ a ≤ ceilDiv a b * b := by
  unfold ceilDiv
  have h1 := Nat.div_mul_le_self (a + b - 1) b
  have h2 := @Nat.lt_div_mul_add (a + b - 1) b hb
  rw [Nat.sub_mul, Nat.one_mul]
  generalize (a + b - 1) / b * b = q at h1 h2
  omega

/-- A chunk of `uploadFile` is a full block, cut off at the end of the file. -/
theorem blobSlice_block (file : Bytes) (c i : Nat) :
    blobSlice file (i * c) (min (i * c + c) file.length) = (file.drop (i * c)).take c := by
  unfold blobSlice
  by_cases h : i * c + c ≤ file.length
  · rw [Nat.min_eq_left h, Nat.add_sub_cancel_left]
  · rw [Nat.min_eq_right (by omega)]
    rw [List.take_of_length_le (by rw [List.length_drop]),
      List.take_of_length_le (by rw [List.length_drop]; omega)]

/-- The first `k` blocks of a file make up its first `k * c` bytes. -/
theorem flatten_blocks (file : Bytes) (c k : Nat) :
    ((List.range k).map (fun i => (file.drop (i * c)).take c)).flatten = file.take (k * c) := by
  induction k with
  | zero => simp
  | succ k ih =>
    rw [List.range_succ, List.map_append, List.flatten_append, ih, Nat.succ_mul, List.take_add]
    simp

theorem uploadFile_length (fileId : Str) (file : ClientFile) :
    (uploadFile fileId file).length = ceilDiv file.content.length CHUNK_SIZE := by
  unfold uploadFile
  simp

theorem uploadFile_chunks (fileId : Str) (file : ClientFile) :
    (uploadFile fileId file).filterMap (fun r => r.chunk) =
      (List.range (ceilDiv file.content.length CHUNK_SIZE)).map
        (fun i => (file.content.drop (i * CHUNK_SIZE)).take CHUNK_SIZE) := by
  unfold uploadFile
  simp only []
  rw [List.filterMap_map]
  have : ((fun r : PostRequest => r.chunk) ∘
      uploadForm fileId file (ceilDiv file.content.length CHUNK_SIZE)) =
      some ∘ (fun i => (file.content.drop (i * CHUNK_SIZE)).take CHUNK_SIZE) := by
    funext i
    simp only [Function.comp, uploadForm]
    rw [blobSlice_block]
  rw [this, List.filterMap_eq_map]

/-- C29. Client chunking is a partition: for a file of `S ≥ 1` bytes, with `CHUNK_SIZE`
equal to 1048576, `uploadFile` sends `ceil(S / CHUNK_SIZE)` requests, the least number of
blocks of `CHUNK_SIZE` bytes that cover the file; their `chunkIndex` fields are 0, 1, ...
in increasing order; the chunk of request `i` has between 1 and `CHUNK_SIZE` bytes, which
are the bytes of the file from offset `i * CHUNK_SIZE` up to, and without, offset
`min ((i + 1) * CHUNK_SIZE) S`; and the chunks joined in order of sending are the file. -/
theorem C29_client_partition (fileId : Str) (file : ClientFile)
    (hS : 1 ≤ file.content.length) :
    CHUNK_SIZE = 1048576 ∧
    (uploadFile fileId file).length = ceilDiv file.content.length CHUNK_SIZE ∧
    ((uploadFile fileId file).length - 1) * CHUNK_SIZE < file.content.length ∧
    file.content.length ≤ (uploadFile fileId file).length * CHUNK_SIZE ∧
    (uploadFile fileId file).map (fun r => r.chunkIndex) =
      (List.range (uploadFile fileId file).length).map (fun i => some (Nat.toDigits 10 i)) ∧
    (∀ i, i < (uploadFile fileId file).length →
      ∃ chunk : Bytes,
        ((uploadFile fileId file)[i]?).map (fun r => r.chunk) = some (some chunk) ∧
        ((uploadFile fileId file)[i]?).map
          (fun r => parseInt (jsToString r.chunkIndex) none) = some (JSNum.int i) ∧
        1 ≤ chunk.length ∧ chunk.length ≤ CHUNK_SIZE ∧
        chunk.length = min ((i + 1) * CHUNK_SIZE) file.content.length - i * CHUNK_SIZE ∧
        ∀ j, j < chunk.length → chunk[j]? = file.content[i * CHUNK_SIZE + j]?) ∧
    ((uploadFile fileId file).filterMap (fun r => r.chunk)).flatten = file.content := by
  have hc : 0 < CHUNK_SIZE := by decide
  have hlen := uploadFile_length fileId file
  have hspec := ceilDiv_spec file.content.length CHUNK_SIZE hc hS
  refine ⟨by decide, hlen, by rw [hlen]; exact hspec.1, by rw [hlen]; exact hspec.2, ?_, ?_, ?_⟩
  · rw [hlen]
    unfold uploadFile
    simp only []
    rw [List.map_map]
    rfl
  · intro i hi
    rw [hlen] at hi
    refine ⟨(file.content.drop (i * CHUNK_SIZE)).take CHUNK_SIZE, ?_, ?_, ?_, ?_, ?_, ?_⟩
    · unfold uploadFile
      simp only []
      rw [List.getElem?_map, List.getElem?_range hi]
      simp only [Option.map_some', uploadForm]
      rw [blobSlice_block]
    · unfold uploadFile
      simp only []
      rw [List.getElem?_map, List.getElem?_range hi]
      simp only [Option.map_some', uploadForm, jsToString]
      rw [parseInt_toDigits i none (Or.inl rfl)]
    · have h1 : i * CHUNK_SIZE ≤ (ceilDiv file.content.length CHUNK_SIZE - 1) * CHUNK_SIZE :=
        Nat.mul_le_mul_right _ (by omega)
      rw [List.length_take, List.length_drop]
      have := hspec.1
      omega
    · rw [List.length_take]
      exact Nat.min_le_left _ _
    · rw [List.length_take, List.length_drop, Nat.succ_mul]
      omega
    · intro j hj
      rw [List.length_take] at hj
      rw [List.getElem?_take_of_lt (by omega), List.getElem?_drop]
  · rw [uploadFile_chunks, flatten_blocks]
    exact List.take_of_length_le hspec.2

theorem C29_client_partition_witness :
    (uploadFile "demo".toList ⟨"demo.bin".toList, "text/plain".toList, [1, 2, 3]⟩).length =
      ceilDiv ([1, 2, 3] : Bytes).length CHUNK_SIZE ∧
    ((uploadFile "demo".toList ⟨"demo.bin".toList, "text/plain".toList,
      [1, 2, 3]⟩).filterMap (fun r => r.chunk)).flatten = [1, 2, 3] :=
  ⟨(C29_client_partition "demo".toList ⟨"demo.bin".toList, "text/plain".toList, [1, 2, 3]⟩
      (by decide)).2.1,
   (C29_client_partition "demo".toList ⟨"demo.bin".toList, "text/plain".toList, [1, 2, 3]⟩
      (by decide)).2.2.2.2.2.2⟩

/-! ### Paths below the chunk directory -/


theorem splitOnChar_ne_nil (sep : Char) (s : Str) : splitOnChar sep s ≠ [] := by
  cases s with
  | nil => simp [splitOnChar]
  | cons c cs =>
    unfold splitOnChar
    split_ifs
    · simp
    · split <;> simp

theorem splitOnChar_cons_self (sep : Char) (cs : Str) :
    splitOnChar sep (sep :: cs) = [] :: splitOnChar sep cs := by
  rw [splitOnChar]
  simp

theorem splitOnChar_cons_other (sep c : Char) (cs p : Str) (ps : List Str) (hc : c ≠ sep)
    (h : splitOnChar sep cs = p :: ps) : splitOnChar sep (c :: cs) = (c :: p) :: ps := by
  rw [splitOnChar, h]
  simp [hc]

/-- The pieces of a text around a separator are the pieces before it and the pieces
after it. -/
theorem splitOnChar_cons_sep (sep : Char) (a b : Str) :
    splitOnChar sep (a ++ sep :: b) = splitOnChar sep a ++ splitOnChar sep b := by
  induction a with
  | nil => rw [List.nil_append, splitOnChar_cons_self]; rfl
  | cons c cs ih =>
    rw [List.cons_append]
    by_cases hc : c = sep
    · subst hc
      rw [splitOnChar_cons_self, splitOnChar_cons_self, ih]
      rfl
    · obtain ⟨p, ps, h⟩ := List.exists_cons_of_ne_nil (splitOnChar_ne_nil sep cs)
      rw [splitOnChar_cons_other sep c cs p ps hc h,
        splitOnChar_cons_other sep c (cs ++ sep :: b) p (ps ++ splitOnChar sep b) hc
          (by rw [ih, h]; rfl)]
      rfl

/-- Splitting what was joined gives the segments back. -/
theorem splitOnChar_joinWith (sep : Char) (segs : List Str) (hne : segs ≠ [])
    (h : ∀ s ∈ segs, ∀ c ∈ s, c ≠ sep) : splitOnChar sep (joinWith sep segs) = segs := by
  induction segs with
  | nil => exact absurd rfl hne
  | cons s rest ih =>
    cases rest with
    | nil => exact splitOnChar_no_sep sep s (h s (List.mem_cons_self _ _))
    | cons t rest =>
      rw [joinWith, splitOnChar_sep sep s _ (h s (List.mem_cons_self _ _)),
        ih (by simp) (fun x hx => h x (List.mem_cons_of_mem _ hx))]

theorem joinWith_append (sep : Char) (A B : List Str) (hA : A ≠ []) (hB : B ≠ []) :
    joinWith sep (A ++ B) = joinWith sep A ++ sep :: joinWith sep B := by
  induction A with
  | nil => exact absurd rfl hA
  | cons a A ih =>
    cases A with
    | nil =>
      obtain ⟨b, bs, rfl⟩ := List.exists_cons_of_ne_nil hB
      rfl
    | cons a2 A =>
      have := ih (by simp)
      rw [List.cons_append] at this
      rw [List.cons_append, List.cons_append, joinWith, this, joinWith]
      simp

theorem joinWith_head (sep : Char) (s : Str) (rest : List Str) (hs : s ≠ []) :
    (joinWith sep (s :: rest)).head? = s.head? := by
  obtain ⟨c, cs, rfl⟩ := List.exists_cons_of_ne_nil hs
  cases rest <;> rfl

/-- A segment that is a name is pushed on the stack. -/
theorem normalizeStep_name (allow : Bool) (stack : List Str) (seg : Str)
    (h : seg ≠ [] ∧ seg ≠ ['.'] ∧ seg ≠ ['.', '.']) :
    normalizeStep allow stack seg = seg :: stack := by
  simp [normalizeStep, h.1, h.2.1, h.2.2]

theorem foldl_normalizeStep_names (allow : Bool) (segs : List Str) (stack : List Str)
    (h : ∀ s ∈ segs, s ≠ [] ∧ s ≠ ['.'] ∧ s ≠ ['.', '.']) :
    segs.foldl (normalizeStep allow) stack = segs.reverse ++ stack := by
  induction segs generalizing stack with
  | nil => rfl
  | cons s rest ih =>
    rw [List.foldl_cons, normalizeStep_name allow stack s (h s (List.mem_cons_self _ _)),
      ih _ (fun x hx => h x (List.mem_cons_of_mem _ hx))]
    simp

theorem foldl_normalizeStep_dots (k j : Nat) :
    (List.replicate k ['.', '.']).foldl (normalizeStep true) (List.replicate j ['.', '.']) =
      List.replicate (j + k) ['.', '.'] := by
  induction k generalizing j with
  | zero => rfl
  | succ k ih =>
    rw [List.replicate_succ, List.foldl_cons]
    have : normalizeStep true (List.replicate j ['.', '.']) ['.', '.'] =
        List.replicate (j + 1) ['.', '.'] := by
      cases j with
      | zero => rfl
      | succ j => simp [normalizeStep, List.replicate_succ]
    rw [this, ih]
    congr 1
    omega

/-- Without `..` among the segments the stack only grows: the names are pushed, the empty
segments and `.` are skipped. -/
theorem foldl_normalizeStep_no_dots (allow : Bool) (segs : List Str) (stack : List Str)
    (h : ∀ s ∈ segs, s ≠ ['.', '.']) :
    segs.foldl (normalizeStep allow) stack =
      (segs.filter (fun s => decide (s ≠ [] ∧ s ≠ ['.']))).reverse ++ stack := by
  induction segs generalizing stack with
  | nil => rfl
  | cons s rest ih =>
    rw [List.foldl_cons, ih _ (fun x hx => h x (List.mem_cons_of_mem _ hx))]
    have hs := h s (List.mem_cons_self _ _)
    by_cases hskip : s = [] ∨ s = ['.']
    · have : normalizeStep allow stack s = stack := by
        simp only [normalizeStep, hskip, if_true]
      rw [this]
      have hf : decide (s ≠ [] ∧ s ≠ ['.']) = false := by
        rcases hskip with rfl | rfl <;> decide
      rw [List.filter_cons_of_neg (by simp [hf])]
    · have hskip2 : s ≠ [] ∧ s ≠ ['.'] := by
        constructor
        · exact fun h0 => hskip (Or.inl h0)
        · exact fun h0 => hskip (Or.inr h0)
      rw [normalizeStep_name allow stack s ⟨hskip2.1, hskip2.2, hs⟩]
      rw [List.filter_cons_of_pos (by simp [hskip2.1, hskip2.2])]
      simp

/-- The shape of the stack of `normalizeString`: names on top of a run of `..`, which is
empty when the path is absolute. -/
theorem normalizeStep_shape (allow : Bool) (stack : List Str) (seg : Str)
    (h : ∃ k ords, stack = ords ++ List.replicate k ['.', '.'] ∧
      (∀ s ∈ ords, s ≠ [] ∧ s ≠ ['.'] ∧ s ≠ ['.', '.']) ∧ (allow = false → k = 0)) :
    ∃ k ords, normalizeStep allow stack seg = ords ++ List.replicate k ['.', '.'] ∧
      (∀ s ∈ ords, s ≠ [] ∧ s ≠ ['.'] ∧ s ≠ ['.', '.']) ∧ (allow = false → k = 0) := by
  obtain ⟨k, ords, rfl, hords, hk⟩ := h
  by_cases hskip : seg = [] ∨ seg = ['.']
  · refine ⟨k, ords, ?_, hords, hk⟩
    simp only [normalizeStep, hskip, if_true]
  by_cases hdots : seg = ['.', '.']
  · subst hdots
    cases ords with
    | nil =>
      cases k with
      | zero =>
        cases allow with
        | false => exact ⟨0, [], rfl, by simp, fun _ => rfl⟩
        | true => exact ⟨1, [], rfl, by simp, by simp⟩
      | succ k =>
        cases allow with
        | false => exact absurd (hk rfl) (by simp)
        | true =>
          refine ⟨k + 2, [], ?_, by simp, by simp⟩
          simp [normalizeStep, List.replicate_succ]
    | cons o os =>
      have ho := hords o (List.mem_cons_self _ _)
      refine ⟨k, os, ?_, fun s hs => hords s (List.mem_cons_of_mem _ hs), hk⟩
      simp [normalizeStep, ho.2.2]
  · have hname : seg ≠ [] ∧ seg ≠ ['.'] ∧ seg ≠ ['.', '.'] :=
      ⟨fun h0 => hskip (Or.inl h0), fun h0 => hskip (Or.inr h0), hdots⟩
    refine ⟨k, seg :: ords, ?_, ?_, hk⟩
    · rw [normalizeStep_name allow _ seg hname]
      rfl
    · intro s hs
      rcases List.mem_cons.mp hs with rfl | hs
      · exact hname
      · exact hords s hs

theorem foldl_normalizeStep_shape (allow : Bool) (segs : List Str) (stack : List Str)
    (h : ∃ k ords, stack = ords ++ List.replicate k ['.', '.'] ∧
      (∀ s ∈ ords, s ≠ [] ∧ s ≠ ['.'] ∧ s ≠ ['.', '.']) ∧ (allow = false → k = 0)) :
    ∃ k ords, segs.foldl (normalizeStep allow) stack = ords ++ List.replicate k ['.', '.'] ∧
      (∀ s ∈ ords, s ≠ [] ∧ s ≠ ['.'] ∧ s ≠ ['.', '.']) ∧ (allow = false → k = 0) := by
  induction segs generalizing stack with
  | nil => exact h
  | cons s rest ih => exact ih _ (normalizeStep_shape allow stack s h)

/-- Normalising the segments of a normalised path gives the same stack. -/
theorem foldl_normalizeStep_replay (allow : Bool) (stack : List Str)
    (h : ∃ k ords, stack = ords ++ List.replicate k ['.', '.'] ∧
      (∀ s ∈ ords, s ≠ [] ∧ s ≠ ['.'] ∧ s ≠ ['.', '.']) ∧ (allow = false → k = 0)) :
    stack.reverse.foldl (normalizeStep allow) [] = stack := by
  obtain ⟨k, ords, rfl, hords, hk⟩ := h
  rw [List.reverse_append, List.reverse_replicate, List.foldl_append]
  have hd : (List.replicate k ['.', '.']).foldl (normalizeStep allow) [] =
      List.replicate k ['.', '.'] := by
    cases allow with
    | false => rw [hk rfl]; rfl
    | true =>
      have := foldl_normalizeStep_dots k 0
      rw [Nat.zero_add] at this
      exact this
  rw [hd, foldl_normalizeStep_names allow ords.reverse _
    (fun s hs => hords s (List.mem_reverse.mp hs)), List.reverse_reverse]

theorem normalizeStep_subset (allow : Bool) (stack : List Str) (seg : Str) :
    ∀ s ∈ normalizeStep allow stack seg, s ∈ stack ∨ s = seg := by
  intro s hs
  by_cases hskip : seg = [] ∨ seg = ['.']
  · left
    simpa only [normalizeStep, hskip, if_true] using hs
  by_cases hdots : seg = ['.', '.']
  · subst hdots
    cases stack with
    | nil =>
      cases allow with
      | false => simp [normalizeStep] at hs
      | true =>
        right
        simpa [normalizeStep] using hs
    | cons top below =>
      by_cases ht : top = ['.', '.']
      · cases allow with
        | false =>
          left
          simpa [normalizeStep, ht] using hs
        | true =>
          have hs2 : s ∈ ['.', '.'] :: top :: below := by
            simpa [normalizeStep, ht] using hs
          rcases List.mem_cons.mp hs2 with h | h
          · exact Or.inr h
          · exact Or.inl h
      · left
        have hs2 : s ∈ below := by
          simpa [normalizeStep, ht] using hs
        exact List.mem_cons_of_mem _ hs2
  · rw [normalizeStep_name allow stack seg
      ⟨fun h0 => hskip (Or.inl h0), fun h0 => hskip (Or.inr h0), hdots⟩] at hs
    rcases List.mem_cons.mp hs with h | h
    · exact Or.inr h
    · exact Or.inl h

theorem foldl_normalizeStep_subset (allow : Bool) (segs : List Str) (stack : List Str) :
    ∀ s ∈ segs.foldl (normalizeStep allow) stack, s ∈ stack ∨ s ∈ segs := by
  induction segs generalizing stack with
  | nil => intro s hs; exact Or.inl hs
  | cons x rest ih =>
    intro s hs
    rcases ih _ s hs with h | h
    · rcases normalizeStep_subset allow stack x s h with h | h
      · exact Or.inl h
      · exact Or.inr (h ▸ List.mem_cons_self _ _)
    · exact Or.inr (List.mem_cons_of_mem _ h)

/-- The segments that `normalizeString` keeps are not empty and hold no separator. -/
theorem normalizeStack_segments (allow : Bool) (path : Str) :
    ∀ s ∈ (splitOnChar '/' path).foldl (normalizeStep allow) [],
      s ≠ [] ∧ ∀ c ∈ s, c ≠ '/' := by
  intro s hs
  constructor
  · obtain ⟨k, ords, hst, hords, -⟩ := foldl_normalizeStep_shape allow (splitOnChar '/' path) []
      ⟨0, [], rfl, by simp, fun _ => rfl⟩
    rw [hst] at hs
    rcases List.mem_append.mp hs with h | h
    · exact (hords s h).1
    · rw [(List.mem_replicate.mp h).2]
      simp
  · rcases foldl_normalizeStep_subset allow (splitOnChar '/' path) [] s hs with h | h
    · simp at h
    · exact splitOnChar_mem_no_sep '/' path s h

/-- The value of `path.normalize` on a path without trailing separator of which some
segment is kept. -/
theorem pathNormalize_of_stack (J : Str) (hne : J ≠ []) (htrail : J.getLast? ≠ some '/')
    (hstack : (splitOnChar '/' J).foldl (normalizeStep (!decide (J.head? = some '/'))) [] ≠ []) :
    pathNormalize J = (if J.head? = some '/' then ['/'] else []) ++
      joinWith '/' ((splitOnChar '/' J).foldl
        (normalizeStep (!decide (J.head? = some '/'))) []).reverse := by
  have hres : joinWith '/' ((splitOnChar '/' J).foldl
      (normalizeStep (!decide (J.head? = some '/'))) []).reverse ≠ [] := by
    obtain ⟨s, rest, hsr⟩ := List.exists_cons_of_ne_nil
      (fun h => hstack (List.reverse_eq_nil_iff.mp h))
    have hs : s ≠ [] := (normalizeStack_segments _ J s
      (List.mem_reverse.mp (hsr ▸ List.mem_cons_self _ _))).1
    rw [hsr]
    intro h
    have := joinWith_head '/' s rest hs
    rw [h] at this
    obtain ⟨c, cs, rfl⟩ := List.exists_cons_of_ne_nil hs
    simp at this
  unfold normalizeString at *
  unfold pathNormalize normalizeString
  by_cases habs : J.head? = some '/'
  · simp only [habs, decide_True, Bool.not_true] at hres ⊢
    simp [hne, hres, htrail]
  · simp only [habs, decide_False, Bool.not_false] at hres ⊢
    simp [hne, hres, htrail]
/-- A normalised path extended by segments that do not climb: `path.normalize` keeps the
path and appends the names among the new segments. -/
theorem pathNormalize_extend (J T : Str) (hne : J ≠ []) (htrail : J.getLast? ≠ some '/')
    (hstack : (splitOnChar '/' J).foldl (normalizeStep (!decide (J.head? = some '/'))) [] ≠ [])
    (hT : T ≠ []) (hTtrail : T.getLast? ≠ some '/')
    (hTdots : ∀ p ∈ splitOnChar '/' T, p ≠ ['.', '.'])
    (hTkeep : (splitOnChar '/' T).filter (fun p => decide (p ≠ [] ∧ p ≠ ['.'])) ≠ []) :
    pathNormalize (pathNormalize J ++ '/' :: T) = pathNormalize J ++
      '/' :: joinWith '/' ((splitOnChar '/' T).filter (fun p => decide (p ≠ [] ∧ p ≠ ['.']))) := by
  have hD := pathNormalize_of_stack J hne htrail hstack
  generalize hallow : (!decide (J.head? = some '/')) = allow at hD hstack
  generalize hst : (splitOnChar '/' J).foldl (normalizeStep allow) [] = stack at hD hstack
  have hshape : ∃ k ords, stack = ords ++ List.replicate k ['.', '.'] ∧
      (∀ s ∈ ords, s ≠ [] ∧ s ≠ ['.'] ∧ s ≠ ['.', '.']) ∧ (allow = false → k = 0) := by
    rw [← hst]
    exact foldl_normalizeStep_shape allow _ [] ⟨0, [], rfl, by simp, fun _ => rfl⟩
  have hsegs : ∀ s ∈ stack, s ≠ [] ∧ ∀ c ∈ s, c ≠ '/' := by
    rw [← hst]
    exact normalizeStack_segments allow J
  have hrev : stack.reverse ≠ [] := fun h => hstack (List.reverse_eq_nil_iff.mp h)
  have hsplitR : splitOnChar '/' (joinWith '/' stack.reverse) = stack.reverse :=
    splitOnChar_joinWith '/' _ hrev
      (fun s hs => (hsegs s (List.mem_reverse.mp hs)).2)
  obtain ⟨s0, rest0, hsr⟩ := List.exists_cons_of_ne_nil hrev
  have hs0 := hsegs s0 (List.mem_reverse.mp (hsr ▸ List.mem_cons_self _ _))
  have hRhead : (joinWith '/' stack.reverse).head? ≠ some '/' := by
    rw [hsr, joinWith_head '/' s0 rest0 hs0.1]
    obtain ⟨c, cs, rfl⟩ := List.exists_cons_of_ne_nil hs0.1
    intro h
    have hc : c = '/' := by simpa using h
    exact hs0.2 c (List.mem_cons_self _ _) hc
  have hRne : joinWith '/' stack.reverse ≠ [] := by
    intro h
    have := joinWith_head '/' s0 rest0 hs0.1
    rw [← hsr, h] at this
    obtain ⟨c, cs, rfl⟩ := List.exists_cons_of_ne_nil hs0.1
    simp at this
  -- the head of the extended path and the stack that its segments build
  have hNhead : ((pathNormalize J ++ '/' :: T).head? = some '/') ↔ (J.head? = some '/') := by
    rw [hD]
    by_cases habs : J.head? = some '/'
    · simp [habs]
    · obtain ⟨r, rs, hr⟩ := List.exists_cons_of_ne_nil hRne
      rw [hr] at hRhead
      simp only [habs, if_false, List.nil_append, hr, List.cons_append, List.head?_cons,
        iff_false]
      exact hRhead
  have hallow2 : (!decide ((pathNormalize J ++ '/' :: T).head? = some '/')) = allow := by
    rw [← hallow]
    congr 1
    exact decide_eq_decide.mpr hNhead
  have hfoldD : (splitOnChar '/' (pathNormalize J)).foldl (normalizeStep allow) [] = stack := by
    rw [hD]
    by_cases habs : J.head? = some '/'
    · simp only [habs, if_true, List.singleton_append]
      rw [splitOnChar_cons_self, hsplitR, List.foldl_cons]
      have : normalizeStep allow [] [] = [] := by simp [normalizeStep]
      rw [this]
      exact foldl_normalizeStep_replay allow stack hshape
    · simp only [habs, if_false, List.nil_append]
      rw [hsplitR]
      exact foldl_normalizeStep_replay allow stack hshape
  have hfoldN : (splitOnChar '/' (pathNormalize J ++ '/' :: T)).foldl (normalizeStep allow) [] =
      ((splitOnChar '/' T).filter (fun p => decide (p ≠ [] ∧ p ≠ ['.']))).reverse ++ stack := by
    rw [splitOnChar_cons_sep, List.foldl_append, hfoldD,
      foldl_normalizeStep_no_dots allow _ stack hTdots]
  have hNne : pathNormalize J ++ '/' :: T ≠ [] := by simp
  have hNtrail : (pathNormalize J ++ '/' :: T).getLast? ≠ some '/' := by
    obtain ⟨t, ts, rfl⟩ := List.exists_cons_of_ne_nil hT
    rw [show pathNormalize J ++ '/' :: t :: ts = (pathNormalize J ++ ['/']) ++ t :: ts by simp,
      List.getLast?_append]
    cases h : (t :: ts).getLast? with
    | none => simp at h
    | some c =>
      rw [h] at hTtrail
      simpa using hTtrail
  have hN := pathNormalize_of_stack (pathNormalize J ++ '/' :: T) hNne hNtrail
    (by rw [hallow2, hfoldN]; simp [hstack])
  rw [hallow2, hfoldN] at hN
  rw [hN, List.reverse_append, List.reverse_reverse, joinWith_append '/' _ _ hrev hTkeep]
  have hpre : (if (pathNormalize J ++ '/' :: T).head? = some '/' then ['/'] else []) =
      (if J.head? = some '/' then ['/'] else ([] : Str)) := by
    by_cases habs : J.head? = some '/'
    · rw [if_pos habs, if_pos (hNhead.mpr habs)]
    · rw [if_neg habs, if_neg (fun h => habs (hNhead.mp h))]
  rw [hpre]
  conv_rhs => rw [hD]
  simp
/-- The chunk directory is the normal form of a path without trailing separator of which
the segment `chunks` is kept. -/
theorem CHUNK_DIR_normal (host : Host) :
    ∃ J : Str, CHUNK_DIR host = pathNormalize J ∧ J ≠ [] ∧ J.getLast? ≠ some '/' ∧
      (splitOnChar '/' J).foldl (normalizeStep (!decide (J.head? = some '/'))) [] ≠ [] := by
  by_cases hcwd : host.cwd = []
  · refine ⟨"uploads/chunks".toList, ?_, by decide, by decide, by decide⟩
    unfold CHUNK_DIR pathJoin
    rw [hcwd]
    rfl
  · refine ⟨host.cwd ++ '/' :: "uploads/chunks".toList, ?_, by simp, ?_, ?_⟩
    · unfold CHUNK_DIR pathJoin
      have : List.filter (fun a => decide (a ≠ []))
          [host.cwd, "uploads".toList, "chunks".toList] =
          [host.cwd, "uploads".toList, "chunks".toList] := by
        simp [List.filter, hcwd]
      rw [this]
      rfl
    · rw [show host.cwd ++ '/' :: "uploads/chunks".toList =
          (host.cwd ++ '/' :: "uploads/chunk".toList) ++ ['s'] by simp,
        List.getLast?_append]
      simp
    · rw [splitOnChar_cons_sep, List.foldl_append]
      have : splitOnChar '/' "uploads/chunks".toList = ["uploads".toList, "chunks".toList] := by
        decide
      rw [this, List.foldl_cons, List.foldl_cons, List.foldl_nil,
        normalizeStep_ordinary _ _ "uploads".toList (by decide),
        normalizeStep_ordinary _ _ "chunks".toList (by decide)]
      simp

/-- The name `<fileId>_chunk_<index>.enc`, cut at its separators: the pieces of the file
id, the last one followed by the suffix. -/
theorem chunkName_pieces (F : Str) (idx : JSNum) :
    ∃ init last, splitOnChar '/' F = init ++ [last] ∧
      splitOnChar '/' (F ++ "_chunk_".toList ++ idx.toStr ++ ".enc".toList) =
        init ++ [last ++ ("_chunk_".toList ++ idx.toStr ++ ".enc".toList)] ∧
      11 ≤ (last ++ ("_chunk_".toList ++ idx.toStr ++ ".enc".toList)).length := by
  obtain ⟨init, last, h1, h2⟩ := splitOnChar_append '/'
    ("_chunk_".toList ++ idx.toStr ++ ".enc".toList) (chunkSuffix_no_slash idx) F
  refine ⟨init, last, h1, ?_, ?_⟩
  · rw [← h2]
    simp
  · simp only [List.length_append]
    have : "_chunk_".toList.length = 7 := rfl
    have : ".enc".toList.length = 4 := rfl
    omega

theorem filter_names_singleton (x : Str) (h1 : x ≠ []) (h2 : x ≠ ['.']) :
    List.filter (fun p : Str => decide (p ≠ [] ∧ p ≠ ['.'])) [x] = [x] := by
  simp [List.filter, h1, h2]

/-- The path of a chunk whose file id has no segment `..` before a separator: the chunk
directory, a separator, and the names among the segments of `<fileId>_chunk_<index>.enc`. -/
theorem chunkPath_inside (host : Host) (fileId : Option Str) (idx : JSNum)
    (h : ∀ p ∈ (splitOnChar '/' (jsToString fileId)).dropLast, p ≠ ['.', '.']) :
    chunkPath host fileId idx = CHUNK_DIR host ++ '/' :: joinWith '/'
      ((splitOnChar '/' (jsToString fileId ++ "_chunk_".toList ++ idx.toStr ++
        ".enc".toList)).filter (fun p => decide (p ≠ [] ∧ p ≠ ['.']))) := by
  obtain ⟨J, hJ, hJne, hJtrail, hJstack⟩ := CHUNK_DIR_normal host
  obtain ⟨init, last, hi1, hi2, hlen⟩ := chunkName_pieces (jsToString fileId) idx
  set T := jsToString fileId ++ "_chunk_".toList ++ idx.toStr ++ ".enc".toList with hT
  have hTne : T ≠ [] := by
    rw [hT]
    simp
  have hTlast : T.getLast? = some 'c' := by
    have : T = (jsToString fileId ++ "_chunk_".toList ++ idx.toStr ++ ['.', 'e', 'n']) ++ ['c'] := by
      simp [hT]
    rw [this, List.getLast?_append]
    rfl
  have hjoin : chunkPath host fileId idx = pathNormalize (CHUNK_DIR host ++ '/' :: T) := by
    unfold chunkPath pathJoin
    have : List.filter (fun a => decide (a ≠ [])) [CHUNK_DIR host, T] = [CHUNK_DIR host, T] := by
      simp [List.filter, pathJoin_ne_nil, hTne, CHUNK_DIR]
    rw [← hT, this]
    rfl
  have hlastname : last ++ ("_chunk_".toList ++ idx.toStr ++ ".enc".toList) ≠ [] ∧
      last ++ ("_chunk_".toList ++ idx.toStr ++ ".enc".toList) ≠ ['.'] ∧
      last ++ ("_chunk_".toList ++ idx.toStr ++ ".enc".toList) ≠ ['.', '.'] := by
    refine ⟨?_, ?_, ?_⟩ <;> intro h0 <;> rw [h0] at hlen <;> simp at hlen
  rw [hjoin, hJ]
  apply pathNormalize_extend J T hJne hJtrail hJstack hTne (by rw [hTlast]; decide)
  · intro p hp
    rw [hi2] at hp
    rcases List.mem_append.mp hp with hp | hp
    · exact h p (by rw [hi1, List.dropLast_concat]; exact hp)
    · rw [List.mem_singleton.mp hp]
      exact hlastname.2.2
  · rw [hi2, List.filter_append]
    have : List.filter (fun p => decide (p ≠ [] ∧ p ≠ ['.']))
        [last ++ ("_chunk_".toList ++ idx.toStr ++ ".enc".toList)] =
        [last ++ ("_chunk_".toList ++ idx.toStr ++ ".enc".toList)] := by
      exact filter_names_singleton _ hlastname.1 hlastname.2.1
    rw [this]
    simp

/-- The path of a chunk whose file id holds no separator is the chunk directory, a
separator and the name `<fileId>_chunk_<index>.enc`. -/
theorem chunkPath_plain (host : Host) (fileId : Option Str) (idx : JSNum)
    (h : ∀ c ∈ jsToString fileId, c ≠ '/') :
    chunkPath host fileId idx = CHUNK_DIR host ++
      '/' :: (jsToString fileId ++ "_chunk_".toList ++ idx.toStr ++ ".enc".toList) := by
  have hone : splitOnChar '/' (jsToString fileId) = [jsToString fileId] :=
    splitOnChar_no_sep '/' _ h
  have hname : splitOnChar '/' (jsToString fileId ++ "_chunk_".toList ++ idx.toStr ++
      ".enc".toList) = [jsToString fileId ++ "_chunk_".toList ++ idx.toStr ++ ".enc".toList] := by
    apply splitOnChar_no_sep
    intro c hc
    simp only [List.append_assoc] at hc
    rcases List.mem_append.mp hc with hc | hc
    · exact h c hc
    · exact chunkSuffix_no_slash idx c (by simpa using hc)
  have hkeep : jsToString fileId ++ "_chunk_".toList ++ idx.toStr ++ ".enc".toList ≠ [] ∧
      jsToString fileId ++ "_chunk_".toList ++ idx.toStr ++ ".enc".toList ≠ ['.'] := by
    constructor <;> intro h0 <;> have := congrArg List.length h0 <;>
      simp only [List.length_append] at this <;>
      have h7 : "_chunk_".toList.length = 7 := rfl <;> simp [h7] at this
  rw [chunkPath_inside host fileId idx (by rw [hone]; simp), hname,
    filter_names_singleton _ hkeep.1 hkeep.2]
  rfl

/-! ### Chunk paths of different chunks -/

/-- Two texts cut at their last separator agree piece by piece. -/
theorem append_sep_inj (sep : Char) (a b t1 t2 : Str) (h1 : ∀ c ∈ t1, c ≠ sep)
    (h2 : ∀ c ∈ t2, c ≠ sep) (h : a ++ sep :: t1 = b ++ sep :: t2) : a = b ∧ t1 = t2 := by
  induction a generalizing b with
  | nil =>
    cases b with
    | nil => exact ⟨rfl, by simpa using h⟩
    | cons d b =>
      simp only [List.nil_append, List.cons_append, List.cons.injEq] at h
      exact absurd rfl (h1 sep (by rw [h.2]; simp))
  | cons c a ih =>
    cases b with
    | nil =>
      simp only [List.nil_append, List.cons_append, List.cons.injEq] at h
      exact absurd rfl (h2 sep (by rw [← h.2]; simp))
    | cons d b =>
      simp only [List.cons_append, List.cons.injEq] at h
      obtain ⟨hab, ht⟩ := ih b h.2
      exact ⟨by rw [h.1, hab], ht⟩

theorem JSNum.toStr_no_underscore (idx : JSNum) : ∀ c ∈ idx.toStr, c ≠ '_' := by
  intro c hc
  have hdig : ∀ n : Nat, ∀ c ∈ Nat.toDigits 10 n, c ≠ '_' := by
    intro n c hc
    have := (radixDigit_ten_isSome c).mp (toDigits_isDigit n c hc)
    rintro rfl
    revert this; decide
  cases idx with
  | nan =>
    have : c ∈ ['N', 'a', 'N'] := hc
    simp at this
    rcases this with rfl | rfl | rfl <;> decide
  | int i =>
    simp only [JSNum.toStr] at hc
    split_ifs at hc
    · rcases List.mem_cons.mp hc with rfl | h
      · decide
      · exact hdig _ c h
    · exact hdig _ c hc

/-- C25 fails as stated: the upload with `fileId` `x/../demo` and index 0 is answered 200
as was the upload of chunk 0 of the object `demo`; the two pairs differ and have the same
chunk path, and the blob of `demo` is replaced by the one of the other upload. -/
theorem C25_counterexample :
    (POST exampleHost ⟨[], []⟩ (exampleUpload "text/plain".toList 0)
      (exampleEnv 7 100)).1.status = 200 ∧
    (POST exampleHost exampleStore exampleAlias (exampleEnv 7 103)).1.status = 200 ∧
    (exampleUpload "text/plain".toList 0).fileId = some "demo".toList ∧
    exampleAlias.fileId = some "x/../demo".toList ∧
    (some "demo".toList, JSNum.int 0) ≠ (some "x/../demo".toList, JSNum.int 0) ∧
    chunkPath exampleHost (some "demo".toList) (JSNum.int 0) =
      chunkPath exampleHost (some "x/../demo".toList) (JSNum.int 0) ∧
    readFile exampleStore.disk (chunkPath exampleHost (some "demo".toList) (JSNum.int 0)) =
      some [112, 113, 114, 115, 116, 117, 118, 119] ∧
    readFile (POST exampleHost exampleStore exampleAlias (exampleEnv 7 103)).2.disk
      (chunkPath exampleHost (some "demo".toList) (JSNum.int 0)) = some [121, 121, 121] := by
  decide

/-- C25 (amended). Storage key injectivity: for file ids without the separator `/`, two
different pairs of a file id and an integer chunk index have different chunk paths. -/
theorem C25_path_injective (host : Host) (fileId1 fileId2 : Str) (index1 index2 : Int)
    (h1 : ∀ c ∈ fileId1, c ≠ '/') (h2 : ∀ c ∈ fileId2, c ≠ '/')
    (hne : (fileId1, index1) ≠ (fileId2, index2)) :
    chunkPath host (some fileId1) (JSNum.int index1) ≠
      chunkPath host (some fileId2) (JSNum.int index2) := by
  intro h
  rw [chunkPath_plain host (some fileId1) _ h1, chunkPath_plain host (some fileId2) _ h2] at h
  have h3 := List.append_cancel_left h
  simp only [List.cons.injEq, true_and, jsToString] at h3
  have h4 := List.append_cancel_right h3
  have h5 : (fileId1 ++ "_chunk".toList) ++ '_' :: (JSNum.int index1).toStr =
      (fileId2 ++ "_chunk".toList) ++ '_' :: (JSNum.int index2).toStr := by
    simpa using h4
  obtain ⟨h6, h7⟩ := append_sep_inj '_' _ _ _ _ (JSNum.toStr_no_underscore _)
    (JSNum.toStr_no_underscore _) h5
  have h8 := List.append_cancel_right h6
  have h9 := JSNum.toStr_int_injective index1 index2 h7
  exact hne (by rw [h8, h9])

theorem C25_path_injective_witness :
    chunkPath exampleHost (some "demo".toList) (JSNum.int 0) ≠
      chunkPath exampleHost (some "film".toList) (JSNum.int 0) ∧
    chunkPath exampleHost (some "demo".toList) (JSNum.int 0) ≠
      chunkPath exampleHost (some "demo".toList) (JSNum.int 1) :=
  ⟨C25_path_injective exampleHost "demo".toList "film".toList 0 0 (by decide) (by decide)
      (by decide),
   C25_path_injective exampleHost "demo".toList "demo".toList 0 1 (by decide) (by decide)
      (by decide)⟩

/-- C28 fails as stated: the upload with `fileId` `../escape` is answered 200 and its
blob is written to `/srv/app/uploads/escape_chunk_0.enc`, beside the chunk directory
`/srv/app/uploads/chunks` and not below it. -/
theorem C28_counterexample :
    (POST exampleHost exampleStore exampleEscape (exampleEnv 7 103)).1.status = 200 ∧
    CHUNK_DIR exampleHost = "/srv/app/uploads/chunks".toList ∧
    chunkPath exampleHost exampleEscape.fileId (JSNum.int 0) =
      "/srv/app/uploads/escape_chunk_0.enc".toList ∧
    (POST exampleHost exampleStore exampleEscape (exampleEnv 7 103)).2.disk.head? =
      some ("/srv/app/uploads/escape_chunk_0.enc".toList, [121, 121, 121]) ∧
    (CHUNK_DIR exampleHost ++ ['/']).isPrefixOf
      (chunkPath exampleHost exampleEscape.fileId (JSNum.int 0)) = false := by
  decide

/-- C28 (amended). Chunk paths stay inside the chunk directory when the file id does not
climb: an upload answered 200 whose `fileId` has no segment `..` in front of a separator
writes its blob to the chunk path, which is `CHUNK_DIR`, a separator, and then one or more
segments none of which is empty, `.` or `..`. -/
theorem C28_path_inside (host : Host) (st : Store) (req : PostRequest) (env : PostEnv)
    (index : Int)
    (hok : (POST host st req env).1.status = 200)
    (hidx : parseInt (jsToString req.chunkIndex) none = JSNum.int index)
    (hseg : ∀ p ∈ (splitOnChar '/' (jsToString req.fileId)).dropLast, p ≠ ['.', '.']) :
    ((POST host st req env).2.disk.head?).map Prod.fst =
      some (chunkPath host req.fileId (JSNum.int index)) ∧
    (CHUNK_DIR host ++ ['/']) <+: chunkPath host req.fileId (JSNum.int index) ∧
    (chunkPath host req.fileId (JSNum.int index)).length > (CHUNK_DIR host ++ ['/']).length ∧
    ∀ seg ∈ splitOnChar '/' ((chunkPath host req.fileId (JSNum.int index)).drop
        (CHUNK_DIR host ++ ['/']).length),
      seg ≠ [] ∧ seg ≠ ['.'] ∧ seg ≠ ['.', '.'] := by
  obtain ⟨buffer, encrypted, authTag, index2, fileDoc, -, hidx2, -, -, -, -, hst⟩ :=
    POST_ok host st req env hok
  have hii : index2 = index := by
    rw [hidx] at hidx2
    exact (JSNum.int.inj hidx2).symm
  subst hii
  obtain ⟨init, last, hi1, hi2, hlen⟩ := chunkName_pieces (jsToString req.fileId)
    (JSNum.int index2)
  have hpath := chunkPath_inside host req.fileId (JSNum.int index2) hseg
  rw [hi2, List.filter_append, filter_names_singleton _
    (by intro h0; rw [h0] at hlen; simp at hlen)
    (by intro h0; rw [h0] at hlen; simp at hlen)] at hpath
  have hkeptne : List.filter (fun p : Str => decide (p ≠ [] ∧ p ≠ ['.'])) init ++
      [last ++ ("_chunk_".toList ++ (JSNum.int index2).toStr ++ ".enc".toList)] ≠ [] := by
    simp
  have hsplit : splitOnChar '/' (joinWith '/'
      (List.filter (fun p : Str => decide (p ≠ [] ∧ p ≠ ['.'])) init ++
        [last ++ ("_chunk_".toList ++ (JSNum.int index2).toStr ++ ".enc".toList)])) =
      List.filter (fun p : Str => decide (p ≠ [] ∧ p ≠ ['.'])) init ++
        [last ++ ("_chunk_".toList ++ (JSNum.int index2).toStr ++ ".enc".toList)] := by
    apply splitOnChar_joinWith '/' _ hkeptne
    intro s hs
    have : s ∈ splitOnChar '/' (jsToString req.fileId ++ "_chunk_".toList ++
        (JSNum.int index2).toStr ++ ".enc".toList) := by
      rw [hi2]
      rcases List.mem_append.mp hs with h | h
      · exact List.mem_append_left _ (List.mem_of_mem_filter h)
      · exact List.mem_append_right _ h
    exact splitOnChar_mem_no_sep '/' _ s this
  have hdrop : (chunkPath host req.fileId (JSNum.int index2)).drop
      (CHUNK_DIR host ++ ['/']).length = joinWith '/'
      (List.filter (fun p : Str => decide (p ≠ [] ∧ p ≠ ['.'])) init ++
        [last ++ ("_chunk_".toList ++ (JSNum.int index2).toStr ++ ".enc".toList)]) := by
    rw [hpath, show CHUNK_DIR host ++ '/' :: joinWith '/'
        (List.filter (fun p : Str => decide (p ≠ [] ∧ p ≠ ['.'])) init ++
          [last ++ ("_chunk_".toList ++ (JSNum.int index2).toStr ++ ".enc".toList)]) =
        (CHUNK_DIR host ++ ['/']) ++ joinWith '/'
        (List.filter (fun p : Str => decide (p ≠ [] ∧ p ≠ ['.'])) init ++
          [last ++ ("_chunk_".toList ++ (JSNum.int index2).toStr ++ ".enc".toList)]) by simp,
      List.drop_left]
  refine ⟨?_, ?_, ?_, ?_⟩
  · rw [hst]
    rfl
  · rw [hpath]
    exact ⟨joinWith '/' (List.filter (fun p : Str => decide (p ≠ [] ∧ p ≠ ['.'])) init ++
      [last ++ ("_chunk_".toList ++ (JSNum.int index2).toStr ++ ".enc".toList)]), by simp⟩
  · have hne : joinWith '/' (List.filter (fun p : Str => decide (p ≠ [] ∧ p ≠ ['.'])) init ++
        [last ++ ("_chunk_".toList ++ (JSNum.int index2).toStr ++ ".enc".toList)]) ≠ [] := by
      intro h0
      rw [h0] at hsplit
      have := congrArg List.getLast? hsplit
      rw [List.getLast?_append] at this
      simp [splitOnChar] at this
    have hl := congrArg List.length hdrop
    rw [List.length_drop] at hl
    have := List.length_pos.mpr hne
    omega
  · rw [hdrop, hsplit]
    intro seg hs
    rcases List.mem_append.mp hs with h | h
    · have hf := List.of_mem_filter h
      have hmem := List.mem_of_mem_filter h
      simp only [decide_eq_true_eq] at hf
      refine ⟨hf.1, hf.2, ?_⟩
      exact hseg seg (by rw [hi1, List.dropLast_concat]; exact hmem)
    · rw [List.mem_singleton.mp h]
      refine ⟨?_, ?_, ?_⟩ <;> intro h0 <;> rw [h0] at hlen <;> simp at hlen

theorem C28_path_inside_witness :
    ((POST exampleHost exampleStore exampleRewrite (exampleEnv 7 103)).2.disk.head?).map
      Prod.fst = some (chunkPath exampleHost exampleRewrite.fileId (JSNum.int 1)) ∧
    (CHUNK_DIR exampleHost ++ ['/']) <+:
      chunkPath exampleHost exampleRewrite.fileId (JSNum.int 1) ∧
    (chunkPath exampleHost exampleRewrite.fileId (JSNum.int 1)).length >
      (CHUNK_DIR exampleHost ++ ['/']).length :=
  ⟨(C28_path_inside exampleHost exampleStore exampleRewrite (exampleEnv 7 103) 1 (by decide)
      (by decide) (by decide)).1,
   (C28_path_inside exampleHost exampleStore exampleRewrite (exampleEnv 7 103) 1 (by decide)
      (by decide) (by decide)).2.1,
   (C28_path_inside exampleHost exampleStore exampleRewrite (exampleEnv 7 103) 1 (by decide)
      (by decide) (by decide)).2.2.1⟩

/-! ### Two calls of `POST` in flight -/


theorem postStep_start (host : Host) (req : PostRequest) (env : PostEnv) (st : Store) :
    postStep host req env PostPhase.start st =
      match req.chunk with
      | none => (PostPhase.done (caught Thrown.typeError), st)
      | some _ => (PostPhase.found (findOne st.files req.fileId), st) := rfl

theorem postStep_found (host : Host) (req : PostRequest) (env : PostEnv) (st : Store)
    (found : Option FileDoc) :
    postStep host req env (PostPhase.found found) st =
      match req.chunk with
      | none => (PostPhase.done (caught Thrown.typeError), st)
      | some buffer =>
        match encryptChunk host.crypto buffer (cipherParams host found env).2
            (cipherParams host found env).1 with
        | none => (PostPhase.done (caught Thrown.cipherError), st)
        | some (encrypted, authTag) =>
          if env.writeFileOk = false then (PostPhase.done (caught Thrown.ioError), st)
          else
            (PostPhase.written found encrypted authTag,
             { files := st.files
               disk := writeFile st.disk
                 (chunkPath host req.fileId (parseInt (jsToString req.chunkIndex) none))
                 encrypted }) := rfl

theorem postStep_written (host : Host) (req : PostRequest) (env : PostEnv) (st : Store)
    (found : Option FileDoc) (encrypted authTag : Bytes) :
    postStep host req env (PostPhase.written found encrypted authTag) st =
      match docToSave found req.fileId req.fileName
          (orElseStr req.fileType "application/octet-stream".toList)
          (parseInt (orElseStr req.fileSize "0".toList) none)
          (parseInt (jsToString req.chunkIndex) none)
          (cipherParams host found env).1 (cipherParams host found env).2 env.now
          (chunkPath host req.fileId (parseInt (jsToString req.chunkIndex) none))
          encrypted.length authTag with
      | none => (PostPhase.done (caught Thrown.validationError), st)
      | some fileDoc =>
        if env.saveOk = false then (PostPhase.done (caught Thrown.dbError), st)
        else
          match found with
          | some _ =>
            (PostPhase.done
              { status := 200, headers := postHeaders,
                body := Body.uploaded (parseInt (jsToString req.chunkIndex) none)
                  (parseInt (jsToString req.totalChunks) none) req.fileId
                  ("Chunk ".toList ++
                    ((parseInt (jsToString req.chunkIndex) none).add (JSNum.int 1)).toStr ++
                    "/".toList ++ (parseInt (jsToString req.totalChunks) none).toStr ++
                    " uploaded".toList) },
             { st with files := replaceDoc fileDoc st.files })
          | none =>
            if (findOne st.files req.fileId).isSome then
              (PostPhase.done (caught Thrown.dbError), st)
            else
              (PostPhase.done
                { status := 200, headers := postHeaders,
                  body := Body.uploaded (parseInt (jsToString req.chunkIndex) none)
                    (parseInt (jsToString req.totalChunks) none) req.fileId
                    ("Chunk ".toList ++
                      ((parseInt (jsToString req.chunkIndex) none).add (JSNum.int 1)).toStr ++
                      "/".toList ++ (parseInt (jsToString req.totalChunks) none).toStr ++
                      " uploaded".toList) },
               { st with files := st.files ++ [fileDoc] }) := rfl

theorem postStep_done (host : Host) (req : PostRequest) (env : PostEnv) (st : Store)
    (response : Response) :
    postStep host req env (PostPhase.done response) st = (PostPhase.done response, st) := rfl

/-- A call that runs alone through its three steps is the handler `POST`. -/
theorem postStep_alone (host : Host) (st : Store) (req : PostRequest) (env : PostEnv) :
    postStep host req env
      (postStep host req env (postStep host req env PostPhase.start st).1
        (postStep host req env PostPhase.start st).2).1
      (postStep host req env (postStep host req env PostPhase.start st).1
        (postStep host req env PostPhase.start st).2).2 =
    (PostPhase.done (POST host st req env).1, (POST host st req env).2) := by
  rw [postStep_start]
  unfold POST
  cases hchunk : req.chunk with
  | none => rfl
  | some buffer =>
    simp only []
    rw [postStep_found, hchunk]
    simp only []
    cases henc : encryptChunk host.crypto buffer
        (cipherParams host (findOne st.files req.fileId) env).2
        (cipherParams host (findOne st.files req.fileId) env).1 with
    | none => rfl
    | some p =>
      obtain ⟨encrypted, authTag⟩ := p
      simp only []
      by_cases hw : env.writeFileOk = false
      · rw [if_pos hw, if_pos hw]
        rfl
      · rw [if_neg hw, if_neg hw, postStep_written]
        cases hdoc : docToSave (findOne st.files req.fileId) req.fileId req.fileName
            (orElseStr req.fileType "application/octet-stream".toList)
            (parseInt (orElseStr req.fileSize "0".toList) none)
            (parseInt (jsToString req.chunkIndex) none)
            (cipherParams host (findOne st.files req.fileId) env).1
            (cipherParams host (findOne st.files req.fileId) env).2 env.now
            (chunkPath host req.fileId (parseInt (jsToString req.chunkIndex) none))
            encrypted.length authTag with
        | none => rfl
        | some fileDoc =>
          simp only []
          by_cases hs : env.saveOk = false
          · rw [if_pos hs, if_pos hs]
          · rw [if_neg hs, if_neg hs]
            cases hfound : findOne st.files req.fileId with
            | none => simp [hfound]
            | some d => rfl

/-- Each step takes a call that has not answered past one more `await`. -/
theorem postStep_rank (host : Host) (req : PostRequest) (env : PostEnv) (phase : PostPhase)
    (st : Store) :
    min 3 (phase.rank + 1) ≤ (postStep host req env phase st).1.rank := by
  cases phase with
  | start =>
    unfold postStep
    simp only []
    split <;> simp [PostPhase.rank]
  | found fd =>
    unfold postStep
    simp only []
    repeat' split
    all_goals simp [PostPhase.rank]
  | written fd e t =>
    unfold postStep
    simp only []
    repeat' split
    all_goals simp [PostPhase.rank]
  | done r => simp [postStep, PostPhase.rank]

theorem rank_isDone (phase : PostPhase) : phase.isDone = true ↔ 3 ≤ phase.rank := by
  cases phase <;> simp [PostPhase.isDone, PostPhase.rank]

/-- A call that got `k` turns has passed `k` of its three `await`s. -/
theorem race_rank (host : Host) (reqA : PostRequest) (envA : PostEnv) (reqB : PostRequest)
    (envB : PostEnv) (schedule : List Bool) (r : Race) :
    min 3 (r.first.rank + schedule.count true) ≤
      (schedule.foldl (raceStep host reqA envA reqB envB) r).first.rank ∧
    min 3 (r.second.rank + schedule.count false) ≤
      (schedule.foldl (raceStep host reqA envA reqB envB) r).second.rank := by
  induction schedule generalizing r with
  | nil => simp
  | cons turn rest ih =>
    rw [List.foldl_cons]
    have h := ih (raceStep host reqA envA reqB envB r turn)
    cases turn with
    | true =>
      have hs := postStep_rank host reqA envA r.first r.st
      simp only [raceStep, if_true] at h ⊢
      simp only [List.count_cons_self, List.count_cons_of_ne (by decide : true ≠ false)] at *
      constructor
      · refine le_trans ?_ h.1
        omega
      · exact h.2
    | false =>
      have hs := postStep_rank host reqB envB r.second r.st
      simp only [raceStep, Bool.false_eq_true, if_false] at h ⊢
      simp only [List.count_cons_self, List.count_cons_of_ne (by decide : false ≠ true)] at *
      constructor
      · exact h.1
      · refine le_trans ?_ h.2
        omega

theorem PhaseOk_mono (host : Host) (req : PostRequest) (env : PostEnv)
    (phase other other2 : PostPhase) (st : Store)
    (h : PhaseOk host req env phase other st)
    (hdone : other.isDone = true → other2.isDone = true) :
    PhaseOk host req env phase other2 st := by
  cases phase with
  | start => trivial
  | found fd => exact fun doc hd => ⟨hdone (h doc hd).1, (h doc hd).2⟩
  | written fd e t => exact ⟨fun doc hd => ⟨hdone (h.1 doc hd).1, (h.1 doc hd).2⟩, h.2⟩
  | done r => exact h

theorem Owned_mono (host : Host) (req : PostRequest) (phase phase2 : PostPhase)
    (disk : List (Str × Bytes)) (doc : FileDoc) (d : ChunkDescriptor)
    (h : Owned host req phase disk doc d)
    (hdone : phase.isDone = true → phase2.isDone = true) :
    Owned host req phase2 disk doc d :=
  ⟨hdone h.1, h.2⟩

/-- The invariant seen from the other call. -/
theorem RaceInv_symm (host : Host) (files0 : List FileDoc) (reqX : PostRequest)
    (envX : PostEnv) (reqY : PostRequest) (envY : PostEnv) (phaseX phaseY : PostPhase)
    (st : Store) (hsame : reqY.fileId = reqX.fileId)
    (h : RaceInv host files0 reqX envX reqY envY phaseX phaseY st) :
    RaceInv host files0 reqY envY reqX envX phaseY phaseX st := by
  obtain ⟨h1, h2, h3, h4⟩ := h
  refine ⟨?_, h3, h2, ?_⟩
  · rw [hsame]
    exact h1
  · rw [hsame]
    intro doc hdoc
    obtain ⟨ha, hb, hc⟩ := h4 doc hdoc
    exact ⟨ha.symm, hb.symm, fun d hd => (hc d hd).symm⟩

/-- A step of a call that leaves the state as it was keeps the invariant, when the new
phase of the call is in order. -/
theorem RaceInv_advance (host : Host) (files0 : List FileDoc) (reqX : PostRequest)
    (envX : PostEnv) (reqY : PostRequest) (envY : PostEnv) (phaseX phaseX2 phaseY : PostPhase)
    (st : Store)
    (h : RaceInv host files0 reqX envX reqY envY phaseX phaseY st)
    (hdone : phaseX.isDone = true → phaseX2.isDone = true)
    (hok : PhaseOk host reqX envX phaseX2 phaseY st) :
    RaceInv host files0 reqX envX reqY envY phaseX2 phaseY st := by
  obtain ⟨h1, -, h3, h4⟩ := h
  refine ⟨h1, hok, PhaseOk_mono host reqY envY phaseY phaseX phaseX2 st h3 hdone, ?_⟩
  intro doc hdoc
  obtain ⟨ha, hb, hc⟩ := h4 doc hdoc
  refine ⟨?_, hb, ?_⟩
  · rcases ha with ha | ha
    · exact Or.inl (hdone ha)
    · exact Or.inr ha
  · intro d hd
    rcases hc d hd with ho | ho
    · exact Or.inl (Owned_mono host reqX phaseX phaseX2 st.disk doc d ho hdone)
    · exact Or.inr ho

/-- A call that answers 500 leaves the state as it was and keeps the invariant. -/
theorem RaceInv_caught (host : Host) (files0 : List FileDoc) (reqX : PostRequest)
    (envX : PostEnv) (reqY : PostRequest) (envY : PostEnv) (phaseX phaseY : PostPhase)
    (st : Store) (e : Thrown)
    (h : RaceInv host files0 reqX envX reqY envY phaseX phaseY st) :
    RaceInv host files0 reqX envX reqY envY (PostPhase.done (caught e)) phaseY st :=
  RaceInv_advance host files0 reqX envX reqY envY phaseX _ phaseY st h (fun _ => rfl)
    (fun h200 => absurd h200 (by show (500 : Nat) ≠ 200; decide))

theorem replaceDoc_append_new (files0 : List FileDoc) (old doc : FileDoc)
    (hnew : findOne files0 (some old.fileId) = none) (hid : doc.fileId = old.fileId) :
    replaceDoc doc (files0 ++ [old]) = files0 ++ [doc] := by
  induction files0 with
  | nil => simp [replaceDoc, hid]
  | cons d ds ih =>
    have hd : d.fileId ≠ old.fileId := by
      intro hd
      simp [findOne, List.find?, hd] at hnew
    have hrest : findOne ds (some old.fileId) = none := by
      simpa [findOne, List.find?, hd] using hnew
    rw [List.cons_append, replaceDoc, if_neg (by rw [hid]; exact hd), ih hrest]
    rfl

theorem findOne_append_eq (files0 : List FileDoc) (doc : FileDoc) (fileId : Option Str)
    (hnew : findOne files0 fileId = none) (hid : some doc.fileId = fileId) :
    findOne (files0 ++ [doc]) fileId = some doc := by
  subst hid
  exact findOne_append_new files0 doc hnew

/-- What `docToSave` builds for an object that `findOne` did not return. -/
theorem docToSave_none (fileId fileName : Option Str) (fileType : Str) (fileSize : JSNum)
    (index : Int) (iv : Bytes) (key : Str) (now : Nat) (path : Str) (size : Nat)
    (authTag : Bytes) (doc : FileDoc)
    (h : docToSave none fileId fileName fileType fileSize (JSNum.int index) iv key now path
      size authTag = some doc) :
    some doc.fileId = fileId ∧ doc.encryptionIV = bufferToHex iv ∧ doc.encryptionKey = key ∧
      doc.chunks = [{ index := index, filePath := path, size := size,
                      authTag := bufferToHex authTag }] := by
  unfold docToSave at h
  simp only [] at h
  split at h
  · split_ifs at h
    have := Option.some.inj h
    subst this
    exact ⟨rfl, rfl, rfl, rfl⟩
  · exact Option.noConfusion h

/-- One step of a call keeps the invariant. -/
theorem RaceInv_step (host : Host) (files0 : List FileDoc) (reqX : PostRequest)
    (envX : PostEnv) (reqY : PostRequest) (envY : PostEnv) (phaseX phaseY : PostPhase)
    (st : Store) (indexX indexY : Int)
    (hnew : findOne files0 reqX.fileId = none)
    (hsame : reqY.fileId = reqX.fileId)
    (hX : parseInt (jsToString reqX.chunkIndex) none = JSNum.int indexX)
    (hY : parseInt (jsToString reqY.chunkIndex) none = JSNum.int indexY)
    (hne : indexX ≠ indexY)
    (h : RaceInv host files0 reqX envX reqY envY phaseX phaseY st) :
    RaceInv host files0 reqX envX reqY envY (postStep host reqX envX phaseX st).1 phaseY
      (postStep host reqX envX phaseX st).2 := by
  have hpath : chunkPath host reqX.fileId (JSNum.int indexX) ≠
      chunkPath host reqY.fileId (JSNum.int indexY) := by
    rw [hsame]
    exact fun hp => hne (chunkPath_injective host _ _ _ hp)
  cases phaseX with
  | start =>
    rw [postStep_start]
    cases hchunk : reqX.chunk with
    | none => exact RaceInv_caught host files0 reqX envX reqY envY _ phaseY st _ h
    | some buffer =>
      refine RaceInv_advance host files0 reqX envX reqY envY _ _ phaseY st h
        (fun hd => absurd hd (by simp [PostPhase.isDone])) ?_
      intro doc hdoc
      obtain ⟨ha, -, -⟩ := h.2.2.2 doc hdoc
      rcases ha with ha | ha
      · exact absurd ha (by simp [PostPhase.isDone])
      · exact ⟨ha, hdoc⟩
  | found fd =>
    rw [postStep_found]
    cases hchunk : reqX.chunk with
    | none => exact RaceInv_caught host files0 reqX envX reqY envY _ phaseY st _ h
    | some buffer =>
      simp only []
      cases henc : encryptChunk host.crypto buffer (cipherParams host fd envX).2
          (cipherParams host fd envX).1 with
      | none => exact RaceInv_caught host files0 reqX envX reqY envY _ phaseY st _ h
      | some p =>
        obtain ⟨enc, tag⟩ := p
        simp only []
        by_cases hw : envX.writeFileOk = false
        · rw [if_pos hw]
          exact RaceInv_caught host files0 reqX envX reqY envY _ phaseY st _ h
        · rw [if_neg hw]
          obtain ⟨h1, h2, h3, h4⟩ := h
          refine ⟨h1, ⟨h2, buffer, hchunk, henc, readFile_writeFile_same _ _ _⟩, ?_, ?_⟩
          · cases phaseY with
            | start => trivial
            | found fdY => exact fun doc hd => absurd (h3 doc hd).1 (by simp [PostPhase.isDone])
            | written fdY eY tY =>
              refine ⟨fun doc hd => absurd (h3.1 doc hd).1 (by simp [PostPhase.isDone]), ?_⟩
              obtain ⟨bY, hbY, hencY, hreadY⟩ := h3.2
              refine ⟨bY, hbY, hencY, ?_⟩
              rw [hY] at hreadY ⊢
              rw [hX]
              show readFile (writeFile st.disk _ _) _ = some eY
              rw [readFile_writeFile_other _ _ _ _ hpath]
              exact hreadY
            | done r => exact h3
          · intro doc hdoc
            obtain ⟨ha, hb, hc⟩ := h4 doc hdoc
            have hYdone : phaseY.isDone = true := by
              rcases ha with ha | ha
              · exact absurd ha (by simp [PostPhase.isDone])
              · exact ha
            refine ⟨Or.inr hYdone, hb, ?_⟩
            intro d hd
            rcases hc d hd with ho | ho
            · exact absurd ho.1 (by simp [PostPhase.isDone])
            · right
              obtain ⟨o1, o2, b, e, t, o3, o4, o5, o6⟩ := ho
              refine ⟨o1, o2, b, e, t, o3, o4, ?_, o6⟩
              show readFile (writeFile st.disk _ _) d.filePath = some e
              rw [readFile_writeFile_other _ _ _ _ (by rw [o2, hX, hY]; exact hpath)]
              exact o5
  | written fd enc tag =>
    rw [postStep_written]
    cases hdoc : docToSave fd reqX.fileId reqX.fileName
        (orElseStr reqX.fileType "application/octet-stream".toList)
        (parseInt (orElseStr reqX.fileSize "0".toList) none)
        (parseInt (jsToString reqX.chunkIndex) none)
        (cipherParams host fd envX).1 (cipherParams host fd envX).2 envX.now
        (chunkPath host reqX.fileId (parseInt (jsToString reqX.chunkIndex) none))
        enc.length tag with
    | none => exact RaceInv_caught host files0 reqX envX reqY envY _ phaseY st _ h
    | some fileDoc =>
      simp only []
      by_cases hs : envX.saveOk = false
      · rw [if_pos hs]
        exact RaceInv_caught host files0 reqX envX reqY envY _ phaseY st _ h
      · rw [if_neg hs]
        rw [hX] at hdoc
        obtain ⟨h1, h2, h3, h4⟩ := h
        obtain ⟨h2a, buffer, hchunk, henc, hread⟩ := h2
        cases fd with
        | some d0 =>
          simp only []
          obtain ⟨hYdone, hfind0⟩ := h2a d0 rfl
          rw [docToSave_some] at hdoc
          have hfd := Option.some.inj hdoc
          have hkey : fileDoc.encryptionKey = d0.encryptionKey := by rw [← hfd]
          have hiv : fileDoc.encryptionIV = d0.encryptionIV := by rw [← hfd]
          have hfid : fileDoc.fileId = d0.fileId := by rw [← hfd]
          have hid0 : some d0.fileId = reqX.fileId := (findOne_request _ _ _ hfind0).symm
          have hfiles : st.files = files0 ++ [d0] := by
            rcases h1 with h1 | ⟨doc, h1, hdocid⟩
            · rw [h1, hnew] at hfind0
              exact Option.noConfusion hfind0
            · rw [h1, findOne_append_eq files0 doc _ hnew hdocid] at hfind0
              rw [h1, Option.some.inj hfind0]
          have hfiles2 : replaceDoc fileDoc st.files = files0 ++ [fileDoc] := by
            rw [hfiles]
            exact replaceDoc_append_new files0 d0 fileDoc (by rw [hid0]; exact hnew) hfid
          have hfind2 : findOne (replaceDoc fileDoc st.files) reqX.fileId = some fileDoc := by
            rw [hfiles2]
            exact findOne_append_eq files0 fileDoc _ hnew (by rw [hfid]; exact hid0)
          refine ⟨Or.inr ⟨fileDoc, hfiles2, by rw [hfid]; exact hid0⟩, ?_, ?_, ?_⟩
          · intro _
            show (findOne (replaceDoc fileDoc st.files) reqX.fileId).isSome = true
            rw [hfind2]
            rfl
          · cases phaseY with
            | start => exact absurd hYdone (by simp [PostPhase.isDone])
            | found fdY => exact absurd hYdone (by simp [PostPhase.isDone])
            | written fdY eY tY => exact absurd hYdone (by simp [PostPhase.isDone])
            | done r =>
              intro _
              show (findOne (replaceDoc fileDoc st.files) reqY.fileId).isSome = true
              rw [hsame, hfind2]
              rfl
          · intro doc hdoc2
            have hdoceq : doc = fileDoc := by
              have : findOne (replaceDoc fileDoc st.files) reqX.fileId = some doc := hdoc2
              rw [hfind2] at this
              exact (Option.some.inj this).symm
            subst hdoceq
            obtain ⟨-, hb, hc⟩ := h4 d0 hfind0
            refine ⟨Or.inl rfl, by rw [hkey, hiv]; exact hb, ?_⟩
            intro d hd
            rw [← hfd] at hd
            rcases List.mem_append.mp hd with hd | hd
            · rcases hc d hd with ho | ho
              · exact absurd ho.1 (by simp [PostPhase.isDone])
              · right
                obtain ⟨o1, o2, b, e, t, o3, o4, o5, o6⟩ := ho
                exact ⟨o1, o2, b, e, t, o3, by rw [hkey, hiv]; exact o4, o5, o6⟩
            · left
              rw [List.mem_singleton.mp hd]
              refine ⟨rfl, by rw [hX], buffer, enc, tag, hchunk, ?_, ?_, rfl⟩
              · rw [hkey, hiv]
                exact henc
              · rw [hX] at hread
                exact hread
        | none =>
          simp only []
          by_cases hdup : (findOne st.files reqX.fileId).isSome = true
          · rw [if_pos hdup]
            exact RaceInv_caught host files0 reqX envX reqY envY
              (PostPhase.written none enc tag) phaseY st _
              ⟨h1, ⟨h2a, buffer, hchunk, henc, hread⟩, h3, h4⟩
          · rw [if_neg hdup]
            have hnone : findOne st.files reqX.fileId = none := by
              cases hf : findOne st.files reqX.fileId with
              | none => rfl
              | some x => rw [hf] at hdup; exact absurd rfl hdup
            obtain ⟨hid, hiv, hkey, hchunks⟩ := docToSave_none _ _ _ _ _ _ _ _ _ _ _ _ hdoc
            have hfiles : st.files = files0 := by
              rcases h1 with h1 | ⟨doc, h1, hdocid⟩
              · exact h1
              · rw [h1, findOne_append_eq files0 doc _ hnew hdocid] at hnone
                exact Option.noConfusion hnone
            have hfind2 : findOne (st.files ++ [fileDoc]) reqX.fileId = some fileDoc := by
              rw [hfiles]
              exact findOne_append_eq files0 fileDoc _ hnew hid
            refine ⟨Or.inr ⟨fileDoc, by show st.files ++ [fileDoc] = _; rw [hfiles], hid⟩,
              ?_, ?_, ?_⟩
            · intro _
              show (findOne (st.files ++ [fileDoc]) reqX.fileId).isSome = true
              rw [hfind2]
              rfl
            · cases phaseY with
              | start => trivial
              | found fdY => exact fun doc hd => absurd (h3 doc hd).1 (by simp [PostPhase.isDone])
              | written fdY eY tY =>
                exact ⟨fun doc hd => absurd (h3.1 doc hd).1 (by simp [PostPhase.isDone]), h3.2⟩
              | done r =>
                intro _
                show (findOne (st.files ++ [fileDoc]) reqY.fileId).isSome = true
                rw [hsame, hfind2]
                rfl
            · intro doc hdoc2
              have hdoceq : doc = fileDoc := by
                have : findOne (st.files ++ [fileDoc]) reqX.fileId = some doc := hdoc2
                rw [hfind2] at this
                exact (Option.some.inj this).symm
              subst hdoceq
              refine ⟨Or.inl rfl, Or.inl ?_, ?_⟩
              · rw [hiv, hkey, bufferFromHex_toHex]
              · intro d hd
                rw [hchunks] at hd
                left
                rw [List.mem_singleton.mp hd]
                refine ⟨rfl, by rw [hX], buffer, enc, tag, hchunk, ?_, ?_, rfl⟩
                · rw [hiv, hkey, bufferFromHex_toHex]
                  exact henc
                · rw [hX] at hread
                  exact hread
  | done r =>
    rw [postStep_done]
    exact h

/-- Every schedule keeps the invariant. -/
theorem RaceInv_foldl (host : Host) (files0 : List FileDoc) (reqA : PostRequest)
    (envA : PostEnv) (reqB : PostRequest) (envB : PostEnv) (indexA indexB : Int)
    (hnew : findOne files0 reqA.fileId = none)
    (hsame : reqB.fileId = reqA.fileId)
    (hA : parseInt (jsToString reqA.chunkIndex) none = JSNum.int indexA)
    (hB : parseInt (jsToString reqB.chunkIndex) none = JSNum.int indexB)
    (hne : indexA ≠ indexB) (schedule : List Bool) (r : Race)
    (h : RaceInv host files0 reqA envA reqB envB r.first r.second r.st) :
    RaceInv host files0 reqA envA reqB envB
      (schedule.foldl (raceStep host reqA envA reqB envB) r).first
      (schedule.foldl (raceStep host reqA envA reqB envB) r).second
      (schedule.foldl (raceStep host reqA envA reqB envB) r).st := by
  induction schedule generalizing r with
  | nil => exact h
  | cons turn rest ih =>
    rw [List.foldl_cons]
    apply ih
    cases turn with
    | true =>
      exact RaceInv_step host files0 reqA envA reqB envB r.first r.second r.st indexA indexB
        hnew hsame hA hB hne h
    | false =>
      apply RaceInv_symm host files0 reqB envB reqA envA _ _ _ hsame.symm
      exact RaceInv_step host files0 reqB envB reqA envA r.second r.first r.st indexB indexA
        (by rw [hsame]; exact hnew) hsame.symm hB hA (Ne.symm hne)
        (RaceInv_symm host files0 reqA envA reqB envB _ _ _ hsame h)

theorem filter_fileId_of_findOne_none (files : List FileDoc) (fileId : Option Str)
    (h : findOne files fileId = none) :
    files.filter (fun d => decide (some d.fileId = fileId)) = [] := by
  unfold findOne at h
  rw [List.filter_eq_nil_iff]
  intro d hd
  have := List.find?_eq_none.mp h d hd
  simpa using this

/-- C23. Concurrent first-chunk race: two calls of `POST` for the same `fileId`, which the
collection does not hold, with different integer chunk indices, run under any schedule of
their steps between the `await`s on `File.findOne`, `writeFile` and `fileDoc.save()`, the
second insert of a document with the `fileId` being rejected by the unique index.  A call
that got three turns has answered.  At every moment the collection holds at most one
document with the `fileId`; it holds one when a call was answered 200; the key and IV of
the document are those that one of the two calls has drawn; and every descriptor of the
document points to a blob that is the chunk of one of the calls encrypted under that key
and IV, with the tag that the descriptor carries. -/
theorem C23_one_pair (host : Host) (st : Store) (reqA : PostRequest) (envA : PostEnv)
    (reqB : PostRequest) (envB : PostEnv) (indexA indexB : Int) (schedule : List Bool)
    (hnew : findOne st.files reqA.fileId = none)
    (hsame : reqB.fileId = reqA.fileId)
    (hA : parseInt (jsToString reqA.chunkIndex) none = JSNum.int indexA)
    (hB : parseInt (jsToString reqB.chunkIndex) none = JSNum.int indexB)
    (hne : indexA ≠ indexB) :
    (3 ≤ schedule.count true → (race host st reqA envA reqB envB schedule).first.isDone = true) ∧
    (3 ≤ schedule.count false →
      (race host st reqA envA reqB envB schedule).second.isDone = true) ∧
    ((race host st reqA envA reqB envB schedule).st.files.filter
      (fun d => decide (some d.fileId = reqA.fileId))).length ≤ 1 ∧
    (∀ response,
      ((race host st reqA envA reqB envB schedule).first = PostPhase.done response ∨
        (race host st reqA envA reqB envB schedule).second = PostPhase.done response) →
      response.status = 200 →
      (findOne (race host st reqA envA reqB envB schedule).st.files reqA.fileId).isSome = true) ∧
    ∀ doc, findOne (race host st reqA envA reqB envB schedule).st.files reqA.fileId = some doc →
      ((bufferFromHex doc.encryptionIV, doc.encryptionKey) = cipherParams host none envA ∨
        (bufferFromHex doc.encryptionIV, doc.encryptionKey) = cipherParams host none envB) ∧
      ∀ d ∈ doc.chunks, ∃ buffer encrypted authTag,
        (reqA.chunk = some buffer ∨ reqB.chunk = some buffer) ∧
        encryptChunk host.crypto buffer doc.encryptionKey (bufferFromHex doc.encryptionIV) =
          some (encrypted, authTag) ∧
        readFile (race host st reqA envA reqB envB schedule).st.disk d.filePath =
          some encrypted ∧
        d.authTag = bufferToHex authTag := by
  have hrank := race_rank host reqA envA reqB envB schedule
    { first := PostPhase.start, second := PostPhase.start, st := st }
  have hinv := RaceInv_foldl host st.files reqA envA reqB envB indexA indexB hnew hsame hA hB
    hne schedule { first := PostPhase.start, second := PostPhase.start, st := st }
    ⟨Or.inl rfl, trivial, trivial, fun doc hdoc => by
      rw [hnew] at hdoc
      exact Option.noConfusion hdoc⟩
  unfold race
  obtain ⟨h1, h2, h3, h4⟩ := hinv
  refine ⟨?_, ?_, ?_, ?_, ?_⟩
  · intro hc
    rw [rank_isDone]
    refine le_trans ?_ hrank.1
    simp only [PostPhase.rank]
    omega
  · intro hc
    rw [rank_isDone]
    refine le_trans ?_ hrank.2
    simp only [PostPhase.rank]
    omega
  · rcases h1 with h1 | ⟨doc, h1, hid⟩
    · rw [h1, filter_fileId_of_findOne_none _ _ hnew]
      simp
    · rw [h1, List.filter_append, filter_fileId_of_findOne_none _ _ hnew]
      simp [List.filter, hid]
  · intro response hresp h200
    rcases hresp with hresp | hresp
    · rw [hresp] at h2
      exact h2 h200
    · rw [hresp] at h3
      have := h3 h200
      rw [hsame] at this
      exact this
  · intro doc hdoc
    obtain ⟨-, hb, hc⟩ := h4 doc hdoc
    refine ⟨hb, ?_⟩
    intro d hd
    rcases hc d hd with ho | ho
    · obtain ⟨-, -, b, e, t, o3, o4, o5, o6⟩ := ho
      exact ⟨b, e, t, Or.inl o3, o4, o5, o6⟩
    · obtain ⟨-, -, b, e, t, o3, o4, o5, o6⟩ := ho
      exact ⟨b, e, t, Or.inr o3, o4, o5, o6⟩

theorem C23_one_pair_witness :
    (race exampleHost ⟨[], []⟩ (exampleUpload "text/plain".toList 0) (exampleEnv 7 100)
      (exampleUpload "text/plain".toList 1) (exampleEnv 50 101)
      [true, false, true, false, false, true]).first.isDone = true ∧
    (race exampleHost ⟨[], []⟩ (exampleUpload "text/plain".toList 0) (exampleEnv 7 100)
      (exampleUpload "text/plain".toList 1) (exampleEnv 50 101)
      [true, false, true, false, false, true]).second.isDone = true ∧
    ((race exampleHost ⟨[], []⟩ (exampleUpload "text/plain".toList 0) (exampleEnv 7 100)
      (exampleUpload "text/plain".toList 1) (exampleEnv 50 101)
      [true, false, true, false, false, true]).st.files.filter
      (fun d => decide (some d.fileId = (exampleUpload "text/plain".toList 0).fileId))).length
      ≤ 1 :=
  ⟨(C23_one_pair exampleHost ⟨[], []⟩ (exampleUpload "text/plain".toList 0) (exampleEnv 7 100)
      (exampleUpload "text/plain".toList 1) (exampleEnv 50 101) 0 1
      [true, false, true, false, false, true] (by decide) (by decide) (by decide) (by decide)
      (by decide)).1 (by decide),
   (C23_one_pair exampleHost ⟨[], []⟩ (exampleUpload "text/plain".toList 0) (exampleEnv 7 100)
      (exampleUpload "text/plain".toList 1) (exampleEnv 50 101) 0 1
      [true, false, true, false, false, true] (by decide) (by decide) (by decide) (by decide)
      (by decide)).2.1 (by decide),
   (C23_one_pair exampleHost ⟨[], []⟩ (exampleUpload "text/plain".toList 0) (exampleEnv 7 100)
      (exampleUpload "text/plain".toList 1) (exampleEnv 50 101) 0 1
      [true, false, true, false, false, true] (by decide) (by decide) (by decide) (by decide)
      (by decide)).2.2.1⟩

end PremiumAccess
